import Mathlib

/-! ## tuiter: the encrypted session store and the handler helpers

A shallow embedding of `src/auth_store.go` and of the parts of `src/handlers_helpers.go`,
`src/handlers_media.go`, `src/handlers_timeline.go` and `src/helpers.go` named below, and
properties of them.

Conventions of the embedding:

* a Go `[]byte` and the bytes of a Go `string` are a `List Nat` (each element a byte value);
  `utf8` gives the bytes of a string literal;
* `uint32` arithmetic is `Nat` arithmetic reduced `% 2^32`;
* a Go `(value, error)` result is an `Except Error value`;
* a call that a nil dereference can stop ends in an `Ending`: its results, or the panic;
* the standard-library routines the file calls are embedded from their definition:
  `encoding/base64` (`StdEncoding`, RFC 4648 section 4) and `crypto/sha256` (FIPS 180-4);
* AES-GCM, `encoding/json` and the set of record fields of the `oauth` package are
  parameters (`AEAD`, `Codec`, the payload type `P`);
* the SQLite engine is its two tables, and each SQL statement of the file is the list
  operation it denotes; faults of the engine itself (I/O, a cancelled context) are outside
  the embedding, so a statement always executes and a query fails with `sql.ErrNoRows` only;
* `rand.Reader` is the list of bytes it delivers to the call, `time.Now().Unix()` is an
  argument;
* the calls of the handlers to the remote service (`FeedGetPosts`, `FeedGetPostThread`,
  `ActorGetProfile`) are function arguments, and a loop is a recursion on the iterations
  it has left.
-/

namespace Tuiter

/-! ## Bytes and errors -/

/-- Go errors, identified by their message. -/
abbrev Error := String

deriving instance DecidableEq for Except

/-- The bytes of a Go string literal (`[]byte(s)`). -/
def utf8 (s : String) : List Nat := s.toUTF8.data.toList.map UInt8.toNat

/-- Every element is a byte value. -/
def IsBytes (bs : List Nat) : Prop := ∀ b ∈ bs, b < 256

instance (bs : List Nat) : Decidable (IsBytes bs) := by
  unfold IsBytes; infer_instance

/-! ## `encoding/base64`, `StdEncoding` -/

namespace base64

/-- The alphabet of `StdEncoding`:
`ABCDEFGHIJKLMNOPQRSTUVWXYZabcdefghijklmnopqrstuvwxyz0123456789+/`. -/
def encodeStd : List Nat :=
  [65, 66, 67, 68, 69, 70, 71, 72, 73, 74, 75, 76, 77, 78, 79, 80,
   81, 82, 83, 84, 85, 86, 87, 88, 89, 90, 97, 98, 99, 100, 101, 102,
   103, 104, 105, 106, 107, 108, 109, 110, 111, 112, 113, 114, 115, 116, 117, 118,
   119, 120, 121, 122, 48, 49, 50, 51, 52, 53, 54, 55, 56, 57, 43, 47]

/-- The padding character `'='` of `StdEncoding`. -/
def padChar : Nat := 61

/-- The character of a 6-bit value: `enc.encode[v & 0x3F]`. -/
def encodeChar (v : Nat) : Nat := encodeStd.getD (v % 64) 0

/-- The table `enc.decodeMap`: the index of `c` in the alphabet, `0xff` for any other byte. -/
def decodeMap (c : Nat) : Nat :=
  if encodeStd.indexOf c < 64 then encodeStd.indexOf c else 255

/-- The loop of `Encoding.Encode`: three bytes give four characters; a remainder of one or
two bytes is padded with `=`. -/
def encode : List Nat → List Nat
  | [] => []
  | [a] => [encodeChar (a / 4), encodeChar (a % 4 * 16), padChar, padChar]
  | [a, b] => [encodeChar (a / 4), encodeChar (a % 4 * 16 + b / 16), encodeChar (b % 16 * 4),
      padChar]
  | a :: b :: c :: rest =>
      encodeChar (a / 4) :: encodeChar (a % 4 * 16 + b / 16) ::
        encodeChar (b % 16 * 4 + c / 64) :: encodeChar (c % 64) :: encode rest

/-- `Encoding.EncodeToString`. -/
def EncodeToString (src : List Nat) : List Nat := encode src

/-- The newline-skipping loops of `decodeQuantum`:
`for si < len(src) && (src[si] == '\n' || src[si] == '\r') { si++ }`. -/
def skipNewlines : List Nat → List Nat
  | [] => []
  | c :: rest => if c = 10 ∨ c = 13 then skipNewlines rest else c :: rest

/-- The bytes of one quantum: `val` is the 24-bit value of the four 6-bit digits in `dbuf`
(missing digits are zero) and `dlen - 1` bytes of it are written. -/
def quantumBytes (dbuf : List Nat) : List Nat :=
  let val := dbuf.getD 0 0 * 262144 + dbuf.getD 1 0 * 4096 + dbuf.getD 2 0 * 64 + dbuf.getD 3 0
  ([val / 65536 % 256, val / 256 % 256, val % 256]).take (dbuf.length - 1)

/-- The quanta of `Encoding.Decode`, one `decodeQuantum` after the other; `dbuf` holds the
digits of the quantum read so far (`j = dbuf.length`).  `none` is a `CorruptInputError`. -/
def decodeFrom : List Nat → List Nat → Option (List Nat)
  | [], dbuf => if dbuf.length = 0 then some [] else none
  | c :: rest, dbuf =>
    if decodeMap c ≠ 255 then
      if dbuf.length = 3 then
        (decodeFrom rest []).map (fun out => quantumBytes (dbuf ++ [decodeMap c]) ++ out)
      else decodeFrom rest (dbuf ++ [decodeMap c])
    else if c = 10 ∨ c = 13 then decodeFrom rest dbuf
    else if c ≠ padChar then none
    else if dbuf.length < 2 then none
    else if dbuf.length = 2 then
      match skipNewlines rest with
      | [] => none
      | c2 :: rest2 =>
        if c2 ≠ padChar then none
        else if skipNewlines rest2 ≠ [] then none
        else some (quantumBytes dbuf)
    else
      if skipNewlines rest ≠ [] then none
      else some (quantumBytes dbuf)

/-- `Encoding.DecodeString`, for the result with a nil error. -/
def DecodeString (s : List Nat) : Option (List Nat) := decodeFrom s []

end base64

/-! ## `crypto/sha256` -/

namespace sha256

/-- The round constants `_K`. -/
def _K : List Nat :=
  [0x428a2f98, 0x71374491, 0xb5c0fbcf, 0xe9b5dba5, 0x3956c25b, 0x59f111f1, 0x923f82a4, 0xab1c5ed5,
   0xd807aa98, 0x12835b01, 0x243185be, 0x550c7dc3, 0x72be5d74, 0x80deb1fe, 0x9bdc06a7, 0xc19bf174,
   0xe49b69c1, 0xefbe4786, 0x0fc19dc6, 0x240ca1cc, 0x2de92c6f, 0x4a7484aa, 0x5cb0a9dc, 0x76f988da,
   0x983e5152, 0xa831c66d, 0xb00327c8, 0xbf597fc7, 0xc6e00bf3, 0xd5a79147, 0x06ca6351, 0x14292967,
   0x27b70a85, 0x2e1b2138, 0x4d2c6dfc, 0x53380d13, 0x650a7354, 0x766a0abb, 0x81c2c92e, 0x92722c85,
   0xa2bfe8a1, 0xa81a664b, 0xc24b8b70, 0xc76c51a3, 0xd192e819, 0xd6990624, 0xf40e3585, 0x106aa070,
   0x19a4c116, 0x1e376c08, 0x2748774c, 0x34b0bcb5, 0x391c0cb3, 0x4ed8aa4a, 0x5b9cca4f, 0x682e6ff3,
   0x748f82ee, 0x78a5636f, 0x84c87814, 0x8cc70208, 0x90befffa, 0xa4506ceb, 0xbef9a3f7, 0xc67178f2]

/-- The eight working words of a digest. -/
structure State where
  h0 : Nat
  h1 : Nat
  h2 : Nat
  h3 : Nat
  h4 : Nat
  h5 : Nat
  h6 : Nat
  h7 : Nat
deriving DecidableEq, Repr

/-- The initial value `init0 .. init7`. -/
def init : State :=
  ⟨0x6a09e667, 0xbb67ae85, 0x3c6ef372, 0xa54ff53a, 0x510e527f, 0x9b05688c, 0x1f83d9ab, 0x5be0cd19⟩

/-- `bits.RotateLeft32(x, -k)` on a 32-bit word. -/
def rotr (x k : Nat) : Nat := (x >>> k ||| x <<< (32 - k)) % 2 ^ 32

/-- `^x` on a 32-bit word. -/
def not32 (x : Nat) : Nat := 2 ^ 32 - 1 - x % 2 ^ 32

/-- The first sixteen words of the schedule: the block read as big-endian `uint32`s. -/
def words : List Nat → List Nat
  | a :: b :: c :: d :: rest => (a * 16777216 + b * 65536 + c * 256 + d) :: words rest
  | _ => []

/-- The loop `for i := 16; i < 64; i++` of `blockGeneric`, run for `n` further words. -/
def schedule : Nat → List Nat → List Nat
  | 0, w => w
  | n + 1, w =>
    let i := w.length
    let v1 := w.getD (i - 2) 0
    let t1 := rotr v1 17 ^^^ rotr v1 19 ^^^ (v1 >>> 10)
    let v2 := w.getD (i - 15) 0
    let t2 := rotr v2 7 ^^^ rotr v2 18 ^^^ (v2 >>> 3)
    schedule n (w ++ [(t1 + w.getD (i - 7) 0 + t2 + w.getD (i - 16) 0) % 2 ^ 32])

/-- One round of the compression loop, with the constant and the schedule word added in. -/
def round (s : State) (kw : Nat) : State :=
  let t1 := (s.h7 + (rotr s.h4 6 ^^^ rotr s.h4 11 ^^^ rotr s.h4 25) +
    ((s.h4 &&& s.h5) ^^^ (not32 s.h4 &&& s.h6)) + kw) % 2 ^ 32
  let t2 := ((rotr s.h0 2 ^^^ rotr s.h0 13 ^^^ rotr s.h0 22) +
    ((s.h0 &&& s.h1) ^^^ (s.h0 &&& s.h2) ^^^ (s.h1 &&& s.h2))) % 2 ^ 32
  ⟨(t1 + t2) % 2 ^ 32, s.h0, s.h1, s.h2, (s.h3 + t1) % 2 ^ 32, s.h4, s.h5, s.h6⟩

/-- The body of `blockGeneric` for one 64-byte chunk `p`. -/
def block (dig : State) (p : List Nat) : State :=
  let w := schedule 48 (words p)
  let s := (List.zipWith (fun k x => k + x) _K w).foldl round dig
  ⟨(dig.h0 + s.h0) % 2 ^ 32, (dig.h1 + s.h1) % 2 ^ 32, (dig.h2 + s.h2) % 2 ^ 32,
   (dig.h3 + s.h3) % 2 ^ 32, (dig.h4 + s.h4) % 2 ^ 32, (dig.h5 + s.h5) % 2 ^ 32,
   (dig.h6 + s.h6) % 2 ^ 32, (dig.h7 + s.h7) % 2 ^ 32⟩

/-- The outer loop `for len(p) >= chunk` of `blockGeneric`, over `n` chunks. -/
def blocks : Nat → State → List Nat → State
  | 0, dig, _ => dig
  | n + 1, dig, p => blocks n (block dig (p.take 64)) (p.drop 64)

/-- `binary.BigEndian.PutUint32`. -/
def be32 (x : Nat) : List Nat := [x / 16777216 % 256, x / 65536 % 256, x / 256 % 256, x % 256]

/-- `binary.BigEndian.PutUint64`. -/
def be64 (x : Nat) : List Nat := be32 (x / 4294967296 % 4294967296) ++ be32 (x % 4294967296)

/-- The padding written by `checkSum`: `0x80`, zeros up to 56 modulo 64, and the length in
bits as a big-endian `uint64`. -/
def padding (len : Nat) : List Nat :=
  let t := if len % 64 < 56 then 56 - len % 64 else 64 + 56 - len % 64
  128 :: List.replicate (t - 1) 0 ++ be64 (len * 8 % 2 ^ 64)

/-- `sha256.Sum256`. -/
def Sum256 (data : List Nat) : List Nat :=
  let p := data ++ padding data.length
  let d := blocks (p.length / 64) init p
  be32 d.h0 ++ be32 d.h1 ++ be32 d.h2 ++ be32 d.h3 ++ be32 d.h4 ++ be32 d.h5 ++ be32 d.h6 ++
    be32 d.h7

end sha256

/-! ## Key derivation -/

/-- Go: `deriveKeyFromEnv`; `raw` is the bytes of the secret. -/
def deriveKeyFromEnv (raw : List Nat) : Except Error (List Nat) :=
  if raw = [] then
    .error "SESSION_DB_KEY is required"
  else
    match base64.DecodeString raw with
    | some decoded =>
      if decoded.length ≥ 16 then
        if decoded.length = 32 then .ok decoded
        else .ok (sha256.Sum256 decoded)
      else .ok (sha256.Sum256 raw)
    | none => .ok (sha256.Sum256 raw)

/-! ## Envelope cipher -/

/-- The AEAD built by `cipher.NewGCM(aes.NewCipher(key))`, used with no associated data:
`Seal key nonce plaintext` is `gcm.Seal(nil, nonce, plaintext, nil)` and
`Open key nonce ct` is `gcm.Open(nil, nonce, ct, nil)`, `none` when it returns an error. -/
structure AEAD where
  Seal : List Nat → List Nat → List Nat → List Nat
  Open : List Nat → List Nat → List Nat → Option (List Nat)

/-- `aes.NewCipher` accepts keys of 16, 24 or 32 bytes. -/
def ValidKey (key : List Nat) : Prop := key.length = 16 ∨ key.length = 24 ∨ key.length = 32

instance (key : List Nat) : Decidable (ValidKey key) := by
  unfold ValidKey; infer_instance

/-- `gcm.NonceSize()` of the standard GCM. -/
def NonceSize : Nat := 12

/-- The AEAD opens what it sealed under the same key and nonce. -/
def AEAD.Correct (A : AEAD) : Prop :=
  ∀ key nonce pt, ValidKey key → nonce.length = NonceSize →
    A.Open key nonce (A.Seal key nonce pt) = some pt

/-- `aes.NewCipher` followed by `cipher.NewGCM`: the only failure is `aes.KeySizeError`. -/
def NewCipher (key : List Nat) : Except Error Unit :=
  if ValidKey key then .ok ()
  else .error ("crypto/aes: invalid key size " ++ toString key.length)

/-- `io.ReadFull(r, buf)` for a buffer of `n` bytes, `r` being the bytes the reader still
delivers. -/
def ReadFull (r : List Nat) (n : Nat) : Except Error (List Nat) :=
  if n ≤ r.length then .ok (r.take n)
  else if r.length = 0 then .error "EOF"
  else .error "unexpected EOF"

/-- Go: `encryptBlob`; `rand` is what `rand.Reader` delivers to this call. -/
def encryptBlob (A : AEAD) (rand : List Nat) (key plaintext : List Nat) :
    Except Error (List Nat) :=
  match NewCipher key with
  | .error err => .error err
  | .ok _ =>
    match ReadFull rand NonceSize with
    | .error err => .error err
    | .ok nonce =>
      let ct := A.Seal key nonce plaintext
      .ok (nonce ++ ct)

/-- Go: `decryptBlob`. -/
def decryptBlob (A : AEAD) (key blob : List Nat) : Except Error (List Nat) :=
  match NewCipher key with
  | .error err => .error err
  | .ok _ =>
    let n := NonceSize
    if blob.length < n then .error "ciphertext too short"
    else
      let nonce := blob.take n
      let ct := blob.drop n
      match A.Open key nonce ct with
      | none => .error "cipher: message authentication failed"
      | some pt => .ok pt

/-! ## Records and their serialisation -/

/-- `json.Marshal` and `json.Unmarshal` at the record type `α`. -/
structure Codec (α : Type) where
  Marshal : α → Except Error (List Nat)
  Unmarshal : List Nat → Except Error α

/-- `json.Unmarshal` inverts `json.Marshal` on the record `x`. -/
def Codec.RoundTrips {α : Type} (C : Codec α) (x : α) : Prop :=
  ∀ data, C.Marshal x = .ok data → C.Unmarshal data = .ok x

/-- `oauth.ClientSessionData`: the two fields the store reads, and the other fields `rest`. -/
structure ClientSessionData (P : Type) where
  AccountDID : String
  SessionID : String
  rest : P
deriving DecidableEq, Repr

/-- `oauth.AuthRequestData`: the field the store reads, and the other fields `rest`. -/
structure AuthRequestData (P : Type) where
  State : String
  rest : P
deriving DecidableEq, Repr

/-! ## The database -/

/-- A row of `sessions(session_id TEXT PRIMARY KEY, did TEXT, data BLOB, updated_at INTEGER)`. -/
structure SessionRow where
  session_id : String
  did : String
  data : List Nat
  updated_at : Int
deriving DecidableEq, Repr

/-- A row of `auth_requests(state TEXT PRIMARY KEY, data BLOB, updated_at INTEGER)`. -/
structure AuthRequestRow where
  state : String
  data : List Nat
  updated_at : Int
deriving DecidableEq, Repr

/-- The two tables made by `NewSQLiteStore`. -/
structure DB where
  sessions : List SessionRow
  auth_requests : List AuthRequestRow
deriving DecidableEq, Repr

/-- The constraint `session_id TEXT PRIMARY KEY`. -/
def SessionsPrimaryKey (t : List SessionRow) : Prop := (t.map (·.session_id)).Nodup

/-- The constraint `state TEXT PRIMARY KEY`. -/
def AuthRequestsPrimaryKey (t : List AuthRequestRow) : Prop := (t.map (·.state)).Nodup

instance (t : List SessionRow) : Decidable (SessionsPrimaryKey t) := by
  unfold SessionsPrimaryKey; infer_instance

instance (t : List AuthRequestRow) : Decidable (AuthRequestsPrimaryKey t) := by
  unfold AuthRequestsPrimaryKey; infer_instance

/-- `sql.ErrNoRows`. -/
def ErrNoRows : Error := "sql: no rows in result set"

/-- The statement of `SaveSession`: `INSERT INTO sessions(session_id, did, data, updated_at)
VALUES (?, ?, ?, ?) ON CONFLICT(session_id) DO UPDATE SET did=excluded.did,
data=excluded.data, updated_at=excluded.updated_at`. -/
def upsertSession (t : List SessionRow) (r : SessionRow) : List SessionRow :=
  if t.any (fun x => x.session_id = r.session_id) then
    t.map (fun x =>
      if x.session_id = r.session_id then
        { x with did := r.did, data := r.data, updated_at := r.updated_at }
      else x)
  else t ++ [r]

/-- The query of `GetSession` with `row.Scan(&blob)`:
`SELECT data FROM sessions WHERE session_id = ? AND did = ?`. -/
def selectSession (t : List SessionRow) (sessionID did : String) : Except Error (List Nat) :=
  match t.find? (fun x => x.session_id = sessionID ∧ x.did = did) with
  | some r => .ok r.data
  | none => .error ErrNoRows

/-- The statement of `DeleteSession`:
`DELETE FROM sessions WHERE session_id = ? AND did = ?`. -/
def deleteSession (t : List SessionRow) (sessionID did : String) : List SessionRow :=
  t.filter (fun x => ¬ (x.session_id = sessionID ∧ x.did = did))

/-- The statement of `SaveAuthRequestInfo`: `INSERT INTO auth_requests(state, data, updated_at)
VALUES (?, ?, ?) ON CONFLICT(state) DO UPDATE SET data=excluded.data,
updated_at=excluded.updated_at`. -/
def upsertAuthRequest (t : List AuthRequestRow) (r : AuthRequestRow) : List AuthRequestRow :=
  if t.any (fun x => x.state = r.state) then
    t.map (fun x =>
      if x.state = r.state then { x with data := r.data, updated_at := r.updated_at } else x)
  else t ++ [r]

/-- The query of `GetAuthRequestInfo` with `row.Scan(&blob)`:
`SELECT data FROM auth_requests WHERE state = ?`. -/
def selectAuthRequest (t : List AuthRequestRow) (state : String) : Except Error (List Nat) :=
  match t.find? (fun x => x.state = state) with
  | some r => .ok r.data
  | none => .error ErrNoRows

/-- The statement of `DeleteAuthRequestInfo`: `DELETE FROM auth_requests WHERE state = ?`. -/
def deleteAuthRequest (t : List AuthRequestRow) (state : String) : List AuthRequestRow :=
  t.filter (fun x => ¬ x.state = state)

/-! ## The store -/

/-- Go: `sqliteStore`, the database handle and the key. -/
structure sqliteStore where
  db : DB
  key : List Nat
deriving DecidableEq, Repr

namespace sqliteStore

variable {P : Type}

/-- Go: `(*sqliteStore).SaveSession`; `rand` is what `rand.Reader` delivers and `now` is
`time.Now().Unix()`.  The result is the store after the statement. -/
def SaveSession (A : AEAD) (C : Codec (ClientSessionData P)) (s : sqliteStore)
    (rand : List Nat) (now : Int) (sess : ClientSessionData P) : Except Error sqliteStore :=
  match C.Marshal sess with
  | .error err => .error err
  | .ok data =>
    match encryptBlob A rand s.key data with
    | .error err => .error err
    | .ok enc =>
      .ok { s with db := { s.db with
        sessions := upsertSession s.db.sessions ⟨sess.SessionID, sess.AccountDID, enc, now⟩ } }

/-- Go: `(*sqliteStore).GetSession`. -/
def GetSession (A : AEAD) (C : Codec (ClientSessionData P)) (s : sqliteStore)
    (did sessionID : String) : Except Error (ClientSessionData P) :=
  match selectSession s.db.sessions sessionID did with
  | .error err =>
    if err = ErrNoRows then .error "session not found"
    else .error err
  | .ok blob =>
    match decryptBlob A s.key blob with
    | .error err => .error err
    | .ok pt =>
      match C.Unmarshal pt with
      | .error err => .error err
      | .ok out => .ok out

/-- Go: `(*sqliteStore).DeleteSession`. -/
def DeleteSession (s : sqliteStore) (did sessionID : String) : Except Error sqliteStore :=
  .ok { s with db := { s.db with sessions := deleteSession s.db.sessions sessionID did } }

/-- Go: `(*sqliteStore).SaveAuthRequestInfo`. -/
def SaveAuthRequestInfo (A : AEAD) (C : Codec (AuthRequestData P)) (s : sqliteStore)
    (rand : List Nat) (now : Int) (info : AuthRequestData P) : Except Error sqliteStore :=
  match C.Marshal info with
  | .error err => .error err
  | .ok data =>
    match encryptBlob A rand s.key data with
    | .error err => .error err
    | .ok enc =>
      .ok { s with db := { s.db with
        auth_requests := upsertAuthRequest s.db.auth_requests ⟨info.State, enc, now⟩ } }

/-- Go: `(*sqliteStore).GetAuthRequestInfo`. -/
def GetAuthRequestInfo (A : AEAD) (C : Codec (AuthRequestData P)) (s : sqliteStore)
    (state : String) : Except Error (AuthRequestData P) :=
  match selectAuthRequest s.db.auth_requests state with
  | .error err =>
    if err = ErrNoRows then .error "auth request not found"
    else .error err
  | .ok blob =>
    match decryptBlob A s.key blob with
    | .error err => .error err
    | .ok pt =>
      match C.Unmarshal pt with
      | .error err => .error err
      | .ok out => .ok out

/-- Go: `(*sqliteStore).DeleteAuthRequestInfo`. -/
def DeleteAuthRequestInfo (s : sqliteStore) (state : String) : Except Error sqliteStore :=
  .ok { s with db := { s.db with auth_requests := deleteAuthRequest s.db.auth_requests state } }

end sqliteStore

/-! ## Instances used to evaluate the store -/

/-- The tag of `sumAEAD`: sixteen copies of a checksum of key, nonce and text. -/
def sumTag (key nonce pt : List Nat) : List Nat :=
  List.replicate 16 ((key.sum + nonce.sum + pt.sum) % 256)

/-- An AEAD that leaves the text in clear and appends `sumTag`. -/
def sumAEAD : AEAD where
  Seal key nonce pt := pt ++ sumTag key nonce pt
  Open key nonce ct :=
    if ct.length < 16 then none
    else if ct.drop (ct.length - 16) = sumTag key nonce (ct.take (ct.length - 16)) then
      some (ct.take (ct.length - 16))
    else none

/-- Reads a length-prefixed string from the front of `bs`. -/
def readText (bs : List Nat) : Option (String × List Nat) :=
  match bs with
  | [] => none
  | n :: rest =>
    if n ≤ rest.length then some (String.mk ((rest.take n).map Char.ofNat), rest.drop n)
    else none

/-- Writes a string with a length prefix. -/
def writeText (s : String) : List Nat := s.length :: s.data.map Char.toNat

/-- A codec for session records whose other fields are bytes: the two strings
length-prefixed, then the bytes. -/
def sessionCodec : Codec (ClientSessionData (List Nat)) where
  Marshal s := .ok (writeText s.AccountDID ++ writeText s.SessionID ++ s.rest)
  Unmarshal bs :=
    match readText bs with
    | none => .error "unexpected end of JSON input"
    | some (did, bs1) =>
      match readText bs1 with
      | none => .error "unexpected end of JSON input"
      | some (sid, bs2) => .ok ⟨did, sid, bs2⟩

/-- A codec for auth-request records whose other fields are bytes. -/
def authRequestCodec : Codec (AuthRequestData (List Nat)) where
  Marshal s := .ok (writeText s.State ++ s.rest)
  Unmarshal bs :=
    match readText bs with
    | none => .error "unexpected end of JSON input"
    | some (st, bs1) => .ok ⟨st, bs1⟩

/-- A store under a 32-byte key that holds a session `s1` of `did:plc:bob` and an auth
request `abc`. -/
def sampleStore : sqliteStore :=
  ⟨⟨[⟨"s1", "did:plc:bob", [1, 2, 3], 1699999000⟩], [⟨"abc", [4, 5, 6], 1699999500⟩]⟩,
    List.replicate 32 7⟩

/-- The session `s1` of `did:plc:alice` with payload `\x7b"foo":1\x7d`. -/
def aliceSession : ClientSessionData (List Nat) :=
  ⟨"did:plc:alice", "s1", utf8 "\x7b\"foo\":1\x7d"⟩

/-- The auth request `xyz` with payload `\x7b"verifier":"abc"\x7d`. -/
def xyzRequest : AuthRequestData (List Nat) :=
  ⟨"xyz", utf8 "\x7b\"verifier\":\"abc\"\x7d"⟩

/-- The auth request `xyz` with payload `\x7b"verifier":"def"\x7d`. -/
def xyzRequest2 : AuthRequestData (List Nat) :=
  ⟨"xyz", utf8 "\x7b\"verifier\":\"def\"\x7d"⟩

/-- The store `sampleStore` after `SaveSession` of `aliceSession` with the nonce `0, .., 11`
at time 1700000000: the row `s1` now belongs to `did:plc:alice`. -/
def sampleStoreAlice : sqliteStore :=
  ⟨⟨[⟨"s1", "did:plc:alice",
      [0, 1, 2, 3, 4, 5, 6, 7, 8, 9, 10, 11, 13, 100, 105, 100, 58, 112, 108, 99, 58, 97,
       108, 105, 99, 101, 2, 115, 49, 123, 34, 102, 111, 111, 34, 58, 49, 125, 162, 162, 162,
       162, 162, 162, 162, 162, 162, 162, 162, 162, 162, 162, 162, 162], 1700000000⟩],
    [⟨"abc", [4, 5, 6], 1699999500⟩]⟩, List.replicate 32 7⟩

/-- The store `sampleStore` after `SaveAuthRequestInfo` of `xyzRequest` with the nonce
`0, .., 11` at time 1700000000. -/
def sampleStoreXyz : sqliteStore :=
  ⟨⟨[⟨"s1", "did:plc:bob", [1, 2, 3], 1699999000⟩],
    [⟨"abc", [4, 5, 6], 1699999500⟩,
     ⟨"xyz", [0, 1, 2, 3, 4, 5, 6, 7, 8, 9, 10, 11, 3, 120, 121, 122, 123, 34, 118, 101, 114,
       105, 102, 105, 101, 114, 34, 58, 34, 97, 98, 99, 34, 125, 204, 204, 204, 204,
       204, 204, 204, 204, 204, 204, 204, 204, 204, 204, 204, 204], 1700000000⟩]⟩,
    List.replicate 32 7⟩

/-- The store `sampleStoreXyz` after `SaveAuthRequestInfo` of `xyzRequest2` with twelve
nonce bytes `9` at time 1700000001. -/
def sampleStoreXyz2 : sqliteStore :=
  ⟨⟨[⟨"s1", "did:plc:bob", [1, 2, 3], 1699999000⟩],
    [⟨"abc", [4, 5, 6], 1699999500⟩,
     ⟨"xyz", [9, 9, 9, 9, 9, 9, 9, 9, 9, 9, 9, 9, 3, 120, 121, 122, 123, 34, 118, 101, 114,
       105, 102, 105, 101, 114, 34, 58, 34, 100, 101, 102, 34, 125, 255, 255, 255, 255,
       255, 255, 255, 255, 255, 255, 255, 255, 255, 255, 255, 255], 1700000001⟩]⟩,
    List.replicate 32 7⟩

/-! ## Envelope layout and tampering -/

/-- `gcm.Overhead()`: the length of the authentication tag. -/
def TagSize : Nat := 16

/-- The sealed text is the plaintext length plus the tag. -/
def AEAD.SealLength (A : AEAD) : Prop :=
  ∀ key nonce pt, ValidKey key → nonce.length = NonceSize →
    (A.Seal key nonce pt).length = pt.length + TagSize

/-- The byte sequence `bs` with bit `i` inverted: bit `i % 8` of the byte at index `i / 8`. -/
def flipBit : List Nat → Nat → List Nat
  | [], _ => []
  | b :: bs, i => if i < 8 then (b ^^^ 2 ^ i) :: bs else b :: flipBit bs (i - 8)

/-- The AEAD rejects a sealed text after one bit of the nonce or of the sealed text (the
ciphertext or its tag) has been inverted. -/
def AEAD.Authentic (A : AEAD) : Prop :=
  ∀ key nonce pt, ValidKey key → nonce.length = NonceSize →
    (∀ i, i < 8 * nonce.length → A.Open key (flipBit nonce i) (A.Seal key nonce pt) = none) ∧
    (∀ i, i < 8 * (A.Seal key nonce pt).length →
      A.Open key nonce (flipBit (A.Seal key nonce pt) i) = none)

/-- The store after bit `i` of the blob of every `sessions` row keyed `sessionID` is
inverted. -/
def tamperSession (s : sqliteStore) (sessionID : String) (i : Nat) : sqliteStore :=
  { s with db := { s.db with
      sessions := s.db.sessions.map (fun r =>
        if r.session_id = sessionID then { r with data := flipBit r.data i } else r) } }

/-- The store after bit `i` of the blob of every `auth_requests` row keyed `state` is
inverted. -/
def tamperAuthRequest (s : sqliteStore) (state : String) (i : Nat) : sqliteStore :=
  { s with db := { s.db with
      auth_requests := s.db.auth_requests.map (fun r =>
        if r.state = state then { r with data := flipBit r.data i } else r) } }

/-! ## Posts and threads (`handlers_helpers.go`, `helpers.go`)

Identifiers, handles, URIs and paths are `String`s; `strings.Split` at a separator of one
ASCII character cuts at the same places on characters as on bytes.  The `bsky` record
types carry the fields the handlers read. -/

/-- `atproto.RepoStrongRef`. -/
structure RepoStrongRef where
  Uri : String
deriving DecidableEq, Repr

/-- `bsky.FeedPost_ReplyRef`; a field is `none` for a nil pointer. -/
structure ReplyRef where
  Parent : Option RepoStrongRef
  Root : Option RepoStrongRef
deriving DecidableEq, Repr

/-- `bsky.FeedPost`. -/
structure FeedPost where
  Text : String
  Reply : Option ReplyRef
deriving DecidableEq, Repr

/-- The interface value `Record.Val`: a `*bsky.FeedPost` (`none` for a nil pointer of that
type) or a record of another type. -/
inductive RecordVal where
  | feedPost (post : Option FeedPost)
  | other (typeName : String)
deriving DecidableEq, Repr

/-- `util.LexiconTypeDecoder`; `Val` is `none` for a nil interface. -/
structure LexiconTypeDecoder where
  Val : Option RecordVal
deriving DecidableEq, Repr

/-- `bsky.ActorDefs_ProfileViewBasic`. -/
structure ProfileViewBasic where
  Did : String
  Handle : String
deriving DecidableEq, Repr

/-- `bsky.EmbedImages_ViewImage`. -/
structure EmbedImagesViewImage where
  Thumb : String
  Fullsize : String
  Alt : String
deriving DecidableEq, Repr

/-- `bsky.EmbedImages_View`; an element of `Images` is `none` for a nil pointer, and a
nil slice is the empty list. -/
structure EmbedImagesView where
  Images : List (Option EmbedImagesViewImage)
deriving DecidableEq, Repr

/-- `bsky.EmbedVideo_View`. -/
structure EmbedVideoView where
  Cid : String
  Playlist : String
  Thumbnail : Option String
deriving DecidableEq, Repr

/-- `bsky.EmbedExternal_ViewExternal`. -/
structure EmbedExternalViewExternal where
  Title : String
  Description : String
  Uri : String
  Thumb : Option String
deriving DecidableEq, Repr

/-- `bsky.EmbedExternal_View`. -/
structure EmbedExternalView where
  External : Option EmbedExternalViewExternal
deriving DecidableEq, Repr

/-- `bsky.EmbedRecordWithMedia_View_Media`, with a field for each kind of media the
handlers read. -/
structure EmbedRecordWithMediaViewMedia where
  EmbedImages_View : Option EmbedImagesView
  EmbedVideo_View : Option EmbedVideoView
  EmbedExternal_View : Option EmbedExternalView
deriving DecidableEq, Repr

/-- `bsky.EmbedRecordWithMedia_View`. -/
structure EmbedRecordWithMediaView where
  Media : Option EmbedRecordWithMediaViewMedia
deriving DecidableEq, Repr

/-- `bsky.FeedDefs_PostView_Embed`, with a field for each kind of embed the handlers
read. -/
structure PostViewEmbed where
  EmbedImages_View : Option EmbedImagesView
  EmbedVideo_View : Option EmbedVideoView
  EmbedExternal_View : Option EmbedExternalView
  EmbedRecordWithMedia_View : Option EmbedRecordWithMediaView
deriving DecidableEq, Repr

/-- `bsky.FeedDefs_PostView`. -/
structure PostView where
  Uri : String
  Author : Option ProfileViewBasic
  Record : Option LexiconTypeDecoder
  Embed : Option PostViewEmbed := none
deriving DecidableEq, Repr

/-- Go: `extractReplyParentURI`; the argument is `none` for a nil post. -/
def extractReplyParentURI (pv : Option PostView) : String :=
  match pv with
  | none => ""
  | some pv =>
    match pv.Record with
    | none => ""
    | some record =>
      match record.Val with
      | some (.feedPost (some post)) =>
        match post.Reply with
        | none => ""
        | some reply =>
          match reply.Parent with
          | some parent =>
            if parent.Uri ≠ "" then parent.Uri
            else
              match reply.Root with
              | some root => if root.Uri ≠ "" then root.Uri else ""
              | none => ""
          | none =>
            match reply.Root with
            | some root => if root.Uri ≠ "" then root.Uri else ""
            | none => ""
      | _ => ""

/-- How a Go call ends: it returns its results, or a run-time panic stops it. -/
inductive Ending (α : Type) where
  | returns (results : α)
  | panics (msg : String)
deriving DecidableEq, Repr

/-- The run-time panic of reading a field through a nil pointer. -/
def nilDereference : String :=
  "runtime error: invalid memory address or nil pointer dereference"

/-- The loop `for _, p := range resp.Posts` of `fetchPostsBatch`, with body
`m[p.Uri] = p`, on the map `m` as its lookup function: `none` when the key is absent,
else the pointer stored (a later post with the same `Uri` replaces an earlier one).  The
elements of `resp.Posts` are pointers, `none` being nil, and reading `p.Uri` of a nil
element is the nil dereference. -/
def postsMapLoop : List (Option PostView) → (String → Option (Option PostView)) →
    Ending (String → Option (Option PostView))
  | [], m => .returns m
  | none :: _, _ => .panics nilDereference
  | some p :: rest, m =>
    postsMapLoop rest (fun uri => if uri = p.Uri then some (some p) else m uri)

/-- Go: `fetchPostsBatch`; `getPosts` is `bsky.FeedGetPosts` on the client, giving
`resp.Posts`, and the map returned is its lookup function (a nil map has no key). -/
def fetchPostsBatch (getPosts : List String → Except Error (List (Option PostView)))
    (uris : List String) : Ending (Except Error (String → Option (Option PostView))) :=
  if uris.length = 0 then .returns (.ok (fun _ => none))
  else
    match getPosts uris with
    | .error err => .returns (.error ("FeedGetPosts error: " ++ err))
    | .ok posts =>
      match postsMapLoop posts (fun _ => none) with
      | .panics msg => .panics msg
      | .returns m => .returns (.ok m)

/-- The state a walk of `buildParentChain` ends in: the chain, the error returned with it,
the URIs it asked `fetchPostsBatch` for, in order, and the panic that stopped it, if one
did (then nothing is returned). -/
structure ParentWalk where
  chain : List PostView
  err : Option Error
  fetched : List String
  panicked : Option String
deriving DecidableEq, Repr

/-- The loop of `buildParentChain`, `n` being the iterations left (`maxDepth - depth`),
`seen` the keys of the map `seen` and `chain` the chain built so far. -/
def parentChainLoop (getPosts : List String → Except Error (List (Option PostView))) :
    Nat → String → List String → List PostView → ParentWalk
  | 0, _, _, chain => ⟨chain, none, [], none⟩
  | n + 1, currentURI, seen, chain =>
    if currentURI = "" then ⟨chain, none, [], none⟩
    else if currentURI ∈ seen then ⟨chain, none, [], none⟩
    else
      match fetchPostsBatch getPosts [currentURI] with
      | .panics msg => ⟨chain, none, [currentURI], some msg⟩
      | .returns (.error err) => ⟨chain, some err, [currentURI], none⟩
      | .returns (.ok postsMap) =>
        match postsMap currentURI with
        | none => ⟨chain, none, [currentURI], none⟩
        | some none => ⟨chain, none, [currentURI], none⟩
        | some (some p) =>
          let next := extractReplyParentURI (some p)
          if next = "" ∨ next = currentURI then ⟨p :: chain, none, [currentURI], none⟩
          else
            let w := parentChainLoop getPosts n next (currentURI :: seen) (p :: chain)
            ⟨w.chain, w.err, currentURI :: w.fetched, w.panicked⟩

/-- Go: `buildParentChain`, with the requests it made. -/
def buildParentChainWalk (getPosts : List String → Except Error (List (Option PostView)))
    (startURI : String) (maxDepth : Int) : ParentWalk :=
  parentChainLoop getPosts maxDepth.toNat startURI [] []

/-- Go: `buildParentChain`: the chain and the error it returns, or its panic. -/
def buildParentChain (getPosts : List String → Except Error (List (Option PostView)))
    (startURI : String) (maxDepth : Int) : Ending (List PostView × Option Error) :=
  match (buildParentChainWalk getPosts startURI maxDepth).panicked with
  | some msg => .panics msg
  | none =>
    .returns ((buildParentChainWalk getPosts startURI maxDepth).chain,
      (buildParentChainWalk getPosts startURI maxDepth).err)

/-- The post `fetchPostsBatch` yields for the single URI `uri`: a non-nil `postsMap[uri]`
of a call that returns without error. -/
def fetchedPost (getPosts : List String → Except Error (List (Option PostView)))
    (uri : String) : Option PostView :=
  match fetchPostsBatch getPosts [uri] with
  | .panics _ => none
  | .returns (.error _) => none
  | .returns (.ok postsMap) =>
    match postsMap uri with
    | none => none
    | some none => none
    | some (some p) => some p

/-- A post view with the given URI that replies to `parent` (no reply when `parent` is
empty). -/
def replyPost (uri parent : String) : PostView :=
  { Uri := uri, Author := none,
    Record := some ⟨some (.feedPost (some ⟨"", if parent = "" then none
      else some ⟨some ⟨parent⟩, none⟩⟩))⟩ }

/-- A service holding the posts `a`, `b`, `c`, `d`, `e`: `a` replies to `b`, `b` to `c`
and `c` to `a` (a cycle), `d` replies to itself, `e` replies to `d`. -/
def cyclicPosts (uris : List String) : Except Error (List (Option PostView)) :=
  .ok ((([replyPost "a" "b", replyPost "b" "c", replyPost "c" "a", replyPost "d" "d",
    replyPost "e" "d"]).filter (fun p => p.Uri ∈ uris)).map some)

/-- A service that answers every request with one nil post: the JSON answer whose
`posts` array holds the single element `null`. -/
def nilPosts (_ : List String) : Except Error (List (Option PostView)) := .ok [none]

/-- A service holding the post `a`, a reply to `b`, that answers every other request with
one nil post. -/
def nilParentPosts (uris : List String) : Except Error (List (Option PostView)) :=
  if uris = ["a"] then .ok [some (replyPost "a" "b")] else .ok [none]

/-! ## Batches of parent URIs -/

/-- The constant `batchSize` of the handlers. -/
def batchSize : Nat := 25

/-- The loop `for i := 0; i < len(parentURIs); i += batchSize` of `handleTimeline`,
`handleProfile`, `htmxTimelineFeed` and `htmxProfileFeed`, `n` bounding the iterations
left: the list of the slices `parentURIs[i:end]` handed to `fetchPostsBatch`. -/
def batchLoop (parentURIs : List String) : Nat → Nat → List (List String)
  | 0, _ => []
  | n + 1, i =>
    if i < parentURIs.length then
      let e := if i + batchSize > parentURIs.length then parentURIs.length else i + batchSize
      ((parentURIs.drop i).take (e - i)) :: batchLoop parentURIs n (i + batchSize)
    else []

/-- The batches the handlers request for `parentURIs`; the loop runs under
`len(parentURIs) > 0` and makes at most `len(parentURIs)` iterations. -/
def parentBatches (parentURIs : List String) : List (List String) :=
  if parentURIs.length > 0 then batchLoop parentURIs parentURIs.length 0 else []

/-! ## Thread views -/

mutual
/-- `bsky.FeedDefs_ThreadViewPost`: the post (`none` for a nil pointer) and the replies (a
nil slice is the empty list). -/
inductive ThreadViewPost where
  | mk (Post : Option PostView) (Replies : ReplyList)
/-- An element of `Replies`, a `*bsky.FeedDefs_ThreadViewPost_Replies_Elem`: a nil
pointer, an element whose `FeedDefs_ThreadViewPost` is nil (a not-found or blocked post),
or a thread view. -/
inductive RepliesElem where
  | null
  | notThread
  | thread (t : ThreadViewPost)
/-- The slice `Replies`. -/
inductive ReplyList where
  | nil
  | cons (r : RepliesElem) (rest : ReplyList)
end

/-- The field `Post` of a thread view. -/
def ThreadViewPost.Post : ThreadViewPost → Option PostView
  | .mk post _ => post

/-- The field `Replies` of a thread view. -/
def ThreadViewPost.Replies : ThreadViewPost → ReplyList
  | .mk _ replies => replies

mutual
/-- The closure `collect` of `fetchThreadAndExtract` on a non-nil node; `replies` is the
captured slice, returned after the call. -/
def collect : ThreadViewPost → List PostView → List PostView
  | .mk _ rs, replies => collectLoop rs replies
/-- The loop `for _, r := range node.Replies` of `collect`. -/
def collectLoop : ReplyList → List PostView → List PostView
  | .nil, replies => replies
  | .cons .null rest, replies => collectLoop rest replies
  | .cons .notThread rest, replies => collectLoop rest replies
  | .cons (.thread t) rest, replies =>
    match t.Post with
    | none => collectLoop rest replies
    | some p => collectLoop rest (collect t (replies ++ [p]))
end

/-- The results of `fetchThreadAndExtract` other than the error. -/
structure ThreadExtract where
  main : Option PostView
  replies : List PostView
  root : Option ThreadViewPost

/-- Go: `fetchThreadAndExtract`; `getPostThread` is `bsky.FeedGetPostThread` on the client
with depth 100, giving `thread.Thread.FeedDefs_ThreadViewPost` (`none` when `thread.Thread`
or that field is nil). -/
def fetchThreadAndExtract (getPostThread : String → Except Error (Option ThreadViewPost))
    (postURI : String) : Except Error ThreadExtract :=
  match getPostThread postURI with
  | .error err => .error err
  | .ok none => .ok ⟨none, [], none⟩
  | .ok (some thread) => .ok ⟨thread.Post, collect thread [], some thread⟩

mutual
/-- The nodes below a thread view, in depth-first pre-order. -/
def descendants : ThreadViewPost → List ThreadViewPost
  | .mk _ rs => descendantsOf rs
/-- The thread views of a reply list with the nodes below them, in depth-first pre-order. -/
def descendantsOf : ReplyList → List ThreadViewPost
  | .nil => []
  | .cons .null rest => descendantsOf rest
  | .cons .notThread rest => descendantsOf rest
  | .cons (.thread t) rest => t :: descendants t ++ descendantsOf rest
end

/-- What the specification asks of the replies: the post of every descendant node of the
root that has a post, in depth-first pre-order. -/
def descendantPosts (root : ThreadViewPost) : List PostView :=
  (descendants root).filterMap (fun t => t.Post)

mutual
/-- The nodes below a thread view that have a post and are reached through nodes that have
a post, in depth-first pre-order. -/
def reached : ThreadViewPost → List ThreadViewPost
  | .mk _ rs => reachedOf rs
/-- The nodes of a reply list that have a post, each followed by the nodes reached below
it. -/
def reachedOf : ReplyList → List ThreadViewPost
  | .nil => []
  | .cons .null rest => reachedOf rest
  | .cons .notThread rest => reachedOf rest
  | .cons (.thread t) rest =>
    match t.Post with
    | none => reachedOf rest
    | some _ => t :: reached t ++ reachedOf rest
end

/-- A thread whose root `r` has three replies: `x` (itself with the reply `y`), a blocked
post, and `z`. -/
def sampleThread : ThreadViewPost :=
  .mk (some (replyPost "r" ""))
    (.cons (.thread (.mk (some (replyPost "x" "r"))
        (.cons (.thread (.mk (some (replyPost "y" "x")) .nil)) .nil)))
      (.cons .notThread
        (.cons (.thread (.mk (some (replyPost "z" "r")) .nil)) .nil)))

/-- A thread whose root `r` has one reply without a post, which has the reply `y`. -/
def hollowThread : ThreadViewPost :=
  .mk (some (replyPost "r" ""))
    (.cons (.thread (.mk none
        (.cons (.thread (.mk (some (replyPost "y" "x")) .nil)) .nil)))
      .nil)

/-! ## Strings (`strings`, `strconv`) -/

/-- Go: `strings.HasPrefix`. -/
def HasPrefix (s pre : String) : Bool := pre.data.isPrefixOf s.data

/-- Go: `strings.TrimPrefix`. -/
def TrimPrefix (s pre : String) : String :=
  if HasPrefix s pre then String.mk (s.data.drop pre.data.length) else s

/-- The pieces of a text around each occurrence of the character `sep`. -/
def splitChars (sep : Char) : List Char → List (List Char)
  | [] => [[]]
  | c :: cs =>
    if c = sep then [] :: splitChars sep cs
    else
      match splitChars sep cs with
      | [] => [[c]]
      | p :: ps => (c :: p) :: ps

/-- Go: `strings.Split(s, sep)` for a separator of one character. -/
def Split (s : String) (sep : Char) : List String :=
  (splitChars sep s.data).map String.mk

/-- The value of a run of decimal digits, `none` when a character is not a digit. -/
def digitsValue : List Char → Nat → Option Nat
  | [], acc => some acc
  | c :: cs, acc =>
    if '0' ≤ c ∧ c ≤ '9' then digitsValue cs (acc * 10 + (c.toNat - 48)) else none

/-- Go: `strconv.ParseUint(s, 10, 64)`, `none` for an error (empty text, a character that
is not a digit, a value of `2^64` or more). -/
def ParseUint (s : List Char) : Option Nat :=
  if s = [] then none
  else
    match digitsValue s 0 with
    | none => none
    | some un => if un < 2 ^ 64 then some un else none

/-- Go: `strconv.ParseInt(s, 10, 64)`, `none` for an error: the sign is picked off, the
rest is read by `ParseUint`, and a value outside `int64` is a range error. -/
def ParseInt (s : String) : Option Int :=
  match s.data with
  | [] => none
  | c :: cs =>
    match ParseUint (if c = '+' ∨ c = '-' then cs else c :: cs) with
    | none => none
    | some un =>
      if c ≠ '-' ∧ un ≥ 2 ^ 63 then none
      else if c = '-' ∧ un > 2 ^ 63 then none
      else some (if c = '-' then -(un : Int) else (un : Int))

/-- The value of an `int64` expression: the integer reduced to the range of `int64`. -/
def wrap64 (x : Int) : Int := (x + 2 ^ 63) % 2 ^ 64 - 2 ^ 63

/-! ## Serving a video blob (`handlers_media.go`) -/

/-- What a handler wrote to its `http.ResponseWriter`. -/
structure Response where
  status : Nat
  header : List (String × String)
  body : List Nat
deriving DecidableEq, Repr

/-- Go: `http.Header.Set`. -/
def headerSet (h : List (String × String)) (key value : String) : List (String × String) :=
  h.filter (fun kv => kv.1 ≠ key) ++ [(key, value)]

/-- Go: `http.Header.Get`. -/
def headerGet (h : List (String × String)) (key : String) : String :=
  match h.find? (fun kv => kv.1 = key) with
  | some kv => kv.2
  | none => ""

/-- Go: `http.Error`, on the header written so far. -/
def httpError (h : List (String × String)) (msg : String) (code : Nat) : Response :=
  ⟨code, headerSet (headerSet h "Content-Type" "text/plain; charset=utf-8")
    "X-Content-Type-Options" "nosniff", utf8 (msg ++ "\n")⟩

/-- The slice expression `blob[lo:hi]`; an index out of range is the run-time panic. -/
def sliceBytes (blob : List Nat) (lo hi : Int) : Except Error (List Nat) :=
  if 0 ≤ lo ∧ lo ≤ hi ∧ hi ≤ (blob.length : Int) then
    .ok ((blob.drop lo.toNat).take (hi.toNat - lo.toNat))
  else .error "runtime error: slice bounds out of range"

/-- The end of the range as `handleVideo` reads it from the second part of the range
specification: `size - 1` when the part is empty or does not parse. -/
def rangeEnd (size : Int) (part : String) : Int :=
  if part ≠ "" then
    match ParseInt part with
    | some e => e
    | none => wrap64 (size - 1)
  else wrap64 (size - 1)

/-- Go: `handleVideo`, the branch `if blob != nil` that serves the blob fetched from the
PDS; `rh` is the `Range` header of the request.  The result is the response written, or
the panic of the slice expression. -/
def handleVideo (blob : List Nat) (rh : String) : Except Error Response :=
  let size : Int := blob.length
  let h0 := headerSet (headerSet [] "Accept-Ranges" "bytes") "Content-Type" "video/mp4"
  if rh = "" then
    .ok ⟨200, headerSet h0 "Content-Length" (toString size), blob⟩
  else if ¬ HasPrefix rh "bytes=" then
    .ok (httpError h0 "invalid range" 400)
  else
    let rangeSpec := TrimPrefix rh "bytes="
    let parts := Split rangeSpec '-'
    if parts.length ≠ 2 then
      .ok (httpError h0 "invalid range" 400)
    else
      let start1 := ParseInt (parts.getD 0 "")
      let end1 := rangeEnd size (parts.getD 1 "")
      match start1 with
      | none =>
        .ok (httpError (headerSet h0 "Content-Range" ("bytes */" ++ toString size))
          "Requested Range Not Satisfiable" 416)
      | some start =>
        if start < 0 ∨ start > end1 ∨ start ≥ size then
          .ok (httpError (headerSet h0 "Content-Range" ("bytes */" ++ toString size))
            "Requested Range Not Satisfiable" 416)
        else
          let end2 := if end1 ≥ size then wrap64 (size - 1) else end1
          let length := wrap64 (wrap64 (end2 - start) + 1)
          let h1 := headerSet h0 "Content-Range"
            ("bytes " ++ toString start ++ "-" ++ toString end2 ++ "/" ++ toString size)
          let h2 := headerSet h1 "Content-Length" (toString length)
          match sliceBytes blob start (wrap64 (end2 + 1)) with
          | .error err => .error err
          | .ok body => .ok ⟨206, h2, body⟩

/-! ## Post URLs and post URIs -/

/-- The parts of an `*http.Request` that `buildPostURIFromRequest` reads: `r.URL.Path` and
the values of `r.URL.Query()`. -/
structure Request where
  Path : String
  Query : List (String × String)
deriving DecidableEq, Repr

/-- Go: `r.URL.Query().Get(key)`: the first value of the key, or the empty string. -/
def Request.queryGet (r : Request) (key : String) : String :=
  match r.Query.find? (fun kv => kv.1 = key) with
  | some kv => kv.2
  | none => ""

/-- `bsky.ActorDefs_ProfileViewDetailed`. -/
structure ProfileViewDetailed where
  Did : String
  Handle : String
deriving DecidableEq, Repr

/-- Go: `resolveHandleToDID`; `getProfile` is `bsky.ActorGetProfile` on the client. -/
def resolveHandleToDID (getProfile : String → Except Error ProfileViewDetailed)
    (identifier : String) : Except Error String :=
  if HasPrefix identifier "did:" then .ok identifier
  else
    match getProfile identifier with
    | .error err => .error err
    | .ok profile => .ok profile.Did

/-- Go: `buildPostURIFromRequest`. -/
def buildPostURIFromRequest (getProfile : String → Except Error ProfileViewDetailed)
    (r : Request) : Except Error String :=
  if r.queryGet "uri" ≠ "" then .ok (r.queryGet "uri")
  else
    let pathParts := Split (TrimPrefix r.Path "/post/") '/'
    if pathParts.length ≥ 2 then
      let handle := pathParts.getD 0 ""
      let postID := pathParts.getD 1 ""
      match resolveHandleToDID getProfile handle with
      | .error err => .error err
      | .ok authorDID => .ok ("at://" ++ authorDID ++ "/app.bsky.feed.post/" ++ postID)
    else .error "post uri not found"

/-- Go: `getPostURL`; the argument is `none` for a nil post. -/
def getPostURL (post : Option PostView) : String :=
  match post with
  | none => "#"
  | some post =>
    match post.Author with
    | none => "#"
    | some author =>
      if author.Handle ≠ "" ∧ post.Uri ≠ "" then
        let uriParts := Split post.Uri '/'
        if uriParts.length ≥ 4 then
          let postID := uriParts.getD (uriParts.length - 1) ""
          "/post/" ++ author.Handle ++ "/" ++ postID
        else "#"
      else "#"

/-- A resolver that knows the handle `alice.example` as `did:plc:alice`. -/
def sampleResolver (identifier : String) : Except Error ProfileViewDetailed :=
  if identifier = "alice.example" then .ok ⟨"did:plc:alice", "alice.example"⟩
  else .error "Profile not found"

/-! ## View models (`helpers.go`) -/

/-- Go: `ImageVM`. -/
structure ImageVM where
  Thumb : String
  Full : String
  Alt : String
deriving DecidableEq, Repr

/-- Go: `VideoVM`. -/
structure VideoVM where
  Thumb : String
  Cid : String
  Playlist : String
  OwnerDid : String
deriving DecidableEq, Repr

/-- Go: `ExternalVM`. -/
structure ExternalVM where
  Title : String
  Description : String
  Thumb : String
  Uri : String
deriving DecidableEq, Repr

/-- Go: `MediaVM`; a nil slice `Images` is the empty list. -/
structure MediaVM where
  Images : List ImageVM
  Video : Option VideoVM
  External : Option ExternalVM
deriving DecidableEq, Repr

/-- Go: `ParentInfo`. -/
structure ParentInfo where
  AuthorName : String
  AuthorHandle : String
  Text : String
  Uri : String
  Avatar : String
  PostURL : String
  IndexedAt : String
  Media : Option MediaVM
  IsFav : Bool
  LikeCount : Int
  ReplyCount : Int
  RepostCount : Int
deriving DecidableEq, Repr

/-- The zero value `ParentInfo{}`. -/
def ParentInfo.zero : ParentInfo := ⟨"", "", "", "", "", "", "", none, false, 0, 0, 0⟩

/-- The closure `extract` of `GetReplyChainInfos`; `ref` is `none` for a nil interface and
otherwise holds a `*atproto.RepoStrongRef`, the type of both reply refs. -/
def extract (ref : Option RepoStrongRef) : ParentInfo :=
  match ref with
  | none => ParentInfo.zero
  | some sr => if sr.Uri ≠ "" then { ParentInfo.zero with Uri := sr.Uri } else ParentInfo.zero

/-- The field `out[len(out)-1].Uri`, read under the guard `len(out) > 0`. -/
def lastUri (out : List ParentInfo) : String :=
  match out.getLast? with
  | some pi => pi.Uri
  | none => ""

/-- The part of `GetReplyChainInfos` that follows the checks of the record, on the reply
ref of the post. -/
def replyChainOf (reply : ReplyRef) : List ParentInfo :=
  let out :=
    match reply.Root with
    | some root => [extract (some root)]
    | none => []
  match reply.Parent with
  | some parent =>
    let parentInfo := extract (some parent)
    if ¬ (out.length > 0 ∧ lastUri out ≠ "" ∧ parentInfo.Uri ≠ "" ∧
        lastUri out = parentInfo.Uri) then out ++ [parentInfo]
    else out
  | none => out

/-- Go: `GetReplyChainInfos`; the argument is `none` for a nil post. -/
def GetReplyChainInfos (pv : Option PostView) : List ParentInfo :=
  match pv with
  | none => []
  | some pv =>
    match pv.Record with
    | none => []
    | some record =>
      match record.Val with
      | none => []
      | some (.other _) => []
      | some (.feedPost none) => []
      | some (.feedPost (some post)) =>
        match post.Reply with
        | none => []
        | some reply => replyChainOf reply

/-- The reply ref of a post view, when its record is a post that has one. -/
def replyRefOf (pv : PostView) : Option ReplyRef :=
  match pv.Record with
  | some ⟨some (.feedPost (some post))⟩ => post.Reply
  | _ => none

/-! ## Element ids -/

/-- The class `[a-zA-Z0-9]`. -/
def isAlphanumeric (c : Char) : Bool :=
  ('a' ≤ c ∧ c ≤ 'z') ∨ ('A' ≤ c ∧ c ≤ 'Z') ∨ ('0' ≤ c ∧ c ≤ '9')

/-- `regexp.MustCompile("[^a-zA-Z0-9]+").ReplaceAllString(s, "-")` on the characters of
`s`: every maximal run of characters outside the class becomes one dash; `inRun` tells
that the character before was outside the class. -/
def replaceRuns : Bool → List Char → List Char
  | _, [] => []
  | inRun, c :: cs =>
    if isAlphanumeric c then c :: replaceRuns false cs
    else if inRun then replaceRuns true cs
    else '-' :: replaceRuns true cs

/-- Go: `strings.Trim(s, cutset)` for a cutset of one character, on the characters. -/
def trimChars (c : Char) (s : List Char) : List Char :=
  ((s.dropWhile (fun x => x = c)).reverse.dropWhile (fun x => x = c)).reverse

/-- Go: `strings.Trim(s, cutset)` for a cutset of one character. -/
def Trim (s : String) (c : Char) : String := String.mk (trimChars c s.data)

/-- Go: `MakeElementID`. -/
def MakeElementID (uri : String) : String :=
  if uri = "" then ""
  else
    let uri1 := TrimPrefix uri "at://"
    let id := String.mk (replaceRuns false uri1.data)
    "post-" ++ Trim id '-'

/-! ## Post media -/

/-- The value `ImageVM{Thumb: im.Thumb, Full: im.Fullsize, Alt: im.Alt}`. -/
def imageVM (im : EmbedImagesViewImage) : ImageVM := ⟨im.Thumb, im.Fullsize, im.Alt⟩

/-- The loops `for _, im := range ... .Images` of `GetPostMedia`, appending to `images`
the view model of each non-nil image. -/
def appendImages : List (Option EmbedImagesViewImage) → List ImageVM → List ImageVM
  | [], images => images
  | none :: rest, images => appendImages rest images
  | some im :: rest, images => appendImages rest (images ++ [imageVM im])

/-- The value `&VideoVM{Thumb: thumb, Cid: v.Cid, Playlist: v.Playlist, OwnerDid: ownerDid}`
of `GetPostMedia`. -/
def videoVM (v : EmbedVideoView) (author : Option ProfileViewBasic) : VideoVM :=
  ⟨match v.Thumbnail with
    | some t => t
    | none => "",
   v.Cid, v.Playlist,
   match author with
    | some a => a.Did
    | none => ""⟩

/-- The value `extVM` of `GetPostMedia`. -/
def externalVM (ex : EmbedExternalViewExternal) : ExternalVM :=
  ⟨ex.Title, ex.Description,
   match ex.Thumb with
    | some t => t
    | none => "",
   ex.Uri⟩

/-- The block `recordWithMedia` of `GetPostMedia`, on the media view `mm` and the view
model `m` built so far. -/
def nestedMediaInto (mm : EmbedRecordWithMediaViewMedia) (author : Option ProfileViewBasic)
    (m : MediaVM) : MediaVM :=
  let m1 :=
    match mm.EmbedImages_View with
    | some iv => { m with Images := appendImages iv.Images m.Images }
    | none => m
  let m2 :=
    match mm.EmbedVideo_View with
    | some v => { m1 with Video := some (videoVM v author) }
    | none => m1
  match mm.EmbedExternal_View with
  | some ev =>
    match ev.External with
    | some ex => { m2 with External := some (externalVM ex) }
    | none => m2
  | none => m2

/-- The body of `GetPostMedia` for a non-nil embed, up to the final test. -/
def mediaOf (embed : PostViewEmbed) (author : Option ProfileViewBasic) : MediaVM :=
  let m0 : MediaVM := ⟨[], none, none⟩
  let m1 :=
    match embed.EmbedImages_View with
    | some iv => { m0 with Images := appendImages iv.Images m0.Images }
    | none => m0
  let m2 :=
    match embed.EmbedRecordWithMedia_View with
    | some rwm =>
      match rwm.Media with
      | some mm => nestedMediaInto mm author m1
      | none => m1
    | none => m1
  let m3 :=
    match embed.EmbedExternal_View with
    | some ev =>
      match ev.External with
      | some ex => { m2 with External := some (externalVM ex) }
      | none => m2
    | none => m2
  match embed.EmbedVideo_View with
  | some v => { m3 with Video := some (videoVM v author) }
  | none => m3

/-- Go: `GetPostMedia`; the argument and the result are `none` for nil. -/
def GetPostMedia (post : Option PostView) : Option MediaVM :=
  match post with
  | none => none
  | some post =>
    match post.Embed with
    | none => none
    | some embed =>
      let m := mediaOf embed post.Author
      if m.Images.length = 0 ∧ m.Video = none ∧ m.External = none then none else some m

/-- The non-nil images of an images view, `[]` when the view is absent. -/
def presentImages (iv : Option EmbedImagesView) : List EmbedImagesViewImage :=
  match iv with
  | some iv => iv.Images.filterMap id
  | none => []

/-- The media nested in the record-with-media view of an embed. -/
def nestedMedia (embed : PostViewEmbed) : Option EmbedRecordWithMediaViewMedia :=
  match embed.EmbedRecordWithMedia_View with
  | some rwm => rwm.Media
  | none => none

/-- The non-nil top-level images of an embed. -/
def topImages (embed : PostViewEmbed) : List EmbedImagesViewImage :=
  presentImages embed.EmbedImages_View

/-- The non-nil images nested in the record-with-media view. -/
def nestedImages (embed : PostViewEmbed) : List EmbedImagesViewImage :=
  match nestedMedia embed with
  | some mm => presentImages mm.EmbedImages_View
  | none => []

/-- The video view nested in the record-with-media view. -/
def nestedVideo (embed : PostViewEmbed) : Option EmbedVideoView :=
  match nestedMedia embed with
  | some mm => mm.EmbedVideo_View
  | none => none

/-- The non-nil `External` of an external view. -/
def presentExternal (ev : Option EmbedExternalView) : Option EmbedExternalViewExternal :=
  match ev with
  | some ev => ev.External
  | none => none

/-- The non-nil `External` of the external view nested in the record-with-media view. -/
def nestedExternal (embed : PostViewEmbed) : Option EmbedExternalViewExternal :=
  match nestedMedia embed with
  | some mm => presentExternal mm.EmbedExternal_View
  | none => none

/-- The first of two optional values that is present. -/
def firstOf {α : Type} (a b : Option α) : Option α :=
  match a with
  | some x => some x
  | none => b

/-- A post of `did:plc:alice` that replies to `at://p` in the thread rooted at `at://r`,
with one top-level image, a nil image, and a record-with-media view that nests an image,
a video and an external link. -/
def mediaPost : PostView :=
  { Uri := "at://did:plc:alice/app.bsky.feed.post/3k",
    Author := some ⟨"did:plc:alice", "alice.example"⟩,
    Record := some ⟨some (.feedPost (some ⟨"hi", some ⟨some ⟨"at://p"⟩, some ⟨"at://r"⟩⟩⟩))⟩,
    Embed := some
      ⟨some ⟨[some ⟨"t1", "f1", "a1"⟩, none]⟩, none, none,
        some ⟨some ⟨some ⟨[some ⟨"t2", "f2", "a2"⟩]⟩, some ⟨"cid", "pl", none⟩,
          some ⟨some ⟨"title", "descr", "https://x", some "th"⟩⟩⟩⟩⟩ }

/-! ## Lemmas on the envelope cipher -/

theorem ReadFull_ok {r : List Nat} {n : Nat} {bs : List Nat} (h : ReadFull r n = .ok bs) :
    n ≤ r.length ∧ bs = r.take n := by
  unfold ReadFull at h
  split at h
  · cases h
    exact ⟨by assumption, rfl⟩
  · split at h <;> cases h

theorem encryptBlob_ok {A : AEAD} {rand key pt enc : List Nat}
    (h : encryptBlob A rand key pt = .ok enc) :
    ValidKey key ∧ NonceSize ≤ rand.length ∧
      enc = rand.take NonceSize ++ A.Seal key (rand.take NonceSize) pt := by
  unfold encryptBlob NewCipher at h
  by_cases hk : ValidKey key
  · simp only [hk, if_true] at h
    cases hrf : ReadFull rand NonceSize with
    | error e => rw [hrf] at h; cases h
    | ok nonce =>
      rw [hrf] at h
      obtain ⟨hr, rfl⟩ := ReadFull_ok hrf
      cases h
      exact ⟨hk, hr, rfl⟩
  · simp only [hk, if_false] at h
    cases h

theorem decryptBlob_sealed {A : AEAD} (hA : A.Correct) {key nonce pt : List Nat}
    (hk : ValidKey key) (hn : nonce.length = NonceSize) :
    decryptBlob A key (nonce ++ A.Seal key nonce pt) = .ok pt := by
  have htake : (nonce ++ A.Seal key nonce pt).take NonceSize = nonce := by
    rw [← hn]; exact List.take_left' rfl
  have hdrop : (nonce ++ A.Seal key nonce pt).drop NonceSize = A.Seal key nonce pt := by
    rw [← hn]; exact List.drop_left' rfl
  have hlen : ¬ (nonce ++ A.Seal key nonce pt).length < NonceSize := by
    simp only [List.length_append, hn]; omega
  unfold decryptBlob NewCipher
  simp only [hk, if_true, hlen, if_false, htake, hdrop, hA key nonce pt hk hn]

theorem decryptBlob_encryptBlob {A : AEAD} (hA : A.Correct) {rand key pt enc : List Nat}
    (h : encryptBlob A rand key pt = .ok enc) : decryptBlob A key enc = .ok pt := by
  obtain ⟨hk, hr, rfl⟩ := encryptBlob_ok h
  exact decryptBlob_sealed hA hk (by simp; exact hr)

/-! ## Lemmas on the tables -/

theorem find_upsertSession (t : List SessionRow) (sid did : String) (enc : List Nat)
    (now : Int) :
    (upsertSession t ⟨sid, did, enc, now⟩).find? (fun x => x.session_id = sid ∧ x.did = did) =
      some ⟨sid, did, enc, now⟩ := by
  unfold upsertSession
  split
  · rename_i hany
    induction t with
    | nil => simp at hany
    | cons x xs ih =>
      by_cases hx : x.session_id = sid
      · simp [List.find?, hx]
      · have : xs.any (fun x => decide (x.session_id = sid)) = true := by
          simpa [hx] using hany
        simp only [List.map_cons, hx, if_false, List.find?, false_and, decide_False]
        exact ih this
  · rename_i hany
    have hnone : t.find? (fun x => decide (x.session_id = sid ∧ x.did = did)) = none := by
      rw [List.find?_eq_none]
      intro x hx
      have : ¬ x.session_id = sid := by
        intro h
        exact hany (List.any_eq_true.mpr ⟨x, hx, by simpa using h⟩)
      simp [this]
    rw [List.find?_append, hnone]
    simp [List.find?]

theorem selectSession_upsertSession (t : List SessionRow) (sid did : String) (enc : List Nat)
    (now : Int) : selectSession (upsertSession t ⟨sid, did, enc, now⟩) sid did = .ok enc := by
  unfold selectSession
  rw [find_upsertSession]

theorem did_of_mem_upsertSession {t : List SessionRow} {r x : SessionRow}
    (hx : x ∈ upsertSession t r) (hsid : x.session_id = r.session_id) : x.did = r.did := by
  unfold upsertSession at hx
  split at hx
  · obtain ⟨y, _, hy⟩ := List.mem_map.mp hx
    by_cases hys : y.session_id = r.session_id
    · simp only [hys, if_true] at hy
      rw [← hy]
    · simp only [hys, if_false] at hy
      rw [← hy] at hsid
      exact absurd hsid hys
  · rename_i hany
    rcases List.mem_append.mp hx with h | h
    · exact absurd (List.any_eq_true.mpr ⟨x, h, by simpa using hsid⟩) hany
    · simp only [List.mem_singleton] at h
      rw [h]

theorem selectSession_other_account (t : List SessionRow) (r : SessionRow) {did : String}
    (hne : did ≠ r.did) :
    selectSession (upsertSession t r) r.session_id did = .error ErrNoRows := by
  unfold selectSession
  have hnone : (upsertSession t r).find?
      (fun x => decide (x.session_id = r.session_id ∧ x.did = did)) = none := by
    rw [List.find?_eq_none]
    intro x hx
    simp only [decide_eq_true_eq, not_and]
    intro hsid hdid
    exact hne (hdid ▸ did_of_mem_upsertSession hx hsid)
  rw [hnone]

theorem mem_upsertSession_key (t : List SessionRow) (r : SessionRow) :
    ∃ x ∈ upsertSession t r, x.session_id = r.session_id := by
  unfold upsertSession
  split
  · rename_i hany
    obtain ⟨y, hy, hys⟩ := List.any_eq_true.mp hany
    have hys : y.session_id = r.session_id := by simpa using hys
    refine ⟨_, List.mem_map.mpr ⟨y, hy, rfl⟩, ?_⟩
    simp [hys]
  · exact ⟨r, by simp, rfl⟩

theorem upsertAuthRequest_cons_ne {x r : AuthRequestRow} (xs : List AuthRequestRow)
    (h : x.state ≠ r.state) : upsertAuthRequest (x :: xs) r = x :: upsertAuthRequest xs r := by
  unfold upsertAuthRequest
  by_cases hany : xs.any (fun y => decide (y.state = r.state)) = true
  · simp [h, hany]
  · simp [h, hany]

theorem upsertAuthRequest_cons_eq {x r : AuthRequestRow} (xs : List AuthRequestRow)
    (h : x.state = r.state) (hxs : ∀ y ∈ xs, y.state ≠ r.state) :
    upsertAuthRequest (x :: xs) r = r :: xs := by
  unfold upsertAuthRequest
  have hmap : xs.map (fun y =>
      if y.state = r.state then { y with data := r.data, updated_at := r.updated_at } else y)
      = xs := by
    have : ∀ y ∈ xs, (fun y : AuthRequestRow =>
        if y.state = r.state then { y with data := r.data, updated_at := r.updated_at } else y) y
        = id y := by
      intro y hy
      simp [hxs y hy]
    rw [List.map_congr_left this, List.map_id]
  simp only [List.any_cons, h, decide_True, Bool.true_or, if_true, List.map_cons, hmap]

theorem filter_upsertAuthRequest {t : List AuthRequestRow} (hpk : AuthRequestsPrimaryKey t)
    (r : AuthRequestRow) : (upsertAuthRequest t r).filter (fun x => x.state = r.state) = [r] := by
  induction t with
  | nil => simp [upsertAuthRequest]
  | cons x xs ih =>
    have hnd : x.state ∉ xs.map (·.state) ∧ (xs.map (·.state)).Nodup := by
      simpa [AuthRequestsPrimaryKey] using hpk
    by_cases hx : x.state = r.state
    · have hxs : ∀ y ∈ xs, y.state ≠ r.state := by
        intro y hy hys
        exact hnd.1 (List.mem_map.mpr ⟨y, hy, hys.trans hx.symm⟩)
      rw [upsertAuthRequest_cons_eq xs hx hxs]
      have hnone : xs.filter (fun x => decide (x.state = r.state)) = [] := by
        rw [List.filter_eq_nil_iff]
        intro y hy
        simpa using hxs y hy
      simp [hnone]
    · rw [upsertAuthRequest_cons_ne xs hx]
      simp only [List.filter_cons, hx, decide_False]
      exact ih hnd.2

theorem upsertAuthRequest_primaryKey {t : List AuthRequestRow} (hpk : AuthRequestsPrimaryKey t)
    (r : AuthRequestRow) : AuthRequestsPrimaryKey (upsertAuthRequest t r) := by
  induction t with
  | nil => simp [upsertAuthRequest, AuthRequestsPrimaryKey]
  | cons x xs ih =>
    have hnd : x.state ∉ xs.map (·.state) ∧ (xs.map (·.state)).Nodup := by
      simpa [AuthRequestsPrimaryKey] using hpk
    by_cases hx : x.state = r.state
    · have hxs : ∀ y ∈ xs, y.state ≠ r.state := by
        intro y hy hys
        exact hnd.1 (List.mem_map.mpr ⟨y, hy, hys.trans hx.symm⟩)
      rw [upsertAuthRequest_cons_eq xs hx hxs]
      unfold AuthRequestsPrimaryKey
      rw [List.map_cons, ← hx]
      exact hpk
    · rw [upsertAuthRequest_cons_ne xs hx]
      have ih := ih hnd.2
      unfold AuthRequestsPrimaryKey at ih ⊢
      rw [List.map_cons, List.nodup_cons]
      refine ⟨?_, ih⟩
      intro hmem
      obtain ⟨y, hy, hys⟩ := List.mem_map.mp hmem
      unfold upsertAuthRequest at hy
      split at hy
      · obtain ⟨z, hz, hzy⟩ := List.mem_map.mp hy
        by_cases hzs : z.state = r.state
        · simp only [hzs, if_true] at hzy
          rw [← hzy] at hys
          exact hnd.1 (List.mem_map.mpr ⟨z, hz, hzs.trans hys⟩)
        · simp only [hzs, if_false] at hzy
          rw [← hzy] at hys
          exact hnd.1 (List.mem_map.mpr ⟨z, hz, hys⟩)
      · rcases List.mem_append.mp hy with h | h
        · exact hnd.1 (List.mem_map.mpr ⟨y, h, hys⟩)
        · simp only [List.mem_singleton] at h
          rw [h] at hys
          exact hx hys.symm

theorem find_upsertAuthRequest (t : List AuthRequestRow) (r : AuthRequestRow) :
    (upsertAuthRequest t r).find? (fun x => x.state = r.state) = some r := by
  induction t with
  | nil => simp [upsertAuthRequest, List.find?]
  | cons x xs ih =>
    by_cases hx : x.state = r.state
    · unfold upsertAuthRequest
      simp only [List.any_cons, hx, decide_True, Bool.true_or, if_true, List.map_cons,
        List.find?]
    · rw [upsertAuthRequest_cons_ne xs hx]
      simp only [List.find?, hx, decide_False]
      exact ih

theorem selectAuthRequest_upsertAuthRequest (t : List AuthRequestRow) (r : AuthRequestRow) :
    selectAuthRequest (upsertAuthRequest t r) r.state = .ok r.data := by
  unfold selectAuthRequest
  rw [find_upsertAuthRequest]

theorem selectAuthRequest_absent {t : List AuthRequestRow} {k : String}
    (h : ∀ x ∈ t, x.state ≠ k) : selectAuthRequest t k = .error ErrNoRows := by
  unfold selectAuthRequest
  have hnone : t.find? (fun x => decide (x.state = k)) = none := by
    rw [List.find?_eq_none]
    intro x hx
    simpa using h x hx
  rw [hnone]

theorem state_of_mem_upsertAuthRequest {t : List AuthRequestRow} {r x : AuthRequestRow}
    (hx : x ∈ upsertAuthRequest t r) : x.state = r.state ∨ ∃ y ∈ t, y.state = x.state := by
  unfold upsertAuthRequest at hx
  split at hx
  · obtain ⟨y, hy, hyx⟩ := List.mem_map.mp hx
    by_cases hys : y.state = r.state
    · simp only [hys, if_true] at hyx
      left
      rw [← hyx]
    · simp only [hys, if_false] at hyx
      right
      exact ⟨y, hy, by rw [hyx]⟩
  · rcases List.mem_append.mp hx with h | h
    · exact Or.inr ⟨x, h, rfl⟩
    · simp only [List.mem_singleton] at h
      exact Or.inl (by rw [h])

theorem deleteAuthRequest_absent {t : List AuthRequestRow} {k : String}
    (h : ∀ x ∈ t, x.state ≠ k) : deleteAuthRequest t k = t := by
  unfold deleteAuthRequest
  rw [List.filter_eq_self]
  intro x hx
  simpa using h x hx

theorem not_mem_deleteAuthRequest (t : List AuthRequestRow) (k : String) :
    ∀ x ∈ deleteAuthRequest t k, x.state ≠ k := by
  intro x hx
  unfold deleteAuthRequest at hx
  simpa using (List.mem_filter.mp hx).2

theorem sumAEAD_correct : sumAEAD.Correct := by
  intro key nonce pt _ _
  have hlen : (pt ++ sumTag key nonce pt).length - 16 = pt.length := by
    simp [sumTag]
  have htake : (pt ++ sumTag key nonce pt).take pt.length = pt := List.take_left' rfl
  have hdrop : (pt ++ sumTag key nonce pt).drop pt.length = sumTag key nonce pt :=
    List.drop_left' rfl
  have hnot : ¬ (pt ++ sumTag key nonce pt).length < 16 := by
    simp [sumTag]
  simp only [sumAEAD, hlen, htake, hdrop, hnot, if_false, if_true]

/-! ## Lemmas on the store operations -/

theorem SaveSession_ok {P : Type} {A : AEAD} {C : Codec (ClientSessionData P)}
    {s s' : sqliteStore} {rand : List Nat} {now : Int} {sess : ClientSessionData P}
    (h : s.SaveSession A C rand now sess = .ok s') :
    ∃ data enc, C.Marshal sess = .ok data ∧ encryptBlob A rand s.key data = .ok enc ∧
      s'.key = s.key ∧ s'.db.auth_requests = s.db.auth_requests ∧
      s'.db.sessions = upsertSession s.db.sessions ⟨sess.SessionID, sess.AccountDID, enc, now⟩ := by
  unfold sqliteStore.SaveSession at h
  cases hm : C.Marshal sess with
  | error e => rw [hm] at h; cases h
  | ok data =>
    rw [hm] at h
    dsimp only at h
    cases he : encryptBlob A rand s.key data with
    | error e => rw [he] at h; cases h
    | ok enc =>
      rw [he] at h
      cases h
      exact ⟨data, enc, rfl, he, rfl, rfl, rfl⟩

theorem SaveAuthRequestInfo_ok {P : Type} {A : AEAD} {C : Codec (AuthRequestData P)}
    {s s' : sqliteStore} {rand : List Nat} {now : Int} {info : AuthRequestData P}
    (h : s.SaveAuthRequestInfo A C rand now info = .ok s') :
    ∃ data enc, C.Marshal info = .ok data ∧ encryptBlob A rand s.key data = .ok enc ∧
      s'.key = s.key ∧ s'.db.sessions = s.db.sessions ∧
      s'.db.auth_requests = upsertAuthRequest s.db.auth_requests ⟨info.State, enc, now⟩ := by
  unfold sqliteStore.SaveAuthRequestInfo at h
  cases hm : C.Marshal info with
  | error e => rw [hm] at h; cases h
  | ok data =>
    rw [hm] at h
    dsimp only at h
    cases he : encryptBlob A rand s.key data with
    | error e => rw [he] at h; cases h
    | ok enc =>
      rw [he] at h
      cases h
      exact ⟨data, enc, rfl, he, rfl, rfl, rfl⟩

theorem GetSession_of_row {P : Type} {A : AEAD} {C : Codec (ClientSessionData P)}
    {s : sqliteStore} {did sid : String} (blob pt : List Nat) {out : ClientSessionData P}
    (hrow : selectSession s.db.sessions sid did = .ok blob)
    (hdec : decryptBlob A s.key blob = .ok pt) (hjson : C.Unmarshal pt = .ok out) :
    s.GetSession A C did sid = .ok out := by
  unfold sqliteStore.GetSession
  rw [hrow]
  simp only [hdec, hjson]

theorem GetSession_no_rows {P : Type} {A : AEAD} {C : Codec (ClientSessionData P)}
    {s : sqliteStore} {did sid : String}
    (hrow : selectSession s.db.sessions sid did = .error ErrNoRows) :
    s.GetSession A C did sid = .error "session not found" := by
  unfold sqliteStore.GetSession
  rw [hrow]
  simp

theorem GetAuthRequestInfo_of_row {P : Type} {A : AEAD} {C : Codec (AuthRequestData P)}
    {s : sqliteStore} {k : String} (blob pt : List Nat) {out : AuthRequestData P}
    (hrow : selectAuthRequest s.db.auth_requests k = .ok blob)
    (hdec : decryptBlob A s.key blob = .ok pt) (hjson : C.Unmarshal pt = .ok out) :
    s.GetAuthRequestInfo A C k = .ok out := by
  unfold sqliteStore.GetAuthRequestInfo
  rw [hrow]
  simp only [hdec, hjson]

theorem GetAuthRequestInfo_no_rows {P : Type} {A : AEAD} {C : Codec (AuthRequestData P)}
    {s : sqliteStore} {k : String}
    (hrow : selectAuthRequest s.db.auth_requests k = .error ErrNoRows) :
    s.GetAuthRequestInfo A C k = .error "auth request not found" := by
  unfold sqliteStore.GetAuthRequestInfo
  rw [hrow]
  simp

/-! ## The store: round trip, isolation, replacement, deletion -/

/-- C1 (session round trip): for every store state, key and session record `sess`, if
`SaveSession` of `sess` returns no error, then `GetSession` with the account and the
session id of `sess` returns no error and the record `sess`; the AEAD is assumed to open
what it sealed and `json.Unmarshal` to invert `json.Marshal` on `sess`.  The key has a
valid AES length whenever the save succeeds, so no assumption on it is needed. -/
theorem SaveSession_then_GetSession {P : Type} (A : AEAD) (C : Codec (ClientSessionData P))
    (s s' : sqliteStore) (rand : List Nat) (now : Int) (sess : ClientSessionData P)
    (hA : A.Correct) (hC : C.RoundTrips sess)
    (hsave : s.SaveSession A C rand now sess = .ok s') :
    s'.GetSession A C sess.AccountDID sess.SessionID = .ok sess := by
  obtain ⟨data, enc, hm, he, hkey, _, hrows⟩ := SaveSession_ok hsave
  refine GetSession_of_row enc data ?_ ?_ (hC data hm)
  · rw [hrows]
    exact selectSession_upsertSession _ _ _ _ _
  · rw [hkey]
    exact decryptBlob_encryptBlob hA he

/-- Evaluation at `sampleStore`: `aliceSession` is saved and read back. -/
theorem SaveSession_then_GetSession_witness :
    sumAEAD.Correct ∧ sessionCodec.RoundTrips aliceSession ∧
      sampleStore.SaveSession sumAEAD sessionCodec (List.range 12) 1700000000 aliceSession =
        .ok sampleStoreAlice ∧
      sampleStoreAlice.GetSession sumAEAD sessionCodec "did:plc:alice" "s1" =
        .ok aliceSession :=
  ⟨sumAEAD_correct, by intro data h; cases h; decide, by decide,
    SaveSession_then_GetSession sumAEAD sessionCodec sampleStore sampleStoreAlice
      (List.range 12) 1700000000 aliceSession sumAEAD_correct
      (by intro data h; cases h; decide) (by decide)⟩

/-- C2 (account isolation): for every prior store state, after `SaveSession` of a record
with session id `s1` and account `A` succeeds, `GetSession` with the same session id and
any other account `B` returns no record and the error `session not found`, although the
table holds a row whose key is `s1`. -/
theorem GetSession_other_account {P : Type} (A : AEAD) (C : Codec (ClientSessionData P))
    (s s' : sqliteStore) (rand : List Nat) (now : Int) (sess : ClientSessionData P)
    (B : String) (hne : B ≠ sess.AccountDID)
    (hsave : s.SaveSession A C rand now sess = .ok s') :
    s'.GetSession A C B sess.SessionID = .error "session not found" ∧
      ∃ r ∈ s'.db.sessions, r.session_id = sess.SessionID := by
  obtain ⟨data, enc, _, _, _, _, hrows⟩ := SaveSession_ok hsave
  constructor
  · apply GetSession_no_rows
    rw [hrows]
    exact selectSession_other_account _ ⟨sess.SessionID, sess.AccountDID, enc, now⟩ hne
  · rw [hrows]
    exact mem_upsertSession_key _ _

/-- Evaluation at `sampleStore`: `aliceSession` is saved and `did:plc:bob`, the former
owner of the row `s1`, asks for `s1`. -/
theorem GetSession_other_account_witness :
    "did:plc:bob" ≠ aliceSession.AccountDID ∧
      sampleStore.SaveSession sumAEAD sessionCodec (List.range 12) 1700000000 aliceSession =
        .ok sampleStoreAlice ∧
      sampleStoreAlice.GetSession sumAEAD sessionCodec "did:plc:bob" aliceSession.SessionID =
        .error "session not found" ∧
      ∃ r ∈ sampleStoreAlice.db.sessions, r.session_id = aliceSession.SessionID :=
  ⟨by decide, by decide,
    GetSession_other_account sumAEAD sessionCodec sampleStore sampleStoreAlice
      (List.range 12) 1700000000 aliceSession "did:plc:bob" (by decide) (by decide)⟩

/-- C3 (an upsert fully replaces): for every store state whose `auth_requests` table meets
its primary-key constraint, every key `k` and payloads `p1`, `p2` with `State = k`, after
`SaveAuthRequestInfo` of `p1` and then of `p2` both succeed, the table holds exactly one
row keyed `k` (as it did after the first save), that row is the one written for `p2` (its blob is the second nonce followed
by the sealing of the serialised `p2`, its time is the second one), and
`GetAuthRequestInfo k` returns `p2`; the AEAD is assumed to open what it sealed and
`json.Unmarshal` to invert `json.Marshal` on `p2`. -/
theorem SaveAuthRequestInfo_twice_replaces {P : Type} (A : AEAD)
    (C : Codec (AuthRequestData P)) (s s1 s2 : sqliteStore) (rand1 rand2 : List Nat)
    (now1 now2 : Int) (p1 p2 : AuthRequestData P) (k : String)
    (hpk : AuthRequestsPrimaryKey s.db.auth_requests)
    (hA : A.Correct) (hC : C.RoundTrips p2)
    (hk1 : p1.State = k) (hk2 : p2.State = k)
    (h1 : s.SaveAuthRequestInfo A C rand1 now1 p1 = .ok s1)
    (h2 : s1.SaveAuthRequestInfo A C rand2 now2 p2 = .ok s2) :
    (s1.db.auth_requests.filter (fun r => r.state = k)).length = 1 ∧
      (s2.db.auth_requests.filter (fun r => r.state = k)).length = 1 ∧
      s2.GetAuthRequestInfo A C k = .ok p2 ∧
      ∃ data2, C.Marshal p2 = .ok data2 ∧
        s2.db.auth_requests.filter (fun r => r.state = k) =
          [⟨k, rand2.take NonceSize ++ A.Seal s.key (rand2.take NonceSize) data2, now2⟩] := by
  obtain ⟨_, enc1, _, _, hkey1, _, hrows1⟩ := SaveAuthRequestInfo_ok h1
  have hfirst := filter_upsertAuthRequest hpk ⟨p1.State, enc1, now1⟩
  rw [← hrows1] at hfirst
  simp only [hk1] at hfirst
  refine ⟨by rw [hfirst]; rfl, ?_⟩
  obtain ⟨data2, enc2, hm2, he2, hkey2, _, hrows2⟩ := SaveAuthRequestInfo_ok h2
  have hpk1 : AuthRequestsPrimaryKey s1.db.auth_requests := by
    rw [hrows1]
    exact upsertAuthRequest_primaryKey hpk _
  have hfilter := filter_upsertAuthRequest hpk1 ⟨p2.State, enc2, now2⟩
  rw [← hrows2] at hfilter
  simp only [hk2] at hfilter
  obtain ⟨_, _, henc2⟩ := encryptBlob_ok he2
  refine ⟨by rw [hfilter]; rfl, ?_, data2, hm2, ?_⟩
  · refine GetAuthRequestInfo_of_row enc2 data2 ?_ ?_ (hC data2 hm2)
    · rw [hrows2, ← hk2]
      exact selectAuthRequest_upsertAuthRequest _ ⟨p2.State, enc2, now2⟩
    · rw [hkey2]
      exact decryptBlob_encryptBlob hA he2
  · rw [hfilter, henc2, hkey1]

/-- Evaluation at `sampleStore`: `xyzRequest` and then `xyzRequest2` are saved under `xyz`. -/
theorem SaveAuthRequestInfo_twice_replaces_witness :
    AuthRequestsPrimaryKey sampleStore.db.auth_requests ∧
      sampleStore.SaveAuthRequestInfo sumAEAD authRequestCodec (List.range 12) 1700000000
        xyzRequest = .ok sampleStoreXyz ∧
      sampleStoreXyz.SaveAuthRequestInfo sumAEAD authRequestCodec (List.replicate 12 9)
        1700000001 xyzRequest2 = .ok sampleStoreXyz2 ∧
      ((sampleStoreXyz.db.auth_requests.filter (fun r => r.state = "xyz")).length = 1 ∧
        (sampleStoreXyz2.db.auth_requests.filter (fun r => r.state = "xyz")).length = 1 ∧
        sampleStoreXyz2.GetAuthRequestInfo sumAEAD authRequestCodec "xyz" = .ok xyzRequest2 ∧
        ∃ data2, authRequestCodec.Marshal xyzRequest2 = .ok data2 ∧
          sampleStoreXyz2.db.auth_requests.filter (fun r => r.state = "xyz") =
            [⟨"xyz", (List.replicate 12 9).take NonceSize ++
              sumAEAD.Seal sampleStore.key ((List.replicate 12 9).take NonceSize) data2,
              1700000001⟩]) :=
  ⟨by decide, by decide, by decide,
    SaveAuthRequestInfo_twice_replaces sumAEAD authRequestCodec sampleStore sampleStoreXyz
      sampleStoreXyz2 (List.range 12) (List.replicate 12 9) 1700000000 1700000001 xyzRequest
      xyzRequest2 "xyz" (by decide) sumAEAD_correct (by intro data h; cases h; decide)
      (by decide) (by decide) (by decide) (by decide)⟩

/-- C4 (key mismatch): for every payload `p` and key `k2` other than `p.State`, on a store
that holds no row for `k2`, after `SaveAuthRequestInfo` of `p` succeeds,
`GetAuthRequestInfo k2` returns no record and the error `auth request not found`. -/
theorem GetAuthRequestInfo_other_key {P : Type} (A : AEAD) (C : Codec (AuthRequestData P))
    (s s' : sqliteStore) (rand : List Nat) (now : Int) (p : AuthRequestData P) (k2 : String)
    (hne : p.State ≠ k2) (habsent : ∀ r ∈ s.db.auth_requests, r.state ≠ k2)
    (hsave : s.SaveAuthRequestInfo A C rand now p = .ok s') :
    s'.GetAuthRequestInfo A C k2 = .error "auth request not found" := by
  obtain ⟨_, enc, _, _, _, _, hrows⟩ := SaveAuthRequestInfo_ok hsave
  apply GetAuthRequestInfo_no_rows
  apply selectAuthRequest_absent
  intro x hx hxk
  rw [hrows] at hx
  rcases state_of_mem_upsertAuthRequest hx with h | ⟨y, hy, hys⟩
  · exact hne (h.symm.trans hxk)
  · exact habsent y hy (hys.trans hxk)

/-- Evaluation at `sampleStore`: `xyzRequest` is saved and `other` is looked up. -/
theorem GetAuthRequestInfo_other_key_witness :
    xyzRequest.State ≠ "other" ∧ (∀ r ∈ sampleStore.db.auth_requests, r.state ≠ "other") ∧
      sampleStore.SaveAuthRequestInfo sumAEAD authRequestCodec (List.range 12) 1700000000
        xyzRequest = .ok sampleStoreXyz ∧
      sampleStoreXyz.GetAuthRequestInfo sumAEAD authRequestCodec "other" =
        .error "auth request not found" :=
  ⟨by decide, by decide, by decide,
    GetAuthRequestInfo_other_key sumAEAD authRequestCodec sampleStore sampleStoreXyz
      (List.range 12) 1700000000 xyzRequest "other" (by decide) (by decide) (by decide)⟩

/-- C5 (delete makes the key absent and is idempotent): for every store state and key `k`,
`DeleteAuthRequestInfo k` returns no error and a store `s'` on which
`GetAuthRequestInfo k` returns the error `auth request not found`; when no row for `k`
existed, `s'` is the store unchanged; deleting again from `s'` returns `s'`. -/
theorem DeleteAuthRequestInfo_absent {P : Type} (A : AEAD) (C : Codec (AuthRequestData P))
    (s : sqliteStore) (k : String) :
    ∃ s', s.DeleteAuthRequestInfo k = .ok s' ∧
      s'.GetAuthRequestInfo A C k = .error "auth request not found" ∧
      ((∀ r ∈ s.db.auth_requests, r.state ≠ k) → s' = s) ∧
      s'.DeleteAuthRequestInfo k = .ok s' := by
  refine ⟨_, rfl, ?_, ?_, ?_⟩
  · apply GetAuthRequestInfo_no_rows
    exact selectAuthRequest_absent (not_mem_deleteAuthRequest _ _)
  · intro habsent
    show sqliteStore.mk _ _ = s
    rw [deleteAuthRequest_absent habsent]
  · unfold sqliteStore.DeleteAuthRequestInfo
    dsimp only
    rw [deleteAuthRequest_absent (not_mem_deleteAuthRequest _ _)]

/-- Evaluation at `sampleStoreXyz`: deleting `xyz` gives back `sampleStore`, and deleting
the absent `other` changes nothing. -/
theorem DeleteAuthRequestInfo_absent_witness :
    sampleStoreXyz.DeleteAuthRequestInfo "xyz" = .ok sampleStore ∧
      sampleStoreXyz.DeleteAuthRequestInfo "other" = .ok sampleStoreXyz ∧
      ∃ s', sampleStoreXyz.DeleteAuthRequestInfo "xyz" = .ok s' ∧
        s'.GetAuthRequestInfo sumAEAD authRequestCodec "xyz" =
          .error "auth request not found" ∧
        ((∀ r ∈ sampleStoreXyz.db.auth_requests, r.state ≠ "xyz") → s' = sampleStoreXyz) ∧
        s'.DeleteAuthRequestInfo "xyz" = .ok s' :=
  ⟨by decide, by decide,
    DeleteAuthRequestInfo_absent sumAEAD authRequestCodec sampleStoreXyz "xyz"⟩

/-! ## Lemmas on base64 -/

namespace base64

theorem decodeMap_encodeChar (v : Nat) : decodeMap (encodeChar v) = v % 64 := by
  unfold encodeChar
  have h : v % 64 < 64 := Nat.mod_lt v (by norm_num)
  generalize v % 64 = w at h
  interval_cases w <;> rfl

theorem decodeFrom_digit (v : Nat) (rest dbuf : List Nat) :
    decodeFrom (encodeChar v :: rest) dbuf =
      if dbuf.length = 3 then
        (decodeFrom rest []).map (fun out => quantumBytes (dbuf ++ [v % 64]) ++ out)
      else decodeFrom rest (dbuf ++ [v % 64]) := by
  have h : v % 64 < 64 := Nat.mod_lt v (by norm_num)
  have hne : decodeMap (encodeChar v) ≠ 255 := by
    rw [decodeMap_encodeChar]; omega
  rw [decodeFrom, if_pos hne, decodeMap_encodeChar]

theorem decodeFrom_quad (d0 d1 d2 d3 : Nat) (rest : List Nat) :
    decodeFrom (encodeChar d0 :: encodeChar d1 :: encodeChar d2 :: encodeChar d3 :: rest) [] =
      (decodeFrom rest []).map
        (fun out => quantumBytes [d0 % 64, d1 % 64, d2 % 64, d3 % 64] ++ out) := by
  rw [decodeFrom_digit, if_neg (by simp), decodeFrom_digit, if_neg (by simp),
    decodeFrom_digit, if_neg (by simp), decodeFrom_digit, if_pos (by rfl)]
  rfl

theorem decodeMap_padChar : decodeMap padChar = 255 := by decide

theorem decodeFrom_pad_two (dbuf : List Nat) (h : dbuf.length = 2) :
    decodeFrom [padChar, padChar] dbuf = some (quantumBytes dbuf) := by
  rw [decodeFrom, if_neg (by rw [decodeMap_padChar]; decide), if_neg (by decide),
    if_neg (by decide), if_neg (by omega), if_pos h]
  rfl

theorem decodeFrom_pad_three (dbuf : List Nat) (h : dbuf.length = 3) :
    decodeFrom [padChar] dbuf = some (quantumBytes dbuf) := by
  rw [decodeFrom, if_neg (by rw [decodeMap_padChar]; decide), if_neg (by decide),
    if_neg (by decide), if_neg (by omega), if_neg (by omega)]
  rfl

theorem decodeFrom_pad2 (d0 d1 : Nat) :
    decodeFrom [encodeChar d0, encodeChar d1, padChar, padChar] [] =
      some (quantumBytes [d0 % 64, d1 % 64]) := by
  rw [decodeFrom_digit, if_neg (by simp), decodeFrom_digit, if_neg (by simp)]
  exact decodeFrom_pad_two _ rfl

theorem decodeFrom_pad1 (d0 d1 d2 : Nat) :
    decodeFrom [encodeChar d0, encodeChar d1, encodeChar d2, padChar] [] =
      some (quantumBytes [d0 % 64, d1 % 64, d2 % 64]) := by
  rw [decodeFrom_digit, if_neg (by simp), decodeFrom_digit, if_neg (by simp),
    decodeFrom_digit, if_neg (by simp)]
  exact decodeFrom_pad_three _ rfl

theorem quantumBytes_three {a b c : Nat} (ha : a < 256) (hb : b < 256) (hc : c < 256) :
    quantumBytes [a / 4 % 64, (a % 4 * 16 + b / 16) % 64, (b % 16 * 4 + c / 64) % 64,
      c % 64 % 64] = [a, b, c] := by
  simp only [quantumBytes, List.getD_cons_zero, List.getD_cons_succ, List.length_cons,
    List.length_nil, List.take]
  refine congrArg₂ _ (by omega) (congrArg₂ _ (by omega) (congrArg₂ _ (by omega) rfl))

theorem quantumBytes_two {a b : Nat} (ha : a < 256) (hb : b < 256) :
    quantumBytes [a / 4 % 64, (a % 4 * 16 + b / 16) % 64, b % 16 * 4 % 64] = [a, b] := by
  simp only [quantumBytes, List.getD_cons_zero, List.getD_cons_succ, List.length_cons,
    List.length_nil, List.take, List.getD_nil]
  refine congrArg₂ _ (by omega) (congrArg₂ _ (by omega) rfl)

theorem quantumBytes_one {a : Nat} (ha : a < 256) :
    quantumBytes [a / 4 % 64, a % 4 * 16 % 64] = [a] := by
  simp only [quantumBytes, List.getD_cons_zero, List.getD_cons_succ, List.length_cons,
    List.length_nil, List.take, List.getD_nil]
  refine congrArg₂ _ (by omega) rfl

/-- Decoding inverts encoding on byte sequences. -/
theorem DecodeString_EncodeToString (bs : List Nat) (h : IsBytes bs) :
    DecodeString (EncodeToString bs) = some bs := by
  unfold DecodeString EncodeToString
  induction bs using encode.induct with
  | case1 => simp [encode, decodeFrom]
  | case2 a =>
    rw [encode, decodeFrom_pad2, quantumBytes_one (h a (by simp))]
  | case3 a b =>
    rw [encode, decodeFrom_pad1, quantumBytes_two (h a (by simp)) (h b (by simp))]
  | case4 a b c rest ih =>
    have hrest : IsBytes rest := fun x hx => h x (by simp [hx])
    rw [encode, decodeFrom_quad, ih hrest,
      quantumBytes_three (h a (by simp)) (h b (by simp)) (h c (by simp))]
    rfl

theorem EncodeToString_ne_nil {bs : List Nat} (h : bs ≠ []) : EncodeToString bs ≠ [] := by
  unfold EncodeToString
  match bs, h with
  | [_], _ => simp [encode]
  | [_, _], _ => simp [encode]
  | _ :: _ :: _ :: _, _ => simp [encode]

end base64

/-! ## Key derivation -/

theorem Sum256_length (data : List Nat) : (sha256.Sum256 data).length = 32 := by
  simp [sha256.Sum256, sha256.be32]

theorem deriveKeyFromEnv_of_decoded {raw decoded : List Nat}
    (hdec : base64.DecodeString raw = some decoded) (h16 : 16 ≤ decoded.length) :
    deriveKeyFromEnv raw =
      if decoded.length = 32 then .ok decoded else .ok (sha256.Sum256 decoded) := by
  have hne : raw ≠ [] := by
    rintro rfl
    have : decoded = [] := by
      have h0 : base64.DecodeString [] = some [] := rfl
      rw [h0] at hdec
      exact (Option.some.inj hdec).symm
    rw [this] at h16
    simp at h16
  unfold deriveKeyFromEnv
  rw [if_neg hne, hdec]
  simp only [ge_iff_le, h16, if_true]

/-- C6 (a 32-byte base64 secret is the key itself): for every byte sequence `K` of length
32, `deriveKeyFromEnv` applied to the standard padded base64 encoding of `K` returns no
error and the key `K`, unhashed. -/
theorem deriveKeyFromEnv_base64_32 (K : List Nat) (hbytes : IsBytes K)
    (hlen : K.length = 32) : deriveKeyFromEnv (base64.EncodeToString K) = .ok K := by
  rw [deriveKeyFromEnv_of_decoded (base64.DecodeString_EncodeToString K hbytes)
    (by rw [hlen]; decide), if_pos hlen]

/-- Evaluation at the bytes `0, 1, .., 31`, whose encoding is
`AAECAwQFBgcICQoLDA0ODxAREhMUFRYXGBkaGxwdHh8=`. -/
theorem deriveKeyFromEnv_base64_32_witness :
    IsBytes (List.range 32) ∧ (List.range 32).length = 32 ∧
      base64.EncodeToString (List.range 32) =
        utf8 "AAECAwQFBgcICQoLDA0ODxAREhMUFRYXGBkaGxwdHh8=" ∧
      deriveKeyFromEnv (base64.EncodeToString (List.range 32)) = .ok (List.range 32) :=
  ⟨by decide, by decide, by decide,
    deriveKeyFromEnv_base64_32 (List.range 32) (by decide) (by decide)⟩

/-- The zero-key scenario fails for the string of 31 letters `A` and `=`: it does not
decode to 32 zero bytes, and `deriveKeyFromEnv` does not return 32 zero bytes for it. -/
theorem deriveKeyFromEnv_31A_not_zero_key :
    base64.DecodeString (utf8 "AAAAAAAAAAAAAAAAAAAAAAAAAAAAAAA=") ≠ some (List.replicate 32 0) ∧
      deriveKeyFromEnv (utf8 "AAAAAAAAAAAAAAAAAAAAAAAAAAAAAAA=") ≠ .ok (List.replicate 32 0) := by
  decide

/-- C7, amended (zero-key scenario): `deriveKeyFromEnv` applied to the string of 31 letters
`A` followed by `=` decodes it to 23 zero bytes and returns the SHA-256 digest of those 23
bytes; the string that decodes to 32 zero bytes is 43 letters `A` followed by `=`, and for
it `deriveKeyFromEnv` returns exactly those 32 zero bytes as the key. -/
theorem deriveKeyFromEnv_zero_key :
    base64.DecodeString (utf8 "AAAAAAAAAAAAAAAAAAAAAAAAAAAAAAA=") = some (List.replicate 23 0) ∧
      deriveKeyFromEnv (utf8 "AAAAAAAAAAAAAAAAAAAAAAAAAAAAAAA=") =
        .ok (sha256.Sum256 (List.replicate 23 0)) ∧
      sha256.Sum256 (List.replicate 23 0) =
        [1, 82, 117, 230, 31, 160, 208, 117, 28, 29, 159, 69, 84, 28, 120, 4, 200, 149, 64,
         68, 85, 71, 7, 16, 173, 227, 120, 111, 40, 47, 45, 160] ∧
      base64.DecodeString (utf8 "AAAAAAAAAAAAAAAAAAAAAAAAAAAAAAAAAAAAAAAAAAA=") =
        some (List.replicate 32 0) ∧
      deriveKeyFromEnv (utf8 "AAAAAAAAAAAAAAAAAAAAAAAAAAAAAAAAAAAAAAAAAAA=") =
        .ok (List.replicate 32 0) := by
  decide

/-- C8 (raw-secret fallback): for every non-empty secret that is not valid standard base64
or decodes to fewer than 16 bytes, `deriveKeyFromEnv` returns the SHA-256 digest of the
secret's own bytes; in particular `hunter2`, whose bytes are `h,u,n,t,e,r,2` and which is
not valid base64, gives the digest of those seven bytes,
`f52fbd32b2b3b86ff88ef6c490628285f482af15ddcb29541f94bcf526a3f6c7`. -/
theorem deriveKeyFromEnv_raw_fallback :
    (∀ raw : List Nat, raw ≠ [] →
      (base64.DecodeString raw = none ∨
        ∃ d, base64.DecodeString raw = some d ∧ d.length < 16) →
      deriveKeyFromEnv raw = .ok (sha256.Sum256 raw)) ∧
    utf8 "hunter2" = [104, 117, 110, 116, 101, 114, 50] ∧
    base64.DecodeString (utf8 "hunter2") = none ∧
    deriveKeyFromEnv (utf8 "hunter2") = .ok (sha256.Sum256 [104, 117, 110, 116, 101, 114, 50]) ∧
    sha256.Sum256 [104, 117, 110, 116, 101, 114, 50] =
      [0xf5, 0x2f, 0xbd, 0x32, 0xb2, 0xb3, 0xb8, 0x6f, 0xf8, 0x8e, 0xf6, 0xc4, 0x90, 0x62,
       0x82, 0x85, 0xf4, 0x82, 0xaf, 0x15, 0xdd, 0xcb, 0x29, 0x54, 0x1f, 0x94, 0xbc, 0xf5,
       0x26, 0xa3, 0xf6, 0xc7] := by
  refine ⟨?_, by decide, by decide, by decide, by decide⟩
  intro raw hne h
  unfold deriveKeyFromEnv
  rw [if_neg hne]
  rcases h with h | ⟨d, h, hd⟩
  · rw [h]
  · rw [h]
    simp only [ge_iff_le, Nat.not_le.mpr hd, if_false]

/-- Evaluation at `hunter2` (not valid base64) and at `QUJD` (valid, three bytes). -/
theorem deriveKeyFromEnv_raw_fallback_witness :
    deriveKeyFromEnv (utf8 "hunter2") = .ok (sha256.Sum256 (utf8 "hunter2")) ∧
      base64.DecodeString (utf8 "QUJD") = some [65, 66, 67] ∧
      deriveKeyFromEnv (utf8 "QUJD") = .ok (sha256.Sum256 (utf8 "QUJD")) :=
  ⟨deriveKeyFromEnv_raw_fallback.1 (utf8 "hunter2") (by decide) (Or.inl (by decide)),
    by decide,
    deriveKeyFromEnv_raw_fallback.1 (utf8 "QUJD") (by decide)
      (Or.inr ⟨[65, 66, 67], by decide, by decide⟩)⟩

/-- C9 (hashed base64 branch): for every secret that is valid standard base64 and decodes
to a byte sequence `D` of length at least 16 and other than 32, `deriveKeyFromEnv`
returns the SHA-256 digest of `D`, which is 32 bytes long. -/
theorem deriveKeyFromEnv_hashed_base64 (raw D : List Nat)
    (hdec : base64.DecodeString raw = some D) (h16 : 16 ≤ D.length) (h32 : D.length ≠ 32) :
    deriveKeyFromEnv raw = .ok (sha256.Sum256 D) ∧ (sha256.Sum256 D).length = 32 := by
  rw [deriveKeyFromEnv_of_decoded hdec h16, if_neg h32]
  exact ⟨rfl, Sum256_length D⟩

/-- Evaluation at `MDEyMzQ1Njc4OWFiY2RlZg==`, the encoding of the sixteen bytes
`0123456789abcdef`; the digest of the decoded bytes is not that of the text. -/
theorem deriveKeyFromEnv_hashed_base64_witness :
    base64.DecodeString (utf8 "MDEyMzQ1Njc4OWFiY2RlZg==") = some (utf8 "0123456789abcdef") ∧
      16 ≤ (utf8 "0123456789abcdef").length ∧ (utf8 "0123456789abcdef").length ≠ 32 ∧
      sha256.Sum256 (utf8 "0123456789abcdef") ≠
        sha256.Sum256 (utf8 "MDEyMzQ1Njc4OWFiY2RlZg==") ∧
      (deriveKeyFromEnv (utf8 "MDEyMzQ1Njc4OWFiY2RlZg==") =
          .ok (sha256.Sum256 (utf8 "0123456789abcdef")) ∧
        (sha256.Sum256 (utf8 "0123456789abcdef")).length = 32) :=
  ⟨by decide, by decide, by decide, by decide,
    deriveKeyFromEnv_hashed_base64 (utf8 "MDEyMzQ1Njc4OWFiY2RlZg==")
      (utf8 "0123456789abcdef") (by decide) (by decide) (by decide)⟩

/-- C10 (failure exactly on the empty secret): `deriveKeyFromEnv` returns an error and no
key for the empty secret, and for every non-empty secret it returns a key and no error. -/
theorem deriveKeyFromEnv_error_iff_empty :
    deriveKeyFromEnv [] = .error "SESSION_DB_KEY is required" ∧
      ∀ raw : List Nat, raw ≠ [] → ∃ key, deriveKeyFromEnv raw = .ok key := by
  refine ⟨rfl, ?_⟩
  intro raw hne
  unfold deriveKeyFromEnv
  rw [if_neg hne]
  cases base64.DecodeString raw with
  | none => exact ⟨_, rfl⟩
  | some decoded =>
    by_cases h16 : decoded.length ≥ 16
    · by_cases h32 : decoded.length = 32
      · exact ⟨decoded, by dsimp only; rw [if_pos h16, if_pos h32]⟩
      · exact ⟨sha256.Sum256 decoded, by dsimp only; rw [if_pos h16, if_neg h32]⟩
    · exact ⟨sha256.Sum256 raw, by dsimp only; rw [if_neg h16]⟩

/-- Evaluation at the one-byte secret `x`. -/
theorem deriveKeyFromEnv_error_iff_empty_witness :
    utf8 "x" ≠ [] ∧ ∃ key, deriveKeyFromEnv (utf8 "x") = .ok key :=
  ⟨by decide, deriveKeyFromEnv_error_iff_empty.2 (utf8 "x") (by decide)⟩

/-! ## The envelope: layout, short blobs -/

theorem decryptBlob_split (A : AEAD) {key blob : List Nat} (hkey : ValidKey key)
    (hlen : NonceSize ≤ blob.length) :
    decryptBlob A key blob =
      match A.Open key (blob.take NonceSize) (blob.drop NonceSize) with
      | none => .error "cipher: message authentication failed"
      | some pt => .ok pt := by
  unfold decryptBlob NewCipher
  rw [if_pos hkey]
  dsimp only
  rw [if_neg (by omega)]

/-- C11 (envelope layout): for every key of a valid AES length, plaintext `p` and 12-byte
nonce `N` delivered by the random source, `encryptBlob` returns exactly `N` followed by
the sealing of `p` under `(key, N)`; the first 12 bytes of the output are `N`; the output
length is `12 + len(p) + 16`, the AEAD adding its 16-byte tag; and `decryptBlob` splits
every blob of at least 12 bytes at offset 12, so that the envelope `N ++ ct` is opened as
nonce `N` and sealed text `ct`. -/
theorem encryptBlob_layout (A : AEAD) (key p N more : List Nat) (hkey : ValidKey key)
    (hN : N.length = 12) (hseal : A.SealLength) :
    encryptBlob A (N ++ more) key p = .ok (N ++ A.Seal key N p) ∧
      (N ++ A.Seal key N p).take 12 = N ∧
      (N ++ A.Seal key N p).length = 12 + p.length + 16 ∧
      (∀ blob : List Nat, 12 ≤ blob.length →
        decryptBlob A key blob =
          match A.Open key (blob.take 12) (blob.drop 12) with
          | none => .error "cipher: message authentication failed"
          | some pt => .ok pt) ∧
      (∀ ct : List Nat,
        decryptBlob A key (N ++ ct) =
          match A.Open key N ct with
          | none => .error "cipher: message authentication failed"
          | some pt => .ok pt) := by
  have htake : (N ++ more).take NonceSize = N := List.take_left' hN
  refine ⟨?_, ?_, ?_, ?_, ?_⟩
  · unfold encryptBlob NewCipher ReadFull
    rw [if_pos hkey]
    dsimp only
    rw [if_pos (by rw [List.length_append, hN]; exact Nat.le_add_right _ _)]
    dsimp only
    rw [htake]
  · rw [← hN]; exact List.take_left' rfl
  · rw [List.length_append, hseal key N p hkey hN, hN]
    unfold TagSize
    omega
  · intro blob hblob
    exact decryptBlob_split A hkey hblob
  · intro ct
    have h := decryptBlob_split A hkey
      (show NonceSize ≤ (N ++ ct).length by rw [List.length_append, hN]; exact Nat.le_add_right _ _)
    have h1 : (N ++ ct).take NonceSize = N := List.take_left' hN
    have h2 : (N ++ ct).drop NonceSize = ct := List.drop_left' hN
    rw [h1, h2] at h
    exact h

theorem sumAEAD_sealLength : sumAEAD.SealLength := by
  intro key nonce pt _ _
  simp [sumAEAD, sumTag, TagSize]

/-- Evaluation at a 32-byte key, the nonce `0, .., 11` and a three-byte plaintext. -/
theorem encryptBlob_layout_witness :
    ValidKey (List.replicate 32 7) ∧ (List.range 12).length = 12 ∧ sumAEAD.SealLength ∧
      encryptBlob sumAEAD (List.range 12 ++ [99, 98]) (List.replicate 32 7) [1, 2, 3] =
        .ok [0, 1, 2, 3, 4, 5, 6, 7, 8, 9, 10, 11, 1, 2, 3, 40, 40, 40, 40, 40, 40, 40, 40,
          40, 40, 40, 40, 40, 40, 40, 40] ∧
      decryptBlob sumAEAD (List.replicate 32 7)
        [0, 1, 2, 3, 4, 5, 6, 7, 8, 9, 10, 11, 1, 2, 3, 40, 40, 40, 40, 40, 40, 40, 40,
          40, 40, 40, 40, 40, 40, 40, 40] = .ok [1, 2, 3] ∧
      (List.range 12 ++ sumAEAD.Seal (List.replicate 32 7) (List.range 12) [1, 2, 3]).length =
        12 + 3 + 16 :=
  ⟨by decide, by decide, sumAEAD_sealLength, by decide, by decide,
    (encryptBlob_layout sumAEAD (List.replicate 32 7) [1, 2, 3] (List.range 12) [99, 98]
      (by decide) (by decide) sumAEAD_sealLength).2.2.1⟩

/-- C12 (short blobs are rejected): for every key of a valid AES length and every blob of
fewer than 12 bytes, the empty blob included, `decryptBlob` returns the error
`ciphertext too short` and no plaintext; the result is the same for every AEAD, the blob
being neither split nor opened. -/
theorem decryptBlob_short (A : AEAD) (key blob : List Nat) (hkey : ValidKey key)
    (hshort : blob.length < 12) : decryptBlob A key blob = .error "ciphertext too short" := by
  have hshort' : blob.length < NonceSize := hshort
  unfold decryptBlob NewCipher
  rw [if_pos hkey]
  dsimp only
  rw [if_pos hshort']

/-- Evaluation at the empty blob and at a blob of eleven bytes. -/
theorem decryptBlob_short_witness :
    decryptBlob sumAEAD (List.replicate 32 7) [] = .error "ciphertext too short" ∧
      decryptBlob sumAEAD (List.replicate 32 7) (List.range 11) =
        .error "ciphertext too short" :=
  ⟨decryptBlob_short sumAEAD (List.replicate 32 7) [] (by decide) (by decide),
    decryptBlob_short sumAEAD (List.replicate 32 7) (List.range 11) (by decide) (by decide)⟩

/-! ## The get operations: one record or one classified failure -/

/-- C13 (a get returns a record or one classified failure): for every store state and
arguments, `GetSession` returns the error `session not found` when no row has both the
session id and the account (a row with the session id under another account does not
match); when a row matches, it returns the error of `decryptBlob` if the blob does not
decrypt under the store key, the error of `json.Unmarshal` if the plaintext does not
parse, and the parsed record otherwise; so it returns a record exactly when a row
matches, its blob decrypts and the plaintext parses.  `GetAuthRequestInfo` does the same
on the rows keyed by `state`, with the error `auth request not found`. -/
theorem Get_classified {P Q : Type} (A : AEAD) (C : Codec (ClientSessionData P))
    (D : Codec (AuthRequestData Q)) (s : sqliteStore) (did sessionID state : String) :
    (((∀ r ∈ s.db.sessions, ¬ (r.session_id = sessionID ∧ r.did = did)) →
        s.GetSession A C did sessionID = .error "session not found") ∧
      (∀ r, s.db.sessions.find? (fun x => x.session_id = sessionID ∧ x.did = did) = some r →
        (∀ e, decryptBlob A s.key r.data = .error e →
          s.GetSession A C did sessionID = .error e) ∧
        (∀ pt e, decryptBlob A s.key r.data = .ok pt → C.Unmarshal pt = .error e →
          s.GetSession A C did sessionID = .error e) ∧
        (∀ pt out, decryptBlob A s.key r.data = .ok pt → C.Unmarshal pt = .ok out →
          s.GetSession A C did sessionID = .ok out)) ∧
      (∀ out, s.GetSession A C did sessionID = .ok out ↔
        ∃ r pt, s.db.sessions.find? (fun x => x.session_id = sessionID ∧ x.did = did) = some r ∧
          decryptBlob A s.key r.data = .ok pt ∧ C.Unmarshal pt = .ok out)) ∧
    (((∀ r ∈ s.db.auth_requests, ¬ r.state = state) →
        s.GetAuthRequestInfo A D state = .error "auth request not found") ∧
      (∀ r, s.db.auth_requests.find? (fun x => x.state = state) = some r →
        (∀ e, decryptBlob A s.key r.data = .error e →
          s.GetAuthRequestInfo A D state = .error e) ∧
        (∀ pt e, decryptBlob A s.key r.data = .ok pt → D.Unmarshal pt = .error e →
          s.GetAuthRequestInfo A D state = .error e) ∧
        (∀ pt out, decryptBlob A s.key r.data = .ok pt → D.Unmarshal pt = .ok out →
          s.GetAuthRequestInfo A D state = .ok out)) ∧
      (∀ out, s.GetAuthRequestInfo A D state = .ok out ↔
        ∃ r pt, s.db.auth_requests.find? (fun x => x.state = state) = some r ∧
          decryptBlob A s.key r.data = .ok pt ∧ D.Unmarshal pt = .ok out)) := by
  constructor
  · refine ⟨?_, ?_, ?_⟩
    · intro hno
      apply GetSession_no_rows
      unfold selectSession
      have hnone : s.db.sessions.find?
          (fun x => decide (x.session_id = sessionID ∧ x.did = did)) = none := by
        rw [List.find?_eq_none]
        intro x hx
        simpa using hno x hx
      rw [hnone]
    · intro r hr
      have hrow : selectSession s.db.sessions sessionID did = .ok r.data := by
        unfold selectSession
        rw [hr]
      refine ⟨?_, ?_, ?_⟩
      · intro e he
        unfold sqliteStore.GetSession
        rw [hrow]
        dsimp only
        rw [he]
      · intro pt e hd hu
        unfold sqliteStore.GetSession
        rw [hrow]
        dsimp only
        rw [hd]
        dsimp only
        rw [hu]
      · intro pt out hd hu
        exact GetSession_of_row r.data pt hrow hd hu
    · intro out
      constructor
      · intro h
        unfold sqliteStore.GetSession selectSession at h
        cases hf : s.db.sessions.find?
            (fun x => decide (x.session_id = sessionID ∧ x.did = did)) with
        | none =>
          rw [hf] at h
          simp at h
        | some r =>
          rw [hf] at h
          dsimp only at h
          cases hd : decryptBlob A s.key r.data with
          | error e => rw [hd] at h; cases h
          | ok pt =>
            rw [hd] at h
            dsimp only at h
            cases hu : C.Unmarshal pt with
            | error e => rw [hu] at h; cases h
            | ok o =>
              rw [hu] at h
              cases h
              exact ⟨r, pt, rfl, hd, hu⟩
      · rintro ⟨r, pt, hr, hd, hu⟩
        have hrow : selectSession s.db.sessions sessionID did = .ok r.data := by
          unfold selectSession
          rw [hr]
        exact GetSession_of_row r.data pt hrow hd hu
  · refine ⟨?_, ?_, ?_⟩
    · intro hno
      exact GetAuthRequestInfo_no_rows (selectAuthRequest_absent hno)
    · intro r hr
      have hrow : selectAuthRequest s.db.auth_requests state = .ok r.data := by
        unfold selectAuthRequest
        rw [hr]
      refine ⟨?_, ?_, ?_⟩
      · intro e he
        unfold sqliteStore.GetAuthRequestInfo
        rw [hrow]
        dsimp only
        rw [he]
      · intro pt e hd hu
        unfold sqliteStore.GetAuthRequestInfo
        rw [hrow]
        dsimp only
        rw [hd]
        dsimp only
        rw [hu]
      · intro pt out hd hu
        exact GetAuthRequestInfo_of_row r.data pt hrow hd hu
    · intro out
      constructor
      · intro h
        unfold sqliteStore.GetAuthRequestInfo selectAuthRequest at h
        cases hf : s.db.auth_requests.find? (fun x => decide (x.state = state)) with
        | none =>
          rw [hf] at h
          simp at h
        | some r =>
          rw [hf] at h
          dsimp only at h
          cases hd : decryptBlob A s.key r.data with
          | error e => rw [hd] at h; cases h
          | ok pt =>
            rw [hd] at h
            dsimp only at h
            cases hu : D.Unmarshal pt with
            | error e => rw [hu] at h; cases h
            | ok o =>
              rw [hu] at h
              cases h
              exact ⟨r, pt, rfl, hd, hu⟩
      · rintro ⟨r, pt, hr, hd, hu⟩
        have hrow : selectAuthRequest s.db.auth_requests state = .ok r.data := by
          unfold selectAuthRequest
          rw [hr]
        exact GetAuthRequestInfo_of_row r.data pt hrow hd hu

/-- Evaluation at the sample stores: another account, a blob too short to decrypt, a blob
that decrypts and parses. -/
theorem Get_classified_witness :
    sampleStoreAlice.GetSession sumAEAD sessionCodec "did:plc:bob" "s1" =
        .error "session not found" ∧
      sampleStore.GetSession sumAEAD sessionCodec "did:plc:bob" "s1" =
        .error "ciphertext too short" ∧
      sampleStoreXyz.GetAuthRequestInfo sumAEAD authRequestCodec "xyz" = .ok xyzRequest :=
  ⟨(Get_classified sumAEAD sessionCodec authRequestCodec sampleStoreAlice "did:plc:bob" "s1"
      "xyz").1.1 (by decide),
    ((Get_classified sumAEAD sessionCodec authRequestCodec sampleStore "did:plc:bob" "s1"
      "xyz").1.2.1 ⟨"s1", "did:plc:bob", [1, 2, 3], 1699999000⟩ (by decide)).1 _ (by decide),
    ((Get_classified sumAEAD sessionCodec authRequestCodec sampleStoreXyz "did:plc:bob" "s1"
      "xyz").2.2.1 (sampleStoreXyz.db.auth_requests.getD 1 ⟨"", [], 0⟩) (by decide)).2.2
      (utf8 "\x03xyz\x7b\"verifier\":\"abc\"\x7d") xyzRequest (by decide) (by decide)⟩

/-! ## Tampering with a stored blob -/

theorem flipBit_length (bs : List Nat) (i : Nat) : (flipBit bs i).length = bs.length := by
  induction bs generalizing i with
  | nil => rfl
  | cons b bs ih =>
    unfold flipBit
    split
    · rfl
    · simp [ih]

theorem flipBit_append (xs ys : List Nat) (i : Nat) :
    flipBit (xs ++ ys) i =
      if i < 8 * xs.length then flipBit xs i ++ ys else xs ++ flipBit ys (i - 8 * xs.length) := by
  induction xs generalizing i with
  | nil => simp
  | cons x xs ih =>
    by_cases hi : i < 8
    · have h1 : i < 8 * (x :: xs).length := by simp; omega
      rw [if_pos h1]
      simp [flipBit, hi]
    · rw [List.cons_append, flipBit, if_neg hi, ih (i - 8)]
      by_cases h2 : i - 8 < 8 * xs.length
      · have h1 : i < 8 * (x :: xs).length := by simp; omega
        rw [if_pos h2, if_pos h1, flipBit, if_neg hi]
        rfl
      · have h1 : ¬ i < 8 * (x :: xs).length := by simp; omega
        rw [if_neg h2, if_neg h1]
        have : i - 8 - 8 * xs.length = i - 8 * (x :: xs).length := by simp; omega
        rw [this]
        rfl

theorem xor_two_pow_mod_ne (b i : Nat) (hi : i < 8) : (b ^^^ 2 ^ i) % 256 ≠ b % 256 := by
  intro h
  have h1 := congrArg (fun n => Nat.testBit n i) h
  have e : (256 : Nat) = 2 ^ 8 := by norm_num
  simp only [e, Nat.testBit_mod_two_pow, hi, decide_True, Bool.true_and, Nat.testBit_xor,
    Nat.testBit_two_pow_self] at h1
  cases hb : b.testBit i <;> simp [hb] at h1

theorem flipBit_sum_mod_ne (bs : List Nat) (i c : Nat) (hi : i < 8 * bs.length) :
    (c + (flipBit bs i).sum) % 256 ≠ (c + bs.sum) % 256 := by
  induction bs generalizing i c with
  | nil => simp at hi
  | cons b bs ih =>
    unfold flipBit
    by_cases h8 : i < 8
    · rw [if_pos h8]
      have := xor_two_pow_mod_ne b i h8
      simp only [List.sum_cons]
      omega
    · rw [if_neg h8]
      have hi' : i - 8 < 8 * bs.length := by simp at hi; omega
      have := ih (i - 8) (c + b) hi'
      simp only [List.sum_cons]
      rw [← Nat.add_assoc, ← Nat.add_assoc]
      exact this

theorem flipBit_ne (bs : List Nat) (i : Nat) (hi : i < 8 * bs.length) : flipBit bs i ≠ bs := by
  intro h
  have := flipBit_sum_mod_ne bs i 0 hi
  rw [h] at this
  exact this rfl

theorem sumAEAD_authentic : sumAEAD.Authentic := by
  intro key nonce pt _ _
  have hlen : (pt ++ sumTag key nonce pt).length - 16 = pt.length := by simp [sumTag]
  constructor
  · intro i hi
    have htake : (pt ++ sumTag key nonce pt).take pt.length = pt := List.take_left' rfl
    have hdrop : (pt ++ sumTag key nonce pt).drop pt.length = sumTag key nonce pt :=
      List.drop_left' rfl
    have hnot : ¬ (pt ++ sumTag key nonce pt).length < 16 := by simp [sumTag]
    have hne : sumTag key nonce pt ≠ sumTag key (flipBit nonce i) pt := by
      intro h
      have h0 : (key.sum + nonce.sum + pt.sum) % 256 =
          (key.sum + (flipBit nonce i).sum + pt.sum) % 256 := by
        simpa [sumTag, List.replicate_inj] using h
      have := flipBit_sum_mod_ne nonce i (key.sum + pt.sum) hi
      omega
    simp only [sumAEAD, hlen, htake, hdrop, hnot, if_false, if_neg hne]
  · intro i hi
    show (if (flipBit (pt ++ sumTag key nonce pt) i).length < 16 then none
      else if (flipBit (pt ++ sumTag key nonce pt) i).drop
          ((flipBit (pt ++ sumTag key nonce pt) i).length - 16) =
          sumTag key nonce ((flipBit (pt ++ sumTag key nonce pt) i).take
            ((flipBit (pt ++ sumTag key nonce pt) i).length - 16))
        then some ((flipBit (pt ++ sumTag key nonce pt) i).take
          ((flipBit (pt ++ sumTag key nonce pt) i).length - 16))
        else none) = none
    rw [flipBit_length, hlen, flipBit_append]
    have hnot : ¬ (pt ++ sumTag key nonce pt).length < 16 := by simp [sumTag]
    rw [if_neg hnot]
    by_cases h1 : i < 8 * pt.length
    · rw [if_pos h1]
      have hl : (flipBit pt i).length = pt.length := flipBit_length pt i
      have htake : (flipBit pt i ++ sumTag key nonce pt).take pt.length = flipBit pt i :=
        List.take_left' hl
      have hdrop : (flipBit pt i ++ sumTag key nonce pt).drop pt.length = sumTag key nonce pt :=
        List.drop_left' hl
      rw [htake, hdrop]
      have hne : sumTag key nonce pt ≠ sumTag key nonce (flipBit pt i) := by
        intro h
        have h0 : (key.sum + nonce.sum + pt.sum) % 256 =
            (key.sum + nonce.sum + (flipBit pt i).sum) % 256 := by
          simpa [sumTag, List.replicate_inj] using h
        have := flipBit_sum_mod_ne pt i (key.sum + nonce.sum) h1
        omega
      rw [if_neg hne]
    · rw [if_neg h1]
      have htake : (pt ++ flipBit (sumTag key nonce pt) (i - 8 * pt.length)).take pt.length = pt :=
        List.take_left' rfl
      have hdrop : (pt ++ flipBit (sumTag key nonce pt) (i - 8 * pt.length)).drop pt.length =
          flipBit (sumTag key nonce pt) (i - 8 * pt.length) := List.drop_left' rfl
      rw [htake, hdrop]
      have hi' : i - 8 * pt.length < 8 * (sumTag key nonce pt).length := by
        have hi2 : i < 8 * (pt ++ sumTag key nonce pt).length := hi
        rw [List.length_append] at hi2
        omega
      rw [if_neg (flipBit_ne _ _ hi')]

theorem decryptBlob_flipped {A : AEAD} (hA : A.Authentic) {key nonce : List Nat}
    (pt : List Nat) (hk : ValidKey key) (hn : nonce.length = NonceSize) {i : Nat}
    (hi : i < 8 * (nonce ++ A.Seal key nonce pt).length) :
    decryptBlob A key (flipBit (nonce ++ A.Seal key nonce pt) i) =
      .error "cipher: message authentication failed" := by
  have hlen : NonceSize ≤ (flipBit (nonce ++ A.Seal key nonce pt) i).length := by
    rw [flipBit_length, List.length_append, hn]
    exact Nat.le_add_right _ _
  rw [decryptBlob_split A hk hlen, flipBit_append]
  obtain ⟨hnonce, hct⟩ := hA key nonce pt hk hn
  by_cases h1 : i < 8 * nonce.length
  · rw [if_pos h1]
    have hl : (flipBit nonce i).length = NonceSize := by rw [flipBit_length, hn]
    rw [List.take_left' hl, List.drop_left' hl, hnonce i h1]
  · rw [if_neg h1]
    have hi' : i - 8 * nonce.length < 8 * (A.Seal key nonce pt).length := by
      rw [List.length_append] at hi
      omega
    rw [List.take_left' hn, List.drop_left' hn, hct _ hi']

theorem selectSession_tamperSession (s : sqliteStore) (sid did : String) (i : Nat)
    {blob : List Nat} (h : selectSession s.db.sessions sid did = .ok blob) :
    selectSession (tamperSession s sid i).db.sessions sid did = .ok (flipBit blob i) := by
  unfold selectSession at h ⊢
  unfold tamperSession
  dsimp only
  rw [List.find?_map]
  have hfun : ((fun x : SessionRow => decide (x.session_id = sid ∧ x.did = did)) ∘
      fun r : SessionRow =>
        if r.session_id = sid then { r with data := flipBit r.data i } else r) =
      fun x : SessionRow => decide (x.session_id = sid ∧ x.did = did) := by
    funext r
    by_cases hr : r.session_id = sid <;> simp [hr]
  rw [hfun]
  cases hf : s.db.sessions.find? (fun x => decide (x.session_id = sid ∧ x.did = did)) with
  | none => rw [hf] at h; cases h
  | some r =>
    rw [hf] at h
    cases h
    have hr := List.find?_some hf
    have hsid : r.session_id = sid := by simpa using (of_decide_eq_true hr).1
    simp [hsid]

theorem selectAuthRequest_tamperAuthRequest (s : sqliteStore) (k : String) (i : Nat)
    {blob : List Nat} (h : selectAuthRequest s.db.auth_requests k = .ok blob) :
    selectAuthRequest (tamperAuthRequest s k i).db.auth_requests k = .ok (flipBit blob i) := by
  unfold selectAuthRequest at h ⊢
  unfold tamperAuthRequest
  dsimp only
  rw [List.find?_map]
  have hfun : ((fun x : AuthRequestRow => decide (x.state = k)) ∘
      fun r : AuthRequestRow =>
        if r.state = k then { r with data := flipBit r.data i } else r) =
      fun x : AuthRequestRow => decide (x.state = k) := by
    funext r
    by_cases hr : r.state = k <;> simp [hr]
  rw [hfun]
  cases hf : s.db.auth_requests.find? (fun x => decide (x.state = k)) with
  | none => rw [hf] at h; cases h
  | some r =>
    rw [hf] at h
    cases h
    have hr := List.find?_some hf
    have hsid : r.state = k := by simpa using hr
    simp [hsid]

/-- C14 (tamper sensitivity): for every row written by `SaveSession` or by
`SaveAuthRequestInfo` and every bit position `i` of its stored blob (in the nonce, the
ciphertext or the tag), after that bit is inverted the get of that key returns the
decryption error `cipher: message authentication failed` and no record; the AEAD is
assumed to reject a sealed text after one bit of its nonce or of the sealed text has been
inverted. -/
theorem tampered_get_fails (P Q : Type) (A : AEAD) (hA : A.Authentic) :
    (∀ (C : Codec (ClientSessionData P)) (s s' : sqliteStore) (rand : List Nat) (now : Int)
        (sess : ClientSessionData P) (blob : List Nat) (i : Nat),
      s.SaveSession A C rand now sess = .ok s' →
      selectSession s'.db.sessions sess.SessionID sess.AccountDID = .ok blob →
      i < 8 * blob.length →
      (tamperSession s' sess.SessionID i).GetSession A C sess.AccountDID sess.SessionID =
        .error "cipher: message authentication failed") ∧
    (∀ (D : Codec (AuthRequestData Q)) (s s' : sqliteStore) (rand : List Nat) (now : Int)
        (info : AuthRequestData Q) (blob : List Nat) (i : Nat),
      s.SaveAuthRequestInfo A D rand now info = .ok s' →
      selectAuthRequest s'.db.auth_requests info.State = .ok blob →
      i < 8 * blob.length →
      (tamperAuthRequest s' info.State i).GetAuthRequestInfo A D info.State =
        .error "cipher: message authentication failed") := by
  constructor
  · intro C s s' rand now sess blob i hsave hrow hi
    obtain ⟨data, enc, _, he, hkey, _, hrows⟩ := SaveSession_ok hsave
    obtain ⟨hk, hr, henc⟩ := encryptBlob_ok he
    have hsel : selectSession s'.db.sessions sess.SessionID sess.AccountDID = .ok enc := by
      rw [hrows]
      exact selectSession_upsertSession _ _ _ _ _
    have hblob : blob = enc := by
      rw [hsel] at hrow
      cases hrow
      rfl
    subst hblob
    have hn : (rand.take NonceSize).length = NonceSize := by simp; exact hr
    have hdec := decryptBlob_flipped hA data hk hn (henc ▸ hi)
    rw [← henc] at hdec
    have hsel' := selectSession_tamperSession s' sess.SessionID sess.AccountDID i hsel
    unfold sqliteStore.GetSession
    rw [hsel']
    dsimp only
    have hkey' : (tamperSession s' sess.SessionID i).key = s.key := hkey
    rw [hkey', hdec]
  · intro D s s' rand now info blob i hsave hrow hi
    obtain ⟨data, enc, _, he, hkey, _, hrows⟩ := SaveAuthRequestInfo_ok hsave
    obtain ⟨hk, hr, henc⟩ := encryptBlob_ok he
    have hsel : selectAuthRequest s'.db.auth_requests info.State = .ok enc := by
      rw [hrows]
      exact selectAuthRequest_upsertAuthRequest _ ⟨info.State, enc, now⟩
    have hblob : blob = enc := by
      rw [hsel] at hrow
      cases hrow
      rfl
    subst hblob
    have hn : (rand.take NonceSize).length = NonceSize := by simp; exact hr
    have hdec := decryptBlob_flipped hA data hk hn (henc ▸ hi)
    rw [← henc] at hdec
    have hsel' := selectAuthRequest_tamperAuthRequest s' info.State i hsel
    unfold sqliteStore.GetAuthRequestInfo
    rw [hsel']
    dsimp only
    have hkey' : (tamperAuthRequest s' info.State i).key = s.key := hkey
    rw [hkey', hdec]

/-- Evaluation at `sampleStore`: after `aliceSession` is saved, bit 3 of the nonce (bit 3 of
the blob) or bit 0 of the last tag byte (bit 424) is inverted; after `xyzRequest` is saved,
bit 100, in the ciphertext, is inverted. -/
theorem tampered_get_fails_witness :
    sumAEAD.Authentic ∧
      (tamperSession sampleStoreAlice "s1" 3).GetSession sumAEAD sessionCodec "did:plc:alice"
        "s1" = .error "cipher: message authentication failed" ∧
      (tamperSession sampleStoreAlice "s1" 424).GetSession sumAEAD sessionCodec
        "did:plc:alice" "s1" = .error "cipher: message authentication failed" ∧
      (tamperAuthRequest sampleStoreXyz "xyz" 100).GetAuthRequestInfo sumAEAD
        authRequestCodec "xyz" = .error "cipher: message authentication failed" :=
  ⟨sumAEAD_authentic,
    (tampered_get_fails (List Nat) (List Nat) sumAEAD sumAEAD_authentic).1 sessionCodec sampleStore
      sampleStoreAlice (List.range 12) 1700000000 aliceSession
      ((sampleStoreAlice.db.sessions.map (fun r => r.data)).getD 0 []) 3 (by decide) (by decide)
      (by decide),
    (tampered_get_fails (List Nat) (List Nat) sumAEAD sumAEAD_authentic).1 sessionCodec sampleStore
      sampleStoreAlice (List.range 12) 1700000000 aliceSession
      ((sampleStoreAlice.db.sessions.map (fun r => r.data)).getD 0 []) 424 (by decide) (by decide)
      (by decide),
    (tampered_get_fails (List Nat) (List Nat) sumAEAD sumAEAD_authentic).2 authRequestCodec sampleStore
      sampleStoreXyz (List.range 12) 1700000000 xyzRequest
      ((sampleStoreXyz.db.auth_requests.map (fun r => r.data)).getD 1 []) 100 (by decide) (by decide)
      (by decide)⟩

/-! ## The walk up the reply parents -/

theorem postsMapLoop_cases (posts : List (Option PostView))
    (m : String → Option (Option PostView)) :
    (none ∉ posts ∧ ∃ m2, postsMapLoop posts m = .returns m2) ∨
      (none ∈ posts ∧ postsMapLoop posts m = .panics nilDereference) := by
  induction posts generalizing m with
  | nil => exact Or.inl ⟨by simp, m, rfl⟩
  | cons p rest ih =>
    cases p with
    | none => exact Or.inr ⟨by simp, rfl⟩
    | some p =>
      rw [postsMapLoop]
      rcases ih (fun uri => if uri = p.Uri then some (some p) else m uri) with h | h
      · exact Or.inl ⟨by simpa using h.1, h.2⟩
      · exact Or.inr ⟨by simp [h.1], h.2⟩

theorem fetchPostsBatch_cases (getPosts : List String → Except Error (List (Option PostView)))
    (u : String) :
    ((∀ posts, getPosts [u] = .ok posts → none ∉ posts) ∧
        ∃ r, fetchPostsBatch getPosts [u] = .returns r) ∨
      ((∃ posts, getPosts [u] = .ok posts ∧ none ∈ posts) ∧
        fetchPostsBatch getPosts [u] = .panics nilDereference) := by
  unfold fetchPostsBatch
  rw [if_neg (by simp)]
  cases hg : getPosts [u] with
  | error e => exact Or.inl ⟨by simp, _, rfl⟩
  | ok posts =>
    dsimp only
    rcases postsMapLoop_cases posts (fun _ => none) with ⟨hn, m2, hm⟩ | ⟨hn, hm⟩
    · rw [hm]
      refine Or.inl ⟨?_, _, rfl⟩
      intro posts2 h2
      cases h2
      exact hn
    · rw [hm]
      exact Or.inr ⟨⟨posts, rfl, hn⟩, rfl⟩

theorem parentChainLoop_bounds (getPosts : List String → Except Error (List (Option PostView)))
    (n : Nat) (cur : String) (seen : List String) (chain : List PostView) :
    (parentChainLoop getPosts n cur seen chain).fetched.Nodup ∧
      (∀ u ∈ (parentChainLoop getPosts n cur seen chain).fetched, u ∉ seen) ∧
      (parentChainLoop getPosts n cur seen chain).fetched.length ≤ n ∧
      (parentChainLoop getPosts n cur seen chain).chain.length ≤
        chain.length + (parentChainLoop getPosts n cur seen chain).fetched.length := by
  induction n generalizing cur seen chain with
  | zero => simp [parentChainLoop]
  | succ n ih =>
    unfold parentChainLoop
    by_cases h1 : cur = ""
    · simp [h1]
    · rw [if_neg h1]
      by_cases h2 : cur ∈ seen
      · simp [h2]
      · rw [if_neg h2]
        cases hf : fetchPostsBatch getPosts [cur] with
        | panics msg => simp [h2]
        | returns r =>
          cases r with
          | error e => simp [h2]
          | ok postsMap =>
            dsimp only
            cases hp : postsMap cur with
            | none => simp [h2]
            | some q =>
              cases q with
              | none => simp [h2]
              | some p =>
                dsimp only
                by_cases h3 : extractReplyParentURI (some p) = "" ∨
                    extractReplyParentURI (some p) = cur
                · rw [if_pos h3]
                  simp [h2]
                · rw [if_neg h3]
                  obtain ⟨hnd, hseen, hlen, hchain⟩ :=
                    ih (extractReplyParentURI (some p)) (cur :: seen) (p :: chain)
                  refine ⟨?_, ?_, ?_, ?_⟩
                  · rw [List.nodup_cons]
                    exact ⟨fun hm => hseen cur hm (List.mem_cons_self _ _), hnd⟩
                  · intro u hu
                    rcases List.mem_cons.mp hu with rfl | hu
                    · exact h2
                    · exact fun hs => hseen u hu (List.mem_cons_of_mem _ hs)
                  · simp only [List.length_cons]
                    omega
                  · simp only [List.length_cons] at hchain ⊢
                    omega

theorem parentChainLoop_panicked (getPosts : List String → Except Error (List (Option PostView)))
    (n : Nat) (cur : String) (seen : List String) (chain : List PostView) :
    ((parentChainLoop getPosts n cur seen chain).panicked = none ∧
        ∀ u ∈ (parentChainLoop getPosts n cur seen chain).fetched,
          ∀ posts, getPosts [u] = .ok posts → none ∉ posts) ∨
      ((parentChainLoop getPosts n cur seen chain).panicked = some nilDereference ∧
        ∃ u ∈ (parentChainLoop getPosts n cur seen chain).fetched,
          ∃ posts, getPosts [u] = .ok posts ∧ none ∈ posts) := by
  induction n generalizing cur seen chain with
  | zero => simp [parentChainLoop]
  | succ n ih =>
    unfold parentChainLoop
    by_cases h1 : cur = ""
    · simp [h1]
    · rw [if_neg h1]
      by_cases h2 : cur ∈ seen
      · simp [h2]
      · rw [if_neg h2]
        rcases fetchPostsBatch_cases getPosts cur with ⟨hclean, r, hf⟩ | ⟨hnil, hf⟩
        · rw [hf]
          cases r with
          | error e => exact Or.inl ⟨rfl, by simpa using hclean⟩
          | ok postsMap =>
            dsimp only
            cases hp : postsMap cur with
            | none => exact Or.inl ⟨rfl, by simpa using hclean⟩
            | some q =>
              cases q with
              | none => exact Or.inl ⟨rfl, by simpa using hclean⟩
              | some p =>
                dsimp only
                by_cases h3 : extractReplyParentURI (some p) = "" ∨
                    extractReplyParentURI (some p) = cur
                · rw [if_pos h3]
                  exact Or.inl ⟨rfl, by simpa using hclean⟩
                · rw [if_neg h3]
                  rcases ih (extractReplyParentURI (some p)) (cur :: seen) (p :: chain) with
                    ⟨hp1, hp2⟩ | ⟨hp1, u, hu, hp2⟩
                  · refine Or.inl ⟨hp1, ?_⟩
                    intro u hu
                    rcases List.mem_cons.mp hu with rfl | hu
                    · exact hclean
                    · exact hp2 u hu
                  · exact Or.inr ⟨hp1, u, List.mem_cons_of_mem _ hu, hp2⟩
        · rw [hf]
          exact Or.inr ⟨rfl, cur, by simp, hnil⟩

/-- C15 (the walk up the reply parents ends and is bounded; the code misses it on a nil
post): `buildParentChain` panics, and returns no chain, when `FeedGetPosts` answers a
request with a list that holds a nil post, as shown for the service `nilPosts` from the
start URI `a` and for the service `nilParentPosts`, where the first post was fetched and
the answer for its parent holds the nil post.  For every service, every start URI and
every `maxDepth`, the loop runs at most `maxDepth` times by its counter, so the walk ends;
it asks for no URI twice and makes at most `maxDepth` requests; it returns exactly when no
request it made was answered with a list that holds a nil post, and otherwise it panics on
the nil dereference; a chain it returns has at most `maxDepth` posts. -/
theorem buildParentChain_nil_post :
    buildParentChain nilPosts "a" 20 = .panics nilDereference ∧
      buildParentChain nilParentPosts "a" 20 = .panics nilDereference ∧
      (buildParentChainWalk nilParentPosts "a" 20).fetched = ["a", "b"] ∧
      ∀ (getPosts : List String → Except Error (List (Option PostView)))
        (startURI : String) (maxDepth : Int),
        (buildParentChainWalk getPosts startURI maxDepth).fetched.Nodup ∧
          (buildParentChainWalk getPosts startURI maxDepth).fetched.length ≤ maxDepth.toNat ∧
          ((∃ chain err, buildParentChain getPosts startURI maxDepth = .returns (chain, err)) ↔
            ∀ u ∈ (buildParentChainWalk getPosts startURI maxDepth).fetched,
              ∀ posts, getPosts [u] = .ok posts → none ∉ posts) ∧
          ((¬ ∃ chain err, buildParentChain getPosts startURI maxDepth =
              .returns (chain, err)) →
            buildParentChain getPosts startURI maxDepth = .panics nilDereference) ∧
          (∀ chain err, buildParentChain getPosts startURI maxDepth = .returns (chain, err) →
            chain.length ≤ (buildParentChainWalk getPosts startURI maxDepth).fetched.length ∧
              chain.length ≤ maxDepth.toNat) := by
  refine ⟨by decide, by decide, by decide, ?_⟩
  intro getPosts startURI maxDepth
  obtain ⟨hnd, _, hlen, hchain⟩ := parentChainLoop_bounds getPosts maxDepth.toNat startURI [] []
  have hpan := parentChainLoop_panicked getPosts maxDepth.toNat startURI [] []
  refine ⟨hnd, hlen, ?_, ?_, ?_⟩
  · unfold buildParentChain buildParentChainWalk
    rcases hpan with ⟨hp, hclean⟩ | ⟨hp, u, hu, posts, hg, hn⟩
    · rw [hp]
      exact ⟨fun _ => hclean, fun _ => ⟨_, _, rfl⟩⟩
    · rw [hp]
      constructor
      · rintro ⟨chain, err, h⟩
        cases h
      · intro h
        exact absurd hn (h u hu posts hg)
  · unfold buildParentChain buildParentChainWalk
    rcases hpan with ⟨hp, _⟩ | ⟨hp, _⟩
    · rw [hp]
      intro h
      exact absurd ⟨_, _, rfl⟩ h
    · rw [hp]
      intro _
      rfl
  · intro chain err h
    unfold buildParentChain buildParentChainWalk at h
    rcases hpan with ⟨hp, _⟩ | ⟨hp, _⟩
    · rw [hp] at h
      dsimp only at h
      injection h with h
      injection h with h1 h2
      subst h1
      simp only [List.length_nil, Nat.zero_add] at hchain
      exact ⟨hchain, le_trans hchain hlen⟩
    · rw [hp] at h
      cases h

/-- Evaluation on `cyclicPosts`: from `a` the walk stops when it comes back to `a`; from
`e` it stops at `d`, its own parent; with `maxDepth` 2 it stops after two posts. -/
theorem buildParentChain_nil_post_witness :
    (buildParentChainWalk cyclicPosts "a" 20).fetched = ["a", "b", "c"] ∧
      buildParentChain cyclicPosts "a" 20 =
        .returns ([replyPost "c" "a", replyPost "b" "c", replyPost "a" "b"], none) ∧
      buildParentChain cyclicPosts "e" 20 =
        .returns ([replyPost "d" "d", replyPost "e" "d"], none) ∧
      buildParentChain cyclicPosts "a" 2 =
        .returns ([replyPost "b" "c", replyPost "a" "b"], none) ∧
      buildParentChain cyclicPosts "a" (-1) = .returns ([], none) ∧
      (buildParentChainWalk cyclicPosts "a" 20).fetched.Nodup ∧
      [replyPost "b" "c", replyPost "a" "b"].length ≤ (2 : Int).toNat :=
  ⟨by decide, by decide, by decide, by decide, by decide,
    (buildParentChain_nil_post.2.2.2 cyclicPosts "a" 20).1,
    ((buildParentChain_nil_post.2.2.2 cyclicPosts "a" 2).2.2.2.2 _ none (by decide)).2⟩

theorem parentChainLoop_order (getPosts : List String → Except Error (List (Option PostView)))
    (n : Nat) (cur : String) (seen : List String) (chain : List PostView)
    (hchain : List.Chain' (fun a b =>
      fetchedPost getPosts (extractReplyParentURI (some b)) = some a) chain)
    (hhead : ∀ h, chain.head? = some h → extractReplyParentURI (some h) = cur) :
    List.Chain' (fun a b => fetchedPost getPosts (extractReplyParentURI (some b)) = some a)
        (parentChainLoop getPosts n cur seen chain).chain ∧
      (∀ l, chain.getLast? = some l →
        (parentChainLoop getPosts n cur seen chain).chain.getLast? = some l) ∧
      (chain = [] → ∀ p, (parentChainLoop getPosts n cur seen chain).chain.getLast? = some p →
        fetchedPost getPosts cur = some p) := by
  induction n generalizing cur seen chain with
  | zero =>
    refine ⟨by simpa [parentChainLoop] using hchain, by simp [parentChainLoop], ?_⟩
    intro hnil p hp
    simp [parentChainLoop, hnil] at hp
  | succ n ih =>
    have hstop : List.Chain' (fun a b =>
          fetchedPost getPosts (extractReplyParentURI (some b)) = some a) chain ∧
        (∀ l, chain.getLast? = some l → chain.getLast? = some l) ∧
        (chain = [] → ∀ p, chain.getLast? = some p → fetchedPost getPosts cur = some p) := by
      refine ⟨hchain, fun _ h => h, ?_⟩
      intro hnil p hp
      simp [hnil] at hp
    unfold parentChainLoop
    by_cases h1 : cur = ""
    · rw [if_pos h1]; exact hstop
    · rw [if_neg h1]
      by_cases h2 : cur ∈ seen
      · rw [if_pos h2]; exact hstop
      · rw [if_neg h2]
        cases hf : fetchPostsBatch getPosts [cur] with
        | panics msg => exact hstop
        | returns r =>
          cases r with
          | error e => exact hstop
          | ok postsMap =>
            dsimp only
            cases hp : postsMap cur with
            | none => exact hstop
            | some q =>
              cases q with
              | none => exact hstop
              | some p =>
                dsimp only
                have hfp : fetchedPost getPosts cur = some p := by
                  unfold fetchedPost
                  rw [hf]
                  dsimp only
                  rw [hp]
                have hchain' : List.Chain' (fun a b =>
                    fetchedPost getPosts (extractReplyParentURI (some b)) = some a)
                    (p :: chain) := by
                  cases chain with
                  | nil => exact List.chain'_singleton p
                  | cons h t =>
                    rw [List.chain'_cons]
                    refine ⟨?_, hchain⟩
                    rw [hhead h rfl]
                    exact hfp
                have hlast : ∀ l, chain.getLast? = some l →
                    (p :: chain).getLast? = some l := by
                  intro l hl
                  cases chain with
                  | nil => simp at hl
                  | cons h t => rw [List.getLast?_cons_cons]; exact hl
                have hnil : chain = [] → ∀ q, (p :: chain).getLast? = some q →
                    fetchedPost getPosts cur = some q := by
                  intro hn q hq
                  rw [hn] at hq
                  simp at hq
                  rw [← hq]
                  exact hfp
                by_cases h3 : extractReplyParentURI (some p) = "" ∨
                    extractReplyParentURI (some p) = cur
                · rw [if_pos h3]
                  exact ⟨hchain', hlast, hnil⟩
                · rw [if_neg h3]
                  obtain ⟨ih1, ih2, _⟩ := ih (extractReplyParentURI (some p)) (cur :: seen)
                    (p :: chain) hchain' (by intro h hh; simp at hh; rw [← hh])
                  refine ⟨ih1, fun l hl => ih2 l (hlast l hl), ?_⟩
                  intro hn q hq
                  have hq' := ih2 p (by rw [hn]; rfl)
                  dsimp only at hq
                  rw [hq'] at hq
                  cases hq
                  exact hfp

/-- C16 (the chain runs from the root to the immediate parent): in every chain that
`buildParentChain` returns, whether or not a fetch failed, the last element of a non-empty
chain is the post fetched for `startURI`, and of every two adjacent elements the earlier
one is the post fetched for the reply-parent URI (`extractReplyParentURI`) of the later
one. -/
theorem buildParentChain_order (getPosts : List String → Except Error (List (Option PostView)))
    (startURI : String) (maxDepth : Int) (chain : List PostView) (err : Option Error)
    (hret : buildParentChain getPosts startURI maxDepth = .returns (chain, err)) :
    (∀ p, chain.getLast? = some p → fetchedPost getPosts startURI = some p) ∧
      List.Chain' (fun a b => fetchedPost getPosts (extractReplyParentURI (some b)) = some a)
        chain := by
  obtain ⟨h1, _, h3⟩ := parentChainLoop_order getPosts maxDepth.toNat startURI [] []
    List.chain'_nil (by intro h hh; simp at hh)
  have hc : chain = (parentChainLoop getPosts maxDepth.toNat startURI [] []).chain := by
    unfold buildParentChain buildParentChainWalk at hret
    cases hp : (parentChainLoop getPosts maxDepth.toNat startURI [] []).panicked with
    | some msg =>
      rw [hp] at hret
      cases hret
    | none =>
      rw [hp] at hret
      dsimp only at hret
      injection hret with hret
      injection hret with h1 h2
      exact h1.symm
  rw [hc]
  exact ⟨h3 rfl, h1⟩

/-- Evaluation on `cyclicPosts` from `a`: the chain is `c`, `b`, `a`, and its last
element is the post fetched for `a`. -/
theorem buildParentChain_order_witness :
    buildParentChain cyclicPosts "a" 20 =
        .returns ([replyPost "c" "a", replyPost "b" "c", replyPost "a" "b"], none) ∧
      fetchedPost cyclicPosts "a" = some (replyPost "a" "b") ∧
      List.Chain' (fun a b => fetchedPost cyclicPosts (extractReplyParentURI (some b)) = some a)
        [replyPost "c" "a", replyPost "b" "c", replyPost "a" "b"] :=
  ⟨by decide, by decide, (buildParentChain_order cyclicPosts "a" 20 _ none (by decide)).2⟩

/-! ## Batches of parent URIs -/

theorem batch_take (xs : List String) (i : Nat) (hi : i < xs.length) :
    (xs.drop i).take
        ((if i + batchSize > xs.length then xs.length else i + batchSize) - i) =
      (xs.drop i).take batchSize := by
  by_cases h : i + batchSize > xs.length
  · rw [if_pos h]
    have hlen : (xs.drop i).length = xs.length - i := List.length_drop i xs
    rw [List.take_of_length_le (by omega), List.take_of_length_le (by omega)]
  · rw [if_neg h]
    congr 1
    omega

theorem batchLoop_flatten (xs : List String) (n i : Nat) (hfuel : xs.length ≤ i + n * batchSize) :
    (batchLoop xs n i).flatten = xs.drop i := by
  induction n generalizing i with
  | zero =>
    have : xs.length ≤ i := by simpa using hfuel
    simp [batchLoop, List.drop_eq_nil_of_le this]
  | succ n ih =>
    unfold batchLoop
    by_cases hi : i < xs.length
    · rw [if_pos hi]
      dsimp only
      rw [List.flatten_cons, batch_take xs i hi,
        ih (i + batchSize) (by rw [Nat.succ_mul] at hfuel; omega)]
      rw [← List.drop_drop]
      exact List.take_append_drop _ _
    · rw [if_neg hi]
      simp [List.drop_eq_nil_of_le (Nat.le_of_not_lt hi)]

theorem batchLoop_sizes (xs : List String) (n i : Nat) :
    ∀ b ∈ batchLoop xs n i, 0 < b.length ∧ b.length ≤ batchSize := by
  induction n generalizing i with
  | zero => simp [batchLoop]
  | succ n ih =>
    unfold batchLoop
    by_cases hi : i < xs.length
    · rw [if_pos hi]
      dsimp only
      intro b hb
      rcases List.mem_cons.mp hb with rfl | hb
      · rw [batch_take xs i hi, List.length_take, List.length_drop]
        unfold batchSize
        omega
      · exact ih _ b hb
    · rw [if_neg hi]
      simp

theorem batchLoop_getD (xs : List String) (n i k : Nat)
    (hfuel : xs.length ≤ i + n * batchSize) :
    (batchLoop xs n i).getD k [] = (xs.drop (i + batchSize * k)).take batchSize := by
  induction n generalizing i k with
  | zero =>
    have : xs.length ≤ i + batchSize * k := by
      have : xs.length ≤ i := by simpa using hfuel
      omega
    simp [batchLoop, List.drop_eq_nil_of_le this]
  | succ n ih =>
    unfold batchLoop
    by_cases hi : i < xs.length
    · rw [if_pos hi]
      dsimp only
      cases k with
      | zero => simp [batch_take xs i hi]
      | succ k =>
        rw [List.getD_cons_succ, ih (i + batchSize) k (by rw [Nat.succ_mul] at hfuel; omega)]
        congr 2
        rw [Nat.mul_succ]
        omega
    · rw [if_neg hi]
      have : xs.length ≤ i + batchSize * k := by omega
      simp [List.drop_eq_nil_of_le this]

/-- C20 (parent URIs are fetched in batches of at most 25): for every list of parent URIs,
the batching loop of `handleTimeline` (and of `handleProfile`, `htmxTimelineFeed`,
`htmxProfileFeed`, which repeat it) hands `fetchPostsBatch` batches that are each
non-empty and of at most 25 URIs, batch `k` being the 25 URIs from index `25 * k` on (fewer
for the last), and whose concatenation is exactly the list, so every URI is requested as
many times as it occurs in the list: once when the list has no duplicates. -/
theorem parentBatches_cover (parentURIs : List String) :
    (parentBatches parentURIs).flatten = parentURIs ∧
      (∀ b ∈ parentBatches parentURIs, 0 < b.length ∧ b.length ≤ 25) ∧
      (∀ k, (parentBatches parentURIs).getD k [] = (parentURIs.drop (25 * k)).take 25) ∧
      (∀ u, ((parentBatches parentURIs).map (fun b => b.count u)).sum = parentURIs.count u) ∧
      (parentURIs.Nodup → ∀ u ∈ parentURIs,
        ((parentBatches parentURIs).map (fun b => b.count u)).sum = 1) := by
  have hflat : (parentBatches parentURIs).flatten = parentURIs := by
    unfold parentBatches
    by_cases h : parentURIs.length > 0
    · rw [if_pos h]
      have := batchLoop_flatten parentURIs parentURIs.length 0
        (by unfold batchSize; omega)
      simpa using this
    · rw [if_neg h]
      have : parentURIs = [] := List.length_eq_zero.mp (by omega)
      rw [this]
      rfl
  have hcount : ∀ u, ((parentBatches parentURIs).map (fun b => b.count u)).sum =
      parentURIs.count u := by
    intro u
    conv_rhs => rw [← hflat]
    rw [List.count_flatten]
  refine ⟨hflat, ?_, ?_, hcount, ?_⟩
  · intro b hb
    unfold parentBatches at hb
    by_cases h : parentURIs.length > 0
    · rw [if_pos h] at hb
      exact batchLoop_sizes parentURIs _ _ b hb
    · rw [if_neg h] at hb
      simp at hb
  · intro k
    unfold parentBatches
    by_cases h : parentURIs.length > 0
    · rw [if_pos h]
      have := batchLoop_getD parentURIs parentURIs.length 0 k (by unfold batchSize; omega)
      simpa [batchSize] using this
    · rw [if_neg h]
      have : parentURIs = [] := List.length_eq_zero.mp (by omega)
      simp [this]
  · intro hnd u hu
    rw [hcount u]
    exact List.count_eq_one_of_mem hnd hu

/-- Evaluation at sixty URIs: three batches of 25, 25 and 10. -/
theorem parentBatches_cover_witness :
    (parentBatches ((List.range 60).map toString)).map List.length = [25, 25, 10] ∧
      ((List.range 60).map toString).Nodup ∧
      ((parentBatches ((List.range 60).map toString)).map (fun b => b.count "42")).sum = 1 :=
  ⟨by decide, by decide,
    (parentBatches_cover ((List.range 60).map toString)).2.2.2.2 (by decide) "42" (by decide)⟩

/-! ## The reply collector -/

mutual
theorem collect_append : ∀ (t : ThreadViewPost) (acc : List PostView),
    collect t acc = acc ++ collect t []
  | .mk _ rs, acc => by
    rw [collect, collect]
    exact collectLoop_append rs acc
theorem collectLoop_append : ∀ (rs : ReplyList) (acc : List PostView),
    collectLoop rs acc = acc ++ collectLoop rs []
  | .nil, acc => by simp [collectLoop]
  | .cons .null rest, acc => by
    rw [collectLoop, collectLoop]
    exact collectLoop_append rest acc
  | .cons .notThread rest, acc => by
    rw [collectLoop, collectLoop]
    exact collectLoop_append rest acc
  | .cons (.thread t) rest, acc => by
    rw [collectLoop, collectLoop]
    cases hp : t.Post with
    | none => exact collectLoop_append rest acc
    | some p =>
      dsimp only
      rw [collectLoop_append rest (collect t (acc ++ [p])),
        collectLoop_append rest (collect t ([] ++ [p])),
        collect_append t (acc ++ [p]), collect_append t ([] ++ [p])]
      simp
end

mutual
theorem collect_reached : ∀ (t : ThreadViewPost),
    collect t [] = (reached t).filterMap (fun n => n.Post)
  | .mk _ rs => by
    rw [collect, reached]
    exact collectLoop_reachedOf rs
theorem collectLoop_reachedOf : ∀ (rs : ReplyList),
    collectLoop rs [] = (reachedOf rs).filterMap (fun n => n.Post)
  | .nil => by simp [collectLoop, reachedOf]
  | .cons .null rest => by
    rw [collectLoop, reachedOf]
    exact collectLoop_reachedOf rest
  | .cons .notThread rest => by
    rw [collectLoop, reachedOf]
    exact collectLoop_reachedOf rest
  | .cons (.thread t) rest => by
    rw [collectLoop, reachedOf]
    cases hp : t.Post with
    | none => exact collectLoop_reachedOf rest
    | some p =>
      dsimp only
      rw [collectLoop_append, collect_append, collect_reached t, collectLoop_reachedOf rest]
      simp [List.filterMap_cons, hp, List.filterMap_append]
end

mutual
theorem reached_eq_descendants : ∀ (t : ThreadViewPost),
    (∀ n ∈ descendants t, n.Post ≠ none) → reached t = descendants t
  | .mk _ rs => by
    rw [reached, descendants]
    exact reachedOf_eq_descendantsOf rs
theorem reachedOf_eq_descendantsOf : ∀ (rs : ReplyList),
    (∀ n ∈ descendantsOf rs, n.Post ≠ none) → reachedOf rs = descendantsOf rs
  | .nil => by simp [reachedOf, descendantsOf]
  | .cons .null rest => by
    rw [reachedOf, descendantsOf]
    exact reachedOf_eq_descendantsOf rest
  | .cons .notThread rest => by
    rw [reachedOf, descendantsOf]
    exact reachedOf_eq_descendantsOf rest
  | .cons (.thread t) rest => by
    rw [reachedOf, descendantsOf]
    intro h
    have ht : t.Post ≠ none := h t (by simp)
    have h1 : ∀ n ∈ descendants t, n.Post ≠ none := fun n hn => h n (by simp [hn])
    have h2 : ∀ n ∈ descendantsOf rest, n.Post ≠ none := fun n hn => h n (by simp [hn])
    cases hp : t.Post with
    | none => exact absurd hp ht
    | some p =>
      dsimp only
      rw [reached_eq_descendants t h1, reachedOf_eq_descendantsOf rest h2]
end

/-- C17 (the reply collector gathers all descendant replies; the code misses it below a
reply without a post): in `hollowThread`, whose root has one reply without a post and
below it the reply `y`, the node `y` is a descendant of the root and has a post, yet the
collector, which on a reply without a post goes on to the next reply without descending,
does not collect it: `fetchThreadAndExtract` returns an empty replies list. -/
theorem collect_misses_below_hollow :
    replyPost "y" "x" ∈ descendantPosts hollowThread ∧
      replyPost "y" "x" ∉ collect hollowThread [] ∧
      (match fetchThreadAndExtract (fun _ => .ok (some hollowThread)) "r" with
        | .ok r => r.replies
        | .error _ => []) = [] := by
  decide

/-- What the reply collector returns: for every finite thread tree that
`FeedGetPostThread` returns, `fetchThreadAndExtract` returns, with the root and its post,
the replies list made of the post of every descendant node of the root that has a post
and whose ancestors below the root all have a post, in depth-first pre-order, each node
once.  When every descendant node has a post the list is the post of every descendant
node.  The collector is defined by recursion on the tree, so it terminates. -/
theorem fetchThreadAndExtract_replies
    (getPostThread : String → Except Error (Option ThreadViewPost)) (postURI : String)
    (root : ThreadViewPost) (hthread : getPostThread postURI = .ok (some root)) :
    ∃ r, fetchThreadAndExtract getPostThread postURI = .ok r ∧
      r.main = root.Post ∧
      r.replies = collect root [] ∧
      r.replies = (reached root).filterMap (fun n => n.Post) ∧
      ((∀ n ∈ descendants root, n.Post ≠ none) → r.replies = descendantPosts root) := by
  refine ⟨⟨root.Post, collect root [], some root⟩, ?_, rfl, rfl, collect_reached root, ?_⟩
  · unfold fetchThreadAndExtract
    rw [hthread]
  · intro h
    show collect root [] = descendantPosts root
    rw [collect_reached, reached_eq_descendants root h]
    rfl

/-- Evaluation at `sampleThread`, whose nodes all have posts: the replies are `x`, `y`,
`z`. -/
theorem fetchThreadAndExtract_replies_witness :
    (collect sampleThread []).map (fun p => p.Uri) = ["x", "y", "z"] ∧
      (descendantPosts sampleThread).map (fun p => p.Uri) = ["x", "y", "z"] ∧
      ∃ r, fetchThreadAndExtract (fun _ => .ok (some sampleThread)) "r" = .ok r ∧
        r.main = sampleThread.Post ∧
        r.replies = collect sampleThread [] ∧
        r.replies = (reached sampleThread).filterMap (fun n => n.Post) ∧
        ((∀ n ∈ descendants sampleThread, n.Post ≠ none) →
          r.replies = descendantPosts sampleThread) :=
  ⟨by decide, by decide,
    fetchThreadAndExtract_replies (fun _ => .ok (some sampleThread)) "r" sampleThread rfl⟩

/-! ## Serving a video blob -/

theorem wrap64_id {x : Int} (h1 : -2 ^ 63 ≤ x) (h2 : x < 2 ^ 63) : wrap64 x = x := by
  unfold wrap64
  omega

theorem headerGet_headerSet_self (h : List (String × String)) (key value : String) :
    headerGet (headerSet h key value) key = value := by
  unfold headerGet headerSet
  have hnone : (h.filter (fun kv => decide (kv.1 ≠ key))).find? (fun kv => decide (kv.1 = key))
      = none := by
    rw [List.find?_eq_none]
    intro x hx
    have := (List.mem_filter.mp hx).2
    simpa using this
  rw [List.find?_append, hnone]
  simp [List.find?]

theorem headerGet_headerSet_other (h : List (String × String)) {key key2 : String}
    (value : String) (hne : key2 ≠ key) :
    headerGet (headerSet h key2 value) key = headerGet h key := by
  unfold headerGet headerSet
  have hfind : ∀ l : List (String × String),
      (l.filter (fun kv => decide (kv.1 ≠ key2)) ++ [(key2, value)]).find?
        (fun kv => decide (kv.1 = key)) = l.find? (fun kv => decide (kv.1 = key)) := by
    intro l
    induction l with
    | nil =>
      have : ¬ key2 = key := hne
      simp [List.find?, this]
    | cons x xs ih =>
      by_cases hx2 : x.1 = key2
      · have hx : ¬ x.1 = key := by rw [hx2]; exact hne
        rw [List.filter_cons_of_neg (by simpa using hx2),
          List.find?_cons_of_neg _ (by simpa using hx)]
        exact ih
      · rw [List.filter_cons_of_pos (by simpa using hx2), List.cons_append]
        by_cases hx : x.1 = key
        · rw [List.find?_cons_of_pos _ (by simpa using hx),
            List.find?_cons_of_pos _ (by simpa using hx)]
        · rw [List.find?_cons_of_neg _ (by simpa using hx),
            List.find?_cons_of_neg _ (by simpa using hx)]
          exact ih
  rw [hfind]

/-- The response with status 206 that `handleVideo` writes for the bounds `start`, `e`. -/
theorem handleVideo_status206 (blob : List Nat) (rh a b : String) (start : Int)
    (hsize : (blob.length : Int) < 2 ^ 63) (hrh : rh ≠ "") (hpre : HasPrefix rh "bytes=" = true)
    (hparts : Split (TrimPrefix rh "bytes=") '-' = [a, b]) (hstart : ParseInt a = some start)
    (h0 : 0 ≤ start) (h1 : start ≤ rangeEnd blob.length b) (h2 : start < blob.length) :
    handleVideo blob rh = .ok ⟨206,
      headerSet (headerSet (headerSet (headerSet [] "Accept-Ranges" "bytes") "Content-Type"
        "video/mp4") "Content-Range"
        ("bytes " ++ toString start ++ "-" ++
          toString (min (rangeEnd blob.length b) ((blob.length : Int) - 1)) ++ "/" ++
          toString (blob.length : Int)))
        "Content-Length"
        (toString (min (rangeEnd blob.length b) ((blob.length : Int) - 1) - start + 1)),
      (blob.drop start.toNat).take
        ((min (rangeEnd blob.length b) ((blob.length : Int) - 1) + 1).toNat - start.toNat)⟩ := by
  have hw : wrap64 ((blob.length : Int) - 1) = (blob.length : Int) - 1 :=
    wrap64_id (by omega) (by omega)
  have hend2 : (if rangeEnd blob.length b ≥ (blob.length : Int) then
      wrap64 ((blob.length : Int) - 1) else rangeEnd blob.length b) =
      min (rangeEnd blob.length b) ((blob.length : Int) - 1) := by
    rw [hw]
    by_cases h : rangeEnd blob.length b ≥ (blob.length : Int)
    · rw [if_pos h]; omega
    · rw [if_neg h]; omega
  have hlen : wrap64 (wrap64 (min (rangeEnd blob.length b) ((blob.length : Int) - 1) - start) + 1)
      = min (rangeEnd blob.length b) ((blob.length : Int) - 1) - start + 1 := by
    have hin : wrap64 (min (rangeEnd blob.length b) ((blob.length : Int) - 1) - start) =
        min (rangeEnd blob.length b) ((blob.length : Int) - 1) - start :=
      wrap64_id (by omega) (by omega)
    rw [hin]
    exact wrap64_id (by omega) (by omega)
  have hhi : wrap64 (min (rangeEnd blob.length b) ((blob.length : Int) - 1) + 1) =
      min (rangeEnd blob.length b) ((blob.length : Int) - 1) + 1 :=
    wrap64_id (by omega) (by omega)
  have hslice : sliceBytes blob start
      (min (rangeEnd blob.length b) ((blob.length : Int) - 1) + 1) =
      .ok ((blob.drop start.toNat).take
        ((min (rangeEnd blob.length b) ((blob.length : Int) - 1) + 1).toNat - start.toNat)) := by
    unfold sliceBytes
    rw [if_pos (by omega)]
  unfold handleVideo
  simp only [hrh, if_false, hpre, not_true_eq_false, hparts, List.length_cons, List.length_nil,
    ne_eq, List.getD_cons_zero, List.getD_cons_succ, hstart]
  rw [if_neg (by omega)]
  simp only [hend2, hlen, hhi, hslice]

/-- The response with status 416 that `handleVideo` writes. -/
theorem handleVideo_unsatisfiable (blob : List Nat) (rh a b : String)
    (hrh : rh ≠ "") (hpre : HasPrefix rh "bytes=" = true)
    (hparts : Split (TrimPrefix rh "bytes=") '-' = [a, b])
    (hbad : ParseInt a = none ∨ ∃ start, ParseInt a = some start ∧
      (start < 0 ∨ start > rangeEnd blob.length b ∨ start ≥ blob.length)) :
    handleVideo blob rh = .ok (httpError
      (headerSet (headerSet (headerSet [] "Accept-Ranges" "bytes") "Content-Type" "video/mp4")
        "Content-Range" ("bytes */" ++ toString (blob.length : Int)))
      "Requested Range Not Satisfiable" 416) := by
  unfold handleVideo
  simp only [hrh, if_false, hpre, not_true_eq_false, hparts, List.length_cons, List.length_nil,
    ne_eq, List.getD_cons_zero, List.getD_cons_succ]
  rcases hbad with hnone | ⟨start, hsome, hcond⟩
  · simp only [hnone]
  · simp only [hsome]
    rw [if_pos hcond]

theorem handleVideo_cases (blob : List Nat) (rh : String) :
    (∃ r, handleVideo blob rh = .ok r ∧ r.status ≠ 206) ∨
      ∃ a b start, rh ≠ "" ∧ HasPrefix rh "bytes=" = true ∧
        Split (TrimPrefix rh "bytes=") '-' = [a, b] ∧ ParseInt a = some start ∧
        0 ≤ start ∧ start ≤ rangeEnd blob.length b ∧ start < blob.length := by
  by_cases hrh : rh = ""
  · left
    refine ⟨⟨200, headerSet (headerSet (headerSet [] "Accept-Ranges" "bytes") "Content-Type"
      "video/mp4") "Content-Length" (toString (blob.length : Int)), blob⟩, ?_,
      by show (200 : Nat) ≠ 206; decide⟩
    unfold handleVideo
    simp only [hrh, if_true]
  · by_cases hpre : HasPrefix rh "bytes=" = true
    · cases hparts : Split (TrimPrefix rh "bytes=") '-' with
      | nil =>
        left
        refine ⟨httpError (headerSet (headerSet [] "Accept-Ranges" "bytes") "Content-Type"
          "video/mp4") "invalid range" 400, ?_, by show (400 : Nat) ≠ 206; decide⟩
        unfold handleVideo
        simp [hrh, hpre, hparts]
      | cons a t =>
        cases t with
        | nil =>
          left
          refine ⟨httpError (headerSet (headerSet [] "Accept-Ranges" "bytes") "Content-Type"
            "video/mp4") "invalid range" 400, ?_, by show (400 : Nat) ≠ 206; decide⟩
          unfold handleVideo
          simp [hrh, hpre, hparts]
        | cons b t2 =>
          cases t2 with
          | cons c t3 =>
            left
            refine ⟨httpError (headerSet (headerSet [] "Accept-Ranges" "bytes") "Content-Type"
              "video/mp4") "invalid range" 400, ?_, by show (400 : Nat) ≠ 206; decide⟩
            unfold handleVideo
            simp [hrh, hpre, hparts]
          | nil =>
            cases hstart : ParseInt a with
            | none =>
              left
              exact ⟨_, handleVideo_unsatisfiable blob rh a b hrh hpre hparts (Or.inl hstart),
                by show (416 : Nat) ≠ 206; decide⟩
            | some start =>
              by_cases hbad : start < 0 ∨ start > rangeEnd blob.length b ∨ start ≥ blob.length
              · left
                exact ⟨_, handleVideo_unsatisfiable blob rh a b hrh hpre hparts
                  (Or.inr ⟨start, hstart, hbad⟩), by show (416 : Nat) ≠ 206; decide⟩
              · right
                exact ⟨a, b, start, hrh, hpre, rfl, hstart, by omega, by omega, by omega⟩
    · left
      refine ⟨httpError (headerSet (headerSet [] "Accept-Ranges" "bytes") "Content-Type"
        "video/mp4") "invalid range" 400, ?_, by show (400 : Nat) ≠ 206; decide⟩
      unfold handleVideo
      simp [hrh, hpre]

/-- C18 (video range serving stays in bounds): for every non-nil blob of size `n` (below
`2^63`, as every Go slice) and every `Range` header, `handleVideo` writes a response and
the slice expression does not panic.  When the response has status 206, the header is
`bytes=a-b` with `start` parsed from `a`, `end` is the requested end (`n - 1` when `b` is
empty or does not parse) clamped to `n - 1`, `0 <= start <= end <= n - 1`, the body is
exactly `blob[start..end]`, of `end - start + 1` bytes, `Content-Length` is
`end - start + 1` and `Content-Range` is `bytes start-end/n`.  When the header is
`bytes=a-b` and `start` does not parse, is negative, is greater than the requested end or
is at least `n`, the response has status 416, `Content-Range: bytes */n` and the error
text as body, no slice being taken. -/
theorem handleVideo_range (blob : List Nat) (rh : String)
    (hsize : (blob.length : Int) < 2 ^ 63) :
    (∃ r, handleVideo blob rh = .ok r) ∧
      (∀ r, handleVideo blob rh = .ok r → r.status = 206 →
        ∃ (a b : String) (start e : Int),
          Split (TrimPrefix rh "bytes=") '-' = [a, b] ∧ ParseInt a = some start ∧
          e = min (rangeEnd blob.length b) ((blob.length : Int) - 1) ∧
          0 ≤ start ∧ start ≤ e ∧ e ≤ (blob.length : Int) - 1 ∧
          r.body = (blob.drop start.toNat).take (e.toNat + 1 - start.toNat) ∧
          (r.body.length : Int) = e - start + 1 ∧
          headerGet r.header "Content-Length" = toString (e - start + 1) ∧
          headerGet r.header "Content-Range" =
            "bytes " ++ toString start ++ "-" ++ toString e ++ "/" ++
              toString (blob.length : Int)) ∧
      (∀ a b, rh ≠ "" → HasPrefix rh "bytes=" = true →
        Split (TrimPrefix rh "bytes=") '-' = [a, b] →
        (ParseInt a = none ∨ ∃ start, ParseInt a = some start ∧
          (start < 0 ∨ start > rangeEnd blob.length b ∨ start ≥ blob.length)) →
        ∃ r, handleVideo blob rh = .ok r ∧ r.status = 416 ∧
          headerGet r.header "Content-Range" = "bytes */" ++ toString (blob.length : Int) ∧
          r.body = utf8 "Requested Range Not Satisfiable\n") := by
  refine ⟨?_, ?_, ?_⟩
  · rcases handleVideo_cases blob rh with ⟨r, hr, _⟩ | ⟨a, b, start, h1, h2, h3, h4, h5, h6, h7⟩
    · exact ⟨r, hr⟩
    · exact ⟨_, handleVideo_status206 blob rh a b start hsize h1 h2 h3 h4 h5 h6 h7⟩
  · intro r hr hstatus
    rcases handleVideo_cases blob rh with ⟨r', hr', hne⟩ | ⟨a, b, start, h1, h2, h3, h4, h5, h6, h7⟩
    · rw [hr] at hr'
      cases hr'
      exact absurd hstatus hne
    · have hp := handleVideo_status206 blob rh a b start hsize h1 h2 h3 h4 h5 h6 h7
      rw [hr] at hp
      cases hp
      refine ⟨a, b, start, _, h3, h4, rfl, h5, by omega, by omega, ?_, ?_, ?_, ?_⟩
      · dsimp only
        congr 2
        omega
      · dsimp only
        rw [List.length_take, List.length_drop]
        omega
      · dsimp only
        rw [headerGet_headerSet_self]
      · dsimp only
        rw [headerGet_headerSet_other _ _ (by decide), headerGet_headerSet_self]
  · intro a b h1 h2 h3 hbad
    refine ⟨_, handleVideo_unsatisfiable blob rh a b h1 h2 h3 hbad, rfl, ?_, ?_⟩
    · unfold httpError
      dsimp only
      rw [headerGet_headerSet_other _ _ (by decide), headerGet_headerSet_other _ _ (by decide),
        headerGet_headerSet_self]
    · rfl

/-- Evaluation at a blob of ten bytes: `bytes=2-5` and `bytes=2-50` are answered with 206,
`bytes=10-` and `bytes=x-3` with 416. -/
theorem handleVideo_range_witness :
    handleVideo (List.range 10) "bytes=2-5" = .ok ⟨206,
        [("Accept-Ranges", "bytes"), ("Content-Type", "video/mp4"),
          ("Content-Range", "bytes 2-5/10"), ("Content-Length", "4")], [2, 3, 4, 5]⟩ ∧
      handleVideo (List.range 10) "bytes=2-50" = .ok ⟨206,
        [("Accept-Ranges", "bytes"), ("Content-Type", "video/mp4"),
          ("Content-Range", "bytes 2-9/10"), ("Content-Length", "8")],
        [2, 3, 4, 5, 6, 7, 8, 9]⟩ ∧
      (∃ r, handleVideo (List.range 10) "bytes=10-" = .ok r ∧ r.status = 416 ∧
        headerGet r.header "Content-Range" = "bytes */" ++ toString (10 : Int) ∧
        r.body = utf8 "Requested Range Not Satisfiable\n") ∧
      (∃ r, handleVideo (List.range 10) "bytes=x-3" = .ok r ∧ r.status = 416 ∧
        headerGet r.header "Content-Range" = "bytes */" ++ toString (10 : Int) ∧
        r.body = utf8 "Requested Range Not Satisfiable\n") :=
  ⟨by decide, by decide,
    (handleVideo_range (List.range 10) "bytes=10-" (by decide)).2.2 "10" "" (by decide)
      (by decide) (by decide) (Or.inr ⟨10, by decide, by decide⟩),
    (handleVideo_range (List.range 10) "bytes=x-3" (by decide)).2.2 "x" "3" (by decide)
      (by decide) (by decide) (Or.inl (by decide))⟩

/-! ## Post URLs and post URIs -/

theorem splitChars_ne_nil (sep : Char) (s : List Char) : splitChars sep s ≠ [] := by
  cases s with
  | nil => simp [splitChars]
  | cons c cs =>
    unfold splitChars
    by_cases h : c = sep
    · simp [h]
    · rw [if_neg h]
      cases splitChars sep cs <;> simp

theorem splitChars_of_not_mem {sep : Char} {s : List Char} (h : sep ∉ s) :
    splitChars sep s = [s] := by
  induction s with
  | nil => rfl
  | cons c cs ih =>
    have hc : ¬ c = sep := fun e => h (by simp [e])
    have hcs : sep ∉ cs := fun e => h (List.mem_cons_of_mem _ e)
    unfold splitChars
    rw [if_neg hc, ih hcs]

theorem splitChars_append_sep {sep : Char} {a : List Char} (rest : List Char) (h : sep ∉ a) :
    splitChars sep (a ++ sep :: rest) = a :: splitChars sep rest := by
  induction a with
  | nil => simp [splitChars]
  | cons c cs ih =>
    have hc : ¬ c = sep := fun e => h (by simp [e])
    have hcs : sep ∉ cs := fun e => h (List.mem_cons_of_mem _ e)
    rw [List.cons_append, splitChars, if_neg hc, ih hcs]

theorem splitChars_length (sep : Char) (s : List Char) :
    (splitChars sep s).length = s.count sep + 1 := by
  induction s with
  | nil => rfl
  | cons c cs ih =>
    unfold splitChars
    by_cases h : c = sep
    · rw [if_pos h, List.length_cons, ih, h, List.count_cons_self]
    · rw [if_neg h]
      have hcount : (c :: cs).count sep = cs.count sep := List.count_cons_of_ne (fun e => h e.symm) cs
      cases hs : splitChars sep cs with
      | nil => exact absurd hs (splitChars_ne_nil sep cs)
      | cons p ps =>
        rw [hs] at ih
        rw [hcount, ← ih]
        rfl

theorem splitChars_getLast (sep : Char) (x : List Char) {k : List Char} (h : sep ∉ k) :
    (splitChars sep (x ++ sep :: k)).getLast? = some k := by
  induction x with
  | nil =>
    rw [List.nil_append, splitChars, if_pos rfl, splitChars_of_not_mem h]
    rfl
  | cons c cs ih =>
    have hlen := splitChars_length sep (cs ++ sep :: k)
    have hcount : 1 ≤ (cs ++ sep :: k).count sep := by
      rw [List.count_append, List.count_cons_self]
      omega
    rw [List.cons_append, splitChars]
    cases hs : splitChars sep (cs ++ sep :: k) with
    | nil => exact absurd hs (splitChars_ne_nil sep _)
    | cons p ps =>
      rw [hs] at ih hlen
      cases ps with
      | nil => simp at hlen
      | cons q qs =>
        rw [List.getLast?_cons_cons] at ih
        by_cases hc : c = sep
        · rw [if_pos hc, List.getLast?_cons_cons, List.getLast?_cons_cons]
          exact ih
        · rw [if_neg hc]
          dsimp only
          rw [List.getLast?_cons_cons]
          exact ih

theorem getD_last (l : List String) : l.getD (l.length - 1) "" = l.getLast?.getD "" := by
  rw [List.getLast?_eq_getElem?, List.getD_eq_getElem?_getD]

theorem Split_two {a b : String} (ha : '/' ∉ a.data) (hb : '/' ∉ b.data) :
    Split (String.mk (a.data ++ '/' :: b.data)) '/' = [a, b] := by
  unfold Split
  rw [splitChars_append_sep _ ha, splitChars_of_not_mem hb]
  rfl

theorem Split_last (x : List Char) {k : String} (hk : '/' ∉ k.data) :
    (Split (String.mk (x ++ '/' :: k.data)) '/').getLast? = some k := by
  unfold Split
  rw [List.getLast?_map, splitChars_getLast '/' x hk]
  rfl

theorem Split_length (s : String) (sep : Char) :
    (Split s sep).length = s.data.count sep + 1 := by
  unfold Split
  rw [List.length_map, splitChars_length]

theorem TrimPrefix_post (rest : String) : TrimPrefix ("/post/" ++ rest) "/post/" = rest := by
  have hpre : HasPrefix ("/post/" ++ rest) "/post/" = true := by
    unfold HasPrefix
    rw [String.data_append]
    simp [List.isPrefixOf]
  unfold TrimPrefix
  rw [if_pos hpre, String.data_append]
  show String.mk (("/post/".data ++ rest.data).drop "/post/".data.length) = rest
  rw [List.drop_left]

theorem postURI_data (d k : String) :
    ("at://" ++ d ++ "/app.bsky.feed.post/" ++ k) =
      String.mk (("at://".data ++ d.data ++ "/app.bsky.feed.post".data) ++ '/' :: k.data) := by
  apply String.ext
  simp [String.data_append]

theorem postPath_data (h k : String) : (h ++ "/" ++ k) = String.mk (h.data ++ '/' :: k.data) := by
  apply String.ext
  simp [String.data_append]

theorem getPostURL_of_uri (h d k did : String) (record : Option LexiconTypeDecoder)
    (embed : Option PostViewEmbed) (hh : h ≠ "") (hk : '/' ∉ k.data) :
    getPostURL (some
        { Uri := "at://" ++ d ++ "/app.bsky.feed.post/" ++ k,
          Author := some ⟨did, h⟩, Record := record, Embed := embed }) =
      "/post/" ++ h ++ "/" ++ k := by
  have huri : ("at://" ++ d ++ "/app.bsky.feed.post/" ++ k) ≠ "" := by
    intro e
    have := congrArg String.length e
    simp [String.length_append] at this
    exact absurd this.1.1.1 (by decide)
  have hlen : (Split ("at://" ++ d ++ "/app.bsky.feed.post/" ++ k) '/').length ≥ 4 := by
    rw [Split_length]
    simp only [String.data_append, List.count_append]
    have h1 : List.count '/' ['a', 't', ':', '/', '/'] = 2 := by decide
    have h2 : List.count '/' ['/', 'a', 'p', 'p', '.', 'b', 's', 'k', 'y', '.', 'f', 'e', 'e',
        'd', '.', 'p', 'o', 's', 't', '/'] = 2 := by decide
    omega
  have hlast : (Split ("at://" ++ d ++ "/app.bsky.feed.post/" ++ k) '/').getLast? = some k := by
    rw [postURI_data]
    exact Split_last _ hk
  unfold getPostURL
  dsimp only
  rw [if_pos ⟨hh, huri⟩, if_pos hlen, getD_last, hlast]
  rfl

theorem buildPostURIFromRequest_path
    (getProfile : String → Except Error ProfileViewDetailed) (h k : String)
    (query : List (String × String)) (hq : Request.queryGet ⟨"/post/" ++ h ++ "/" ++ k, query⟩
      "uri" = "")
    (hh : '/' ∉ h.data) (hk : '/' ∉ k.data) :
    buildPostURIFromRequest getProfile ⟨"/post/" ++ h ++ "/" ++ k, query⟩ =
      match resolveHandleToDID getProfile h with
      | .error err => .error err
      | .ok authorDID => .ok ("at://" ++ authorDID ++ "/app.bsky.feed.post/" ++ k) := by
  have hpath : TrimPrefix ("/post/" ++ h ++ "/" ++ k) "/post/" = h ++ "/" ++ k := by
    rw [String.append_assoc, String.append_assoc, TrimPrefix_post, ← String.append_assoc]
  have hsplit : Split (h ++ "/" ++ k) '/' = [h, k] := by
    rw [postPath_data]
    exact Split_two hh hk
  unfold buildPostURIFromRequest
  rw [if_neg (by rw [hq]; simp)]
  dsimp only
  rw [hpath, hsplit]
  rfl

/-- The round trip fails for a handle that starts with `did:`: the resolver maps `did:x`
to `did:plc:alice`, yet the URI is built from `did:x` itself. -/
theorem buildPostURIFromRequest_did_handle :
    getPostURL (some
        { Uri := "at://did:plc:alice/app.bsky.feed.post/3k",
          Author := some ⟨"did:plc:alice", "did:x"⟩, Record := none }) = "/post/did:x/3k" ∧
      buildPostURIFromRequest (fun _ => .ok ⟨"did:plc:alice", "did:x"⟩)
        ⟨"/post/did:x/3k", []⟩ = .ok "at://did:x/app.bsky.feed.post/3k" ∧
      buildPostURIFromRequest (fun _ => .ok ⟨"did:plc:alice", "did:x"⟩)
        ⟨"/post/did:x/3k", []⟩ ≠ .ok "at://did:plc:alice/app.bsky.feed.post/3k" := by
  decide

/-- C19, amended (post URL and post URI round-trip): for every non-empty handle `h`, DID
`d` and record key `k`, where `h` and `k` contain no `/`, `getPostURL` of a post with Uri
`at://d/app.bsky.feed.post/k` and author handle `h` is `/post/h/k`; on a request with that
path and no `uri` query parameter, `buildPostURIFromRequest` returns
`at://d/app.bsky.feed.post/k` when `h` does not start with `did:` and the resolver maps `h`
to `d`, and returns `at://h/app.bsky.feed.post/k`, without asking the resolver, when `h`
starts with `did:`; a non-empty `uri` query parameter is returned as is, whatever the
path. -/
theorem post_url_round_trip (getProfile : String → Except Error ProfileViewDetailed)
    (h d k : String) (hh : h ≠ "") (hslash : '/' ∉ h.data) (hk : '/' ∉ k.data) :
    (∀ (did : String) (record : Option LexiconTypeDecoder) (embed : Option PostViewEmbed),
      getPostURL (some
        { Uri := "at://" ++ d ++ "/app.bsky.feed.post/" ++ k,
          Author := some ⟨did, h⟩, Record := record, Embed := embed }) =
        "/post/" ++ h ++ "/" ++ k) ∧
    (∀ (query : List (String × String)) (profile : ProfileViewDetailed),
      Request.queryGet ⟨"/post/" ++ h ++ "/" ++ k, query⟩ "uri" = "" →
      HasPrefix h "did:" = false → getProfile h = .ok profile → profile.Did = d →
      buildPostURIFromRequest getProfile ⟨"/post/" ++ h ++ "/" ++ k, query⟩ =
        .ok ("at://" ++ d ++ "/app.bsky.feed.post/" ++ k)) ∧
    (∀ (query : List (String × String)),
      Request.queryGet ⟨"/post/" ++ h ++ "/" ++ k, query⟩ "uri" = "" →
      HasPrefix h "did:" = true →
      buildPostURIFromRequest getProfile ⟨"/post/" ++ h ++ "/" ++ k, query⟩ =
        .ok ("at://" ++ h ++ "/app.bsky.feed.post/" ++ k)) ∧
    (∀ (r : Request), r.queryGet "uri" ≠ "" →
      buildPostURIFromRequest getProfile r = .ok (r.queryGet "uri")) := by
  refine ⟨?_, ?_, ?_, ?_⟩
  · intro did record embed
    exact getPostURL_of_uri h d k did record embed hh hk
  · intro query profile hq hdid hres hd
    rw [buildPostURIFromRequest_path getProfile h k query hq hslash hk]
    unfold resolveHandleToDID
    simp only [hdid, hres, hd]
    rfl
  · intro query hq hdid
    rw [buildPostURIFromRequest_path getProfile h k query hq hslash hk]
    unfold resolveHandleToDID
    simp only [hdid, if_true]
  · intro r hr
    unfold buildPostURIFromRequest
    rw [if_pos hr]

/-- Evaluation at the handle `alice.example`, the DID `did:plc:alice` and the record key
`3k`, with `sampleResolver`; and at a request that carries a `uri` parameter. -/
theorem post_url_round_trip_witness :
    getPostURL (some
        { Uri := "at://" ++ "did:plc:alice" ++ "/app.bsky.feed.post/" ++ "3k",
          Author := some ⟨"did:plc:alice", "alice.example"⟩, Record := none }) =
        "/post/" ++ "alice.example" ++ "/" ++ "3k" ∧
      buildPostURIFromRequest sampleResolver ⟨"/post/" ++ "alice.example" ++ "/" ++ "3k", []⟩ =
        .ok ("at://" ++ "did:plc:alice" ++ "/app.bsky.feed.post/" ++ "3k") ∧
      buildPostURIFromRequest sampleResolver
        ⟨"/post/alice.example/3k", [("uri", "at://did:plc:bob/app.bsky.feed.post/9z")]⟩ =
        .ok "at://did:plc:bob/app.bsky.feed.post/9z" :=
  ⟨(post_url_round_trip sampleResolver "alice.example" "did:plc:alice" "3k" (by decide)
      (by decide) (by decide)).1 "did:plc:alice" none none,
    (post_url_round_trip sampleResolver "alice.example" "did:plc:alice" "3k" (by decide)
      (by decide) (by decide)).2.1 [] ⟨"did:plc:alice", "alice.example"⟩ (by decide)
      (by decide) (by decide) (by decide),
    (post_url_round_trip sampleResolver "alice.example" "did:plc:alice" "3k" (by decide)
      (by decide) (by decide)).2.2.2
      ⟨"/post/alice.example/3k", [("uri", "at://did:plc:bob/app.bsky.feed.post/9z")]⟩
      (by decide)⟩

/-! ## Reply chain infos -/

theorem extract_some (sr : RepoStrongRef) :
    extract (some sr) = { ParentInfo.zero with Uri := sr.Uri } := by
  unfold extract
  by_cases h : sr.Uri = ""
  · simp [h, ParentInfo.zero]
  · simp [h]

theorem replyChainOf_cases (reply : ReplyRef) :
    (reply.Root = none → reply.Parent = none → replyChainOf reply = []) ∧
    (∀ root, reply.Root = some root → reply.Parent = none →
      replyChainOf reply = [{ ParentInfo.zero with Uri := root.Uri }]) ∧
    (∀ parent, reply.Root = none → reply.Parent = some parent →
      replyChainOf reply = [{ ParentInfo.zero with Uri := parent.Uri }]) ∧
    (∀ root parent, reply.Root = some root → reply.Parent = some parent →
      root.Uri ≠ "" ∧ root.Uri = parent.Uri →
      replyChainOf reply = [{ ParentInfo.zero with Uri := root.Uri }]) ∧
    (∀ root parent, reply.Root = some root → reply.Parent = some parent →
      ¬ (root.Uri ≠ "" ∧ root.Uri = parent.Uri) →
      replyChainOf reply = [{ ParentInfo.zero with Uri := root.Uri },
        { ParentInfo.zero with Uri := parent.Uri }]) := by
  refine ⟨?_, ?_, ?_, ?_, ?_⟩
  · intro hr hp
    simp [replyChainOf, hr, hp]
  · intro root hr hp
    simp [replyChainOf, hr, hp, extract_some]
  · intro parent hr hp
    simp [replyChainOf, hr, hp, extract_some, lastUri]
  · intro root parent hr hp hsame
    have h2 : ¬ parent.Uri = "" := fun e => hsame.1 (hsame.2.trans e)
    simp [replyChainOf, hr, hp, extract_some, lastUri, hsame.1, hsame.2, h2]
  · intro root parent hr hp hdiff
    have : ¬ (root.Uri ≠ "" ∧ parent.Uri ≠ "" ∧ root.Uri = parent.Uri) :=
      fun h => hdiff ⟨h.1, h.2.2⟩
    simp only [replyChainOf, hr, hp, extract_some, lastUri, List.length_singleton,
      List.getLast?_singleton, gt_iff_lt, Nat.lt_one_iff, Nat.pos_of_ne_zero, true_and]
    rw [if_pos (by simpa using this)]
    rfl

theorem GetReplyChainInfos_of_reply (pv : PostView) :
    GetReplyChainInfos (some pv) =
      match replyRefOf pv with
      | some reply => replyChainOf reply
      | none => [] := by
  obtain ⟨uri, author, record, embed⟩ := pv
  unfold GetReplyChainInfos replyRefOf
  cases record with
  | none => rfl
  | some record =>
    obtain ⟨val⟩ := record
    cases val with
    | none => rfl
    | some v =>
      cases v with
      | other t => rfl
      | feedPost post =>
        cases post with
        | none => rfl
        | some post =>
          cases hreply : post.Reply with
          | none => simp [hreply]
          | some reply => simp [hreply]

theorem replyRefOf_post {pv : PostView} {post : FeedPost}
    (h : pv.Record = some ⟨some (.feedPost (some post))⟩) : replyRefOf pv = post.Reply := by
  unfold replyRefOf
  rw [h]

theorem replyChainOf_bounds (reply : ReplyRef) :
    (replyChainOf reply).length ≤ 2 ∧
      ∀ u, u ≠ "" → ((replyChainOf reply).map (fun pi => pi.Uri)).count u ≤ 1 := by
  obtain ⟨h1, h2, h3, h4, h5⟩ := replyChainOf_cases reply
  cases hr : reply.Root with
  | none =>
    cases hp : reply.Parent with
    | none =>
      rw [h1 hr hp]
      exact ⟨by decide, fun u _ => by simp⟩
    | some parent =>
      rw [h3 parent hr hp]
      refine ⟨by simp, fun u _ => ?_⟩
      simp only [List.map_cons, List.map_nil]
      exact (List.count_le_length _ _).trans (by simp)
  | some root =>
    cases hp : reply.Parent with
    | none =>
      rw [h2 root hr hp]
      refine ⟨by simp, fun u _ => ?_⟩
      simp only [List.map_cons, List.map_nil]
      exact (List.count_le_length _ _).trans (by simp)
    | some parent =>
      by_cases hsame : root.Uri ≠ "" ∧ root.Uri = parent.Uri
      · rw [h4 root parent hr hp hsame]
        refine ⟨by simp, fun u _ => ?_⟩
        simp only [List.map_cons, List.map_nil]
        exact (List.count_le_length _ _).trans (by simp)
      · rw [h5 root parent hr hp hsame]
        refine ⟨by simp, fun u hu => ?_⟩
        simp only [List.map_cons, List.map_nil, List.count_cons, List.count_nil]
        by_cases e1 : root.Uri = u
        · by_cases e2 : parent.Uri = u
          · exact absurd ⟨e1 ▸ hu, e1.trans e2.symm⟩ hsame
          · simp [e1, e2]
        · simp [e1]
          split <;> omega

/-- C21 (reply references from root to immediate parent, without a duplicate URI): for
every post view whose record is a post with a reply ref, `GetReplyChainInfos` returns the
root entry, if a root ref is present, followed by the parent entry, if a parent ref is
present, each entry being the zero `ParentInfo` with the ref's `Uri`; the parent entry is
omitted when it has the same non-empty `Uri` as the root entry.  The result has at most
two entries, no non-empty `Uri` occurs twice in it, and it is empty when there is no reply
ref: for a nil post view, a nil record, a nil value, a record of another type, a nil post
or a nil reply ref. -/
theorem GetReplyChainInfos_chain (pv : PostView) :
    (∀ post reply, pv.Record = some ⟨some (.feedPost (some post))⟩ → post.Reply = some reply →
      (reply.Root = none → reply.Parent = none → GetReplyChainInfos (some pv) = []) ∧
      (∀ root, reply.Root = some root → reply.Parent = none →
        GetReplyChainInfos (some pv) = [{ ParentInfo.zero with Uri := root.Uri }]) ∧
      (∀ parent, reply.Root = none → reply.Parent = some parent →
        GetReplyChainInfos (some pv) = [{ ParentInfo.zero with Uri := parent.Uri }]) ∧
      (∀ root parent, reply.Root = some root → reply.Parent = some parent →
        root.Uri ≠ "" ∧ root.Uri = parent.Uri →
        GetReplyChainInfos (some pv) = [{ ParentInfo.zero with Uri := root.Uri }]) ∧
      (∀ root parent, reply.Root = some root → reply.Parent = some parent →
        ¬ (root.Uri ≠ "" ∧ root.Uri = parent.Uri) →
        GetReplyChainInfos (some pv) = [{ ParentInfo.zero with Uri := root.Uri },
          { ParentInfo.zero with Uri := parent.Uri }])) ∧
    (GetReplyChainInfos (some pv)).length ≤ 2 ∧
    (∀ u, u ≠ "" → ((GetReplyChainInfos (some pv)).map (fun pi => pi.Uri)).count u ≤ 1) ∧
    GetReplyChainInfos none = [] ∧
    (pv.Record = none → GetReplyChainInfos (some pv) = []) ∧
    (pv.Record = some ⟨none⟩ → GetReplyChainInfos (some pv) = []) ∧
    (∀ t, pv.Record = some ⟨some (.other t)⟩ → GetReplyChainInfos (some pv) = []) ∧
    (pv.Record = some ⟨some (.feedPost none)⟩ → GetReplyChainInfos (some pv) = []) ∧
    (∀ post, pv.Record = some ⟨some (.feedPost (some post))⟩ → post.Reply = none →
      GetReplyChainInfos (some pv) = []) := by
  refine ⟨?_, ?_, ?_, rfl, ?_, ?_, ?_, ?_, ?_⟩
  · intro post reply hrec hreply
    have h : GetReplyChainInfos (some pv) = replyChainOf reply := by
      rw [GetReplyChainInfos_of_reply, replyRefOf_post hrec, hreply]
    rw [h]
    exact replyChainOf_cases reply
  · rw [GetReplyChainInfos_of_reply]
    cases replyRefOf pv with
    | none => exact Nat.zero_le _
    | some reply => exact (replyChainOf_bounds reply).1
  · rw [GetReplyChainInfos_of_reply]
    cases replyRefOf pv with
    | none => intro u _; simp
    | some reply => exact (replyChainOf_bounds reply).2
  · intro h
    rw [GetReplyChainInfos_of_reply]
    unfold replyRefOf
    rw [h]
  · intro h
    rw [GetReplyChainInfos_of_reply]
    unfold replyRefOf
    rw [h]
  · intro t h
    rw [GetReplyChainInfos_of_reply]
    unfold replyRefOf
    rw [h]
  · intro h
    rw [GetReplyChainInfos_of_reply]
    unfold replyRefOf
    rw [h]
  · intro post h hreply
    rw [GetReplyChainInfos_of_reply, replyRefOf_post h, hreply]

/-- Evaluation at `mediaPost`, which has the root `at://r` and the parent `at://p`, and at
a post whose root and parent are both `at://r`. -/
theorem GetReplyChainInfos_chain_witness :
    GetReplyChainInfos (some mediaPost) =
        [{ ParentInfo.zero with Uri := "at://r" }, { ParentInfo.zero with Uri := "at://p" }] ∧
      GetReplyChainInfos (some
        { Uri := "at://x", Author := none,
          Record := some ⟨some (.feedPost (some ⟨"", some ⟨some ⟨"at://r"⟩,
            some ⟨"at://r"⟩⟩⟩))⟩ }) = [{ ParentInfo.zero with Uri := "at://r" }] ∧
      GetReplyChainInfos (some (replyPost "a" "")) = [] :=
  ⟨((GetReplyChainInfos_chain mediaPost).1 ⟨"hi", some ⟨some ⟨"at://p"⟩, some ⟨"at://r"⟩⟩⟩
      ⟨some ⟨"at://p"⟩, some ⟨"at://r"⟩⟩ (by decide) (by decide)).2.2.2.2 ⟨"at://r"⟩
      ⟨"at://p"⟩ (by decide) (by decide) (by decide),
    by decide,
    (GetReplyChainInfos_chain (replyPost "a" "")).2.2.2.2.2.2.2.2 ⟨"", none⟩ (by decide)
      (by decide)⟩

/-! ## Element ids -/

theorem isAlphanumeric_ne_dash {c : Char} (h : isAlphanumeric c = true) : c ≠ '-' := by
  rintro rfl
  exact absurd h (by decide)

theorem replaceRuns_chars (inRun : Bool) (s : List Char) :
    ∀ c ∈ replaceRuns inRun s, isAlphanumeric c = true ∨ c = '-' := by
  induction s generalizing inRun with
  | nil => simp [replaceRuns]
  | cons x xs ih =>
    unfold replaceRuns
    by_cases hx : isAlphanumeric x = true
    · rw [if_pos hx]
      intro c hc
      rcases List.mem_cons.mp hc with rfl | hc
      · exact Or.inl hx
      · exact ih false c hc
    · rw [if_neg hx]
      cases inRun with
      | true => simpa using ih true
      | false =>
        simp only [Bool.false_eq_true, if_false]
        intro c hc
        rcases List.mem_cons.mp hc with rfl | hc
        · exact Or.inr rfl
        · exact ih true c hc

theorem replaceRuns_chain (inRun : Bool) (s : List Char) :
    List.Chain' (fun a b => ¬ (a = '-' ∧ b = '-')) (replaceRuns inRun s) ∧
      (inRun = true → (replaceRuns inRun s).head? ≠ some '-') := by
  induction s generalizing inRun with
  | nil => simp [replaceRuns]
  | cons x xs ih =>
    unfold replaceRuns
    by_cases hx : isAlphanumeric x = true
    · rw [if_pos hx]
      have hne := isAlphanumeric_ne_dash hx
      refine ⟨?_, fun _ h => hne (by simpa using h)⟩
      rw [List.chain'_cons']
      exact ⟨fun y _ h => hne h.1, (ih false).1⟩
    · rw [if_neg hx]
      cases inRun with
      | true => simpa using ih true
      | false =>
        simp only [Bool.false_eq_true, if_false]
        refine ⟨?_, fun h => absurd h (by decide)⟩
        rw [List.chain'_cons']
        refine ⟨fun y hy h => ?_, (ih true).1⟩
        exact (ih true).2 rfl (by rw [Option.mem_def] at hy; rw [hy, h.2])

theorem trimChars_within (c : Char) (s : List Char) : trimChars c s <:+: s := by
  have h1 : trimChars c s <+: s.dropWhile (fun x => decide (x = c)) :=
    List.rdropWhile_prefix _ _
  exact h1.isInfix.trans (List.dropWhile_suffix _).isInfix

theorem trimChars_head (c : Char) (s : List Char) : (trimChars c s).head? ≠ some c := by
  have h1 : trimChars c s <+: s.dropWhile (fun x => decide (x = c)) :=
    List.rdropWhile_prefix _ _
  intro h
  obtain ⟨t, ht⟩ := h1
  cases htr : trimChars c s with
  | nil => rw [htr] at h; simp at h
  | cons y ys =>
    rw [htr] at h ht
    have hy : y = c := by simpa using h
    have hhead : (s.dropWhile (fun x => decide (x = c))).head? = some y := by
      rw [← ht]; rfl
    have hnot := List.head?_dropWhile_not (fun x => decide (x = c)) s
    rw [hhead] at hnot
    simp [hy] at hnot

/-- C22 (`MakeElementID` yields a safe DOM id): for the empty URI the result is the empty
string; for every non-empty URI the result starts with `post-`, each of its characters is
an ASCII letter, a digit or a dash, and no two dashes follow each other. -/
theorem MakeElementID_safe (uri : String) :
    (uri = "" → MakeElementID uri = "") ∧
    (uri ≠ "" →
      (∃ rest : String, MakeElementID uri = "post-" ++ rest) ∧
      (∀ c ∈ (MakeElementID uri).data,
        ('a' ≤ c ∧ c ≤ 'z') ∨ ('A' ≤ c ∧ c ≤ 'Z') ∨ ('0' ≤ c ∧ c ≤ '9') ∨ c = '-') ∧
      List.Chain' (fun a b => ¬ (a = '-' ∧ b = '-')) (MakeElementID uri).data) := by
  constructor
  · intro h
    unfold MakeElementID
    rw [if_pos h]
  · intro h
    have hdef : MakeElementID uri =
        "post-" ++ Trim (String.mk (replaceRuns false (TrimPrefix uri "at://").data)) '-' := by
      unfold MakeElementID
      rw [if_neg h]
    have hdata : (MakeElementID uri).data =
        ['p', 'o', 's', 't', '-'] ++
          trimChars '-' (replaceRuns false (TrimPrefix uri "at://").data) := by
      rw [hdef, String.data_append]
      rfl
    refine ⟨⟨_, hdef⟩, ?_, ?_⟩
    · intro c hc
      rw [hdata] at hc
      rcases List.mem_append.mp hc with hp | ht
      · have hall : ∀ x ∈ ['p', 'o', 's', 't', '-'],
            ('a' ≤ x ∧ x ≤ 'z') ∨ ('A' ≤ x ∧ x ≤ 'Z') ∨ ('0' ≤ x ∧ x ≤ '9') ∨ x = '-' := by
          decide
        exact hall c hp
      · have hmem := (trimChars_within '-' _).subset ht
        rcases replaceRuns_chars false _ c hmem with ha | hd
        · unfold isAlphanumeric at ha
          have := of_decide_eq_true ha
          tauto
        · exact Or.inr (Or.inr (Or.inr hd))
    · rw [hdata, List.chain'_append]
      refine ⟨by simp, ?_, ?_⟩
      · have hchain := (replaceRuns_chain false (TrimPrefix uri "at://").data).1
        exact List.Chain'.infix hchain (trimChars_within '-' _)
      · intro x _ y hy hxy
        exact trimChars_head '-' _ (by rw [Option.mem_def] at hy; rw [hy, hxy.2])

/-- Evaluation at a post URI, at the bare scheme and at a text with runs of dashes and
underscores. -/
theorem MakeElementID_safe_witness :
    MakeElementID "at://did:plc:alice/app.bsky.feed.post/3k" =
        "post-did-plc-alice-app-bsky-feed-post-3k" ∧
      MakeElementID "at://" = "post-" ∧ MakeElementID "--a__b--" = "post-a-b" ∧
      MakeElementID "" = "" ∧
      List.Chain' (fun a b => ¬ (a = '-' ∧ b = '-'))
        (MakeElementID "at://did:plc:alice/app.bsky.feed.post/3k").data :=
  ⟨by decide, by decide, by decide, (MakeElementID_safe "").1 rfl,
    ((MakeElementID_safe "at://did:plc:alice/app.bsky.feed.post/3k").2 (by decide)).2.2⟩

/-! ## Post media -/

theorem appendImages_eq (images : List (Option EmbedImagesViewImage)) (acc : List ImageVM) :
    appendImages images acc = acc ++ (images.filterMap id).map imageVM := by
  induction images generalizing acc with
  | nil => simp [appendImages]
  | cons im rest ih =>
    cases im with
    | none => rw [appendImages, ih]; simp
    | some im => rw [appendImages, ih]; simp

theorem mediaOf_Images (embed : PostViewEmbed) (author : Option ProfileViewBasic) :
    (mediaOf embed author).Images = (topImages embed ++ nestedImages embed).map imageVM := by
  obtain ⟨iv, v, ev, rwm⟩ := embed
  unfold mediaOf topImages nestedImages nestedMedia presentImages nestedMediaInto
  cases iv <;> cases v <;> rcases ev with _ | ⟨_ | ex⟩ <;>
    rcases rwm with _ | ⟨_ | ⟨niv, nv, nev⟩⟩
  all_goals try (cases niv <;> cases nv <;> rcases nev with _ | ⟨_ | nex⟩)
  all_goals simp [appendImages_eq]

theorem mediaOf_Video (embed : PostViewEmbed) (author : Option ProfileViewBasic) :
    (mediaOf embed author).Video =
      (firstOf embed.EmbedVideo_View (nestedVideo embed)).map (fun v => videoVM v author) := by
  obtain ⟨iv, v, ev, rwm⟩ := embed
  unfold mediaOf nestedVideo nestedMedia nestedMediaInto firstOf
  cases iv <;> cases v <;> rcases ev with _ | ⟨_ | ex⟩ <;>
    rcases rwm with _ | ⟨_ | ⟨niv, nv, nev⟩⟩
  all_goals try (cases niv <;> cases nv <;> rcases nev with _ | ⟨_ | nex⟩)
  all_goals simp

theorem mediaOf_External (embed : PostViewEmbed) (author : Option ProfileViewBasic) :
    (mediaOf embed author).External =
      (firstOf (presentExternal embed.EmbedExternal_View) (nestedExternal embed)).map
        externalVM := by
  obtain ⟨iv, v, ev, rwm⟩ := embed
  unfold mediaOf nestedExternal nestedMedia nestedMediaInto firstOf presentExternal
  cases iv <;> cases v <;> rcases ev with _ | ⟨_ | ex⟩ <;>
    rcases rwm with _ | ⟨_ | ⟨niv, nv, nev⟩⟩
  all_goals try (cases niv <;> cases nv <;> rcases nev with _ | ⟨_ | nex⟩)
  all_goals simp

theorem GetPostMedia_of_embed (post : PostView) (embed : PostViewEmbed)
    (h : post.Embed = some embed) :
    GetPostMedia (some post) =
      if (mediaOf embed post.Author).Images.length = 0 ∧
          (mediaOf embed post.Author).Video = none ∧
          (mediaOf embed post.Author).External = none then none
      else some (mediaOf embed post.Author) := by
  unfold GetPostMedia
  simp only [h]

/-- C23 (`GetPostMedia` returns nil exactly when no media is present): for every post
view, the result is nil when the post or its embed is nil; with an embed, it is nil if
and only if there is no non-nil image, top-level or nested in the record-with-media view,
no video view, top-level or nested, and no external view with a non-nil `External`,
top-level or nested; a non-nil result lists the non-nil top-level images followed by the
non-nil nested images, in order, its video is made from the top-level video view if there
is one and else from the nested one, and its external link likewise from the top-level
`External` if there is one and else from the nested one. -/
theorem GetPostMedia_nil_iff (post : PostView) :
    GetPostMedia none = none ∧
    (post.Embed = none → GetPostMedia (some post) = none) ∧
    (∀ embed, post.Embed = some embed →
      (GetPostMedia (some post) = none ↔
        topImages embed = [] ∧ nestedImages embed = [] ∧
        embed.EmbedVideo_View = none ∧ nestedVideo embed = none ∧
        presentExternal embed.EmbedExternal_View = none ∧ nestedExternal embed = none) ∧
      (∀ m, GetPostMedia (some post) = some m →
        m.Images = (topImages embed ++ nestedImages embed).map imageVM ∧
        m.Video = (firstOf embed.EmbedVideo_View (nestedVideo embed)).map
          (fun v => videoVM v post.Author) ∧
        m.External = (firstOf (presentExternal embed.EmbedExternal_View)
          (nestedExternal embed)).map externalVM)) := by
  refine ⟨rfl, ?_, ?_⟩
  · intro h
    unfold GetPostMedia
    simp only [h]
  · intro embed h
    have hI := mediaOf_Images embed post.Author
    have hV := mediaOf_Video embed post.Author
    have hE := mediaOf_External embed post.Author
    rw [GetPostMedia_of_embed post embed h]
    constructor
    · constructor
      · intro hnone
        by_cases hc : (mediaOf embed post.Author).Images.length = 0 ∧
            (mediaOf embed post.Author).Video = none ∧
            (mediaOf embed post.Author).External = none
        · obtain ⟨h1, h2, h3⟩ := hc
          rw [hI] at h1
          rw [hV] at h2
          rw [hE] at h3
          have h1' : topImages embed ++ nestedImages embed = [] := by
            simpa using h1
          have h1a := List.append_eq_nil.mp h1'
          refine ⟨h1a.1, h1a.2, ?_, ?_, ?_, ?_⟩
          · cases hv : embed.EmbedVideo_View with
            | none => rfl
            | some v => rw [hv] at h2; simp [firstOf] at h2
          · cases hv : embed.EmbedVideo_View with
            | none => rw [hv] at h2; simpa [firstOf] using h2
            | some v => rw [hv] at h2; simp [firstOf] at h2
          · cases hv : presentExternal embed.EmbedExternal_View with
            | none => rfl
            | some v => rw [hv] at h3; simp [firstOf] at h3
          · cases hv : presentExternal embed.EmbedExternal_View with
            | none => rw [hv] at h3; simpa [firstOf] using h3
            | some v => rw [hv] at h3; simp [firstOf] at h3
        · rw [if_neg hc] at hnone
          cases hnone
      · rintro ⟨h1, h2, h3, h4, h5, h6⟩
        rw [if_pos]
        refine ⟨?_, ?_, ?_⟩
        · rw [hI, h1, h2]; rfl
        · rw [hV, h3, h4]; rfl
        · rw [hE, h5, h6]; rfl
    · intro m hm
      by_cases hc : (mediaOf embed post.Author).Images.length = 0 ∧
          (mediaOf embed post.Author).Video = none ∧
          (mediaOf embed post.Author).External = none
      · rw [if_pos hc] at hm
        cases hm
      · rw [if_neg hc] at hm
        cases hm
        exact ⟨hI, hV, hE⟩

/-- Evaluation at `mediaPost`: two images, the nested video and the nested external link;
and at a post without an embed. -/
theorem GetPostMedia_nil_iff_witness :
    GetPostMedia (some mediaPost) = some
        ⟨[⟨"t1", "f1", "a1"⟩, ⟨"t2", "f2", "a2"⟩], some ⟨"", "cid", "pl", "did:plc:alice"⟩,
          some ⟨"title", "descr", "th", "https://x"⟩⟩ ∧
      GetPostMedia (some (replyPost "a" "b")) = none ∧
      (GetPostMedia (some
          { Uri := "at://x", Author := none, Record := none,
            Embed := some ⟨some ⟨[none]⟩, none, some ⟨none⟩, some ⟨none⟩⟩ }) = none ↔
        topImages ⟨some ⟨[none]⟩, none, some ⟨none⟩, some ⟨none⟩⟩ = [] ∧
        nestedImages ⟨some ⟨[none]⟩, none, some ⟨none⟩, some ⟨none⟩⟩ = [] ∧
        (none : Option EmbedVideoView) = none ∧
        nestedVideo ⟨some ⟨[none]⟩, none, some ⟨none⟩, some ⟨none⟩⟩ = none ∧
        presentExternal (some ⟨none⟩) = none ∧
        nestedExternal ⟨some ⟨[none]⟩, none, some ⟨none⟩, some ⟨none⟩⟩ = none) :=
  ⟨by decide, (GetPostMedia_nil_iff (replyPost "a" "b")).2.1 (by decide),
    ((GetPostMedia_nil_iff
      { Uri := "at://x", Author := none, Record := none,
        Embed := some ⟨some ⟨[none]⟩, none, some ⟨none⟩, some ⟨none⟩⟩ }).2.2
      ⟨some ⟨[none]⟩, none, some ⟨none⟩, some ⟨none⟩⟩ rfl).1⟩

end Tuiter
